import Mathlib

/-!
# Smart Project Manager: progress, structure, migration, lookups and deletions

A shallow embedding of `src/script.js`.  JavaScript objects become structures
whose optional properties are `Option` fields (`none` is a missing, `null` or
`undefined` property); arrays become lists; `Number` arithmetic on the
percentage is modelled exactly as IEEE 754 binary64 arithmetic on dyadic
rationals.  Documents are well typed: a property that is present has the type
the program writes into it.
-/

namespace SmartPM

/-! ## Data model -/

/-- A checklist entry, a task or a goal: `{ text, completed }`. -/
structure Item where
  text : String
  completed : Bool
  deriving DecidableEq, Repr

/-- A video entry of a materials bucket: `{ id, url }`. -/
structure Video where
  id : String
  url : String
  deriving DecidableEq, Repr

/-- An attached file of a materials bucket: `{ name, type, size, data }`. -/
structure FileEntry where
  name : String
  type : String
  size : Nat
  data : String
  deriving DecidableEq, Repr

/-- A link entry of a materials bucket: `{ url, title }`. -/
structure Link where
  url : String
  title : String
  deriving DecidableEq, Repr

/-- A materials bucket `{ notes, videos, files, links }`; each list may be
missing in an older document. -/
structure Materials where
  notes : Option (List String)
  videos : Option (List Video)
  files : Option (List FileEntry)
  links : Option (List Link)
  deriving DecidableEq, Repr

/-- The bucket literal `{ notes: [], videos: [], files: [], links: [] }`. -/
def emptyMaterials : Materials :=
  { notes := some [], videos := some [], files := some [], links := some [] }

/-- A day node. -/
structure Day where
  id : String
  title : String
  date : Option String
  tasks : Option (List Item)
  materials : Option Materials
  deriving DecidableEq, Repr

/-- A week node. -/
structure Week where
  id : String
  title : String
  goals : Option (List Item)
  days : Option (List Day)
  materials : Option Materials
  deriving DecidableEq, Repr

/-- A phase node. -/
structure Phase where
  id : String
  title : String
  goals : Option (List Item)
  weeks : Option (List Week)
  materials : Option Materials
  deriving DecidableEq, Repr

/-- The structure flags of a project. -/
structure Structure where
  hasPhases : Bool
  hasWeeks : Bool
  hasDays : Bool
  hasMaterials : Bool
  deriving DecidableEq, Repr

/-- A project; `struct` is the property `structure` (a reserved word here). -/
structure Project where
  id : String
  name : String
  description : Option String
  struct : Option Structure
  tasks : Option (List Item)
  phases : Option (List Phase)
  weeks : Option (List Week)
  days : Option (List Day)
  materials : Option Materials
  deriving DecidableEq, Repr

/-- The `settings` object of the application state. -/
structure Settings where
  theme : String
  lastActivity : Option String
  deriving DecidableEq, Repr

/-- The global `appData`. -/
structure AppData where
  projects : List Project
  settings : Settings
  deriving DecidableEq, Repr

/-- The global `currentView`. -/
structure CurrentView where
  type : String
  projectId : Option String
  phaseId : Option String
  weekId : Option String
  dayId : Option String
  deriving DecidableEq, Repr

/-! ## IEEE 754 binary64 arithmetic on the values the program computes -/

/-- A finite non-negative double: the value `mant * 2 ^ exp`. -/
structure Dbl where
  mant : Nat
  exp : Int
  deriving DecidableEq, Repr

/-- The rational value of a double. -/
def Dbl.toRat (x : Dbl) : ℚ := (x.mant : ℚ) * (2 : ℚ) ^ x.exp

/-- The integer nearest to `n / d`, a tie going to the even neighbour
(the rounding of a significand under roundTiesToEven). -/
def roundHalfEven (n d : Nat) : Nat :=
  let q := n / d
  let r := n % d
  if 2 * r < d then q
  else if d < 2 * r then q + 1
  else if q % 2 = 0 then q else q + 1

/-- The loop behind `ilog2`: halve while the number is at least 2. -/
def ilog2Loop : Nat → Nat → Nat
  | 0, _ => 0
  | fuel + 1, n => if 2 ≤ n then ilog2Loop fuel (n / 2) + 1 else 0

/-- The position of the leading bit of `n`: `floor (log2 n)`, and 0 at 0. -/
def ilog2 (n : Nat) : Nat := ilog2Loop n n

/-- The binade of the positive rational `n / d`: the `k` with
`2 ^ k ≤ n / d < 2 ^ (k + 1)`. -/
def binade (n d : Nat) : Int :=
  let k : Int := (ilog2 n : Int) - (ilog2 d : Int)
  if d * 2 ^ k.toNat ≤ n * 2 ^ (-k).toNat then k else k - 1

/-- The double nearest to the exact rational `n / d` (`0 < d`), ties to even:
53 significant bits, the exponent not below that of the subnormals.  Overflow
to `Infinity` is outside the model; the program stays below `2 ^ 7`. -/
def fl (n d : Nat) : Dbl :=
  if n = 0 then ⟨0, 0⟩
  else
    let e : Int := max (binade n d) (-1022) - 52
    ⟨roundHalfEven (n * 2 ^ (-e).toNat) (d * 2 ^ e.toNat), e⟩

/-- The JavaScript quotient `a / b` of two integer-valued Numbers, `0 < b`. -/
def jsDiv (a b : Nat) : Dbl := fl a b

/-- The JavaScript product `x * k` of a double and an integer-valued Number. -/
def jsMul (x : Dbl) (k : Nat) : Dbl :=
  fl (x.mant * k * 2 ^ x.exp.toNat) (2 ^ (-x.exp).toNat)

/-- `Math.round(x)` for a non-negative double: `floor(x + 1/2)`. -/
def mathRound (x : Dbl) : Nat :=
  (2 * x.mant * 2 ^ x.exp.toNat + 2 ^ (-x.exp).toNat) / (2 * 2 ^ (-x.exp).toNat)

/-- The expression `totalItems > 0 ? Math.round((completedItems / totalItems) * 100) : 0`
shared by the progress functions. -/
def percent (completedItems totalItems : Nat) : Nat :=
  if totalItems > 0 then mathRound (jsMul (jsDiv completedItems totalItems) 100) else 0

/-! ## Progress calculations -/

/-- The running pair `(totalItems, completedItems)` of a progress function. -/
abbrev Counts := Nat × Nat

/-- The closure `countItems(items)`: nothing for a missing list, otherwise
`totalItems += items.length; completedItems += items.filter(item => item.completed).length`. -/
def countItems (acc : Counts) (items : Option (List Item)) : Counts :=
  match items with
  | none => acc
  | some l => (acc.1 + l.length, acc.2 + (l.filter fun item => item.completed).length)

/-- The loop `days.forEach(day => countItems(day.tasks))`. -/
def countDays (acc : Counts) (days : List Day) : Counts :=
  days.foldl (fun a day => countItems a day.tasks) acc

/-- The body run for one week: `countItems(week.goals)` and, when `week.days`
is present, the loop over its days. -/
def countWeek (acc : Counts) (week : Week) : Counts :=
  let a := countItems acc week.goals
  match week.days with
  | none => a
  | some ds => countDays a ds

/-- The loop `weeks.forEach(week => ...)`. -/
def countWeeks (acc : Counts) (weeks : List Week) : Counts :=
  weeks.foldl countWeek acc

/-- The body run for one phase: `countItems(phase.goals)` and, when
`phase.weeks` is present, the loop over its weeks. -/
def countPhase (acc : Counts) (phase : Phase) : Counts :=
  let a := countItems acc phase.goals
  match phase.weeks with
  | none => a
  | some ws => countWeeks a ws

/-- The loop `project.phases.forEach(phase => ...)`. -/
def countPhases (acc : Counts) (phases : List Phase) : Counts :=
  phases.foldl countPhase acc

/-- The counters of `calculateProjectProgress` just before its `return`. -/
def projectCounts (project : Project) : Counts :=
  let a0 := countItems (0, 0) project.tasks
  let a1 := match project.phases with
    | none => a0
    | some ps => countPhases a0 ps
  let a2 := match project.weeks with
    | none => a1
    | some ws => if project.phases.isNone then countWeeks a1 ws else a1
  match project.days with
  | none => a2
  | some ds => if project.weeks.isNone && project.phases.isNone then countDays a2 ds else a2

/-- The function `calculateProjectProgress(project)`. -/
def calculateProjectProgress (project : Project) : Nat :=
  let a := projectCounts project
  percent a.2 a.1

/-- The function `calculatePhaseProgress(phase)`. -/
def calculatePhaseProgress (phase : Phase) : Nat :=
  let a := countPhase (0, 0) phase
  percent a.2 a.1

/-- The function `calculateWeekProgress(week)`. -/
def calculateWeekProgress (week : Week) : Nat :=
  let a := countWeek (0, 0) week
  percent a.2 a.1

/-- The function `calculateDayProgress(day)`. -/
def calculateDayProgress (day : Day) : Nat :=
  match day.tasks with
  | none => 0
  | some tasks =>
    if tasks.length = 0 then 0
    else
      let completed := (tasks.filter fun t => t.completed).length
      mathRound (jsMul (jsDiv completed tasks.length) 100)

/-! ## Specification-side notions for the progress functions -/

/-- The number of completed entries of a list of items. -/
def completedCount (l : List Item) : Nat := (l.filter fun item => item.completed).length

/-- The items of a day, as the specification words it: its tasks. -/
def dayItems (day : Day) : List Item := day.tasks.getD []

/-- The items of a week, as the specification words it: its own goals plus
all tasks of all of its days. -/
def weekItems (week : Week) : List Item :=
  week.goals.getD [] ++ (week.days.getD []).flatMap dayItems

/-- The items of a phase, as the specification words it: its own goals, the
goals of every week of the phase and the tasks of every day of those weeks. -/
def phaseItems (phase : Phase) : List Item :=
  phase.goals.getD [] ++ (phase.weeks.getD []).flatMap weekItems

/-- The items reachable from a project, as the specification words it: its own
tasks plus every goal and task of every phase, week and day below it, each
node visited once. -/
def projectItems (project : Project) : List Item :=
  project.tasks.getD [] ++ (project.phases.getD []).flatMap phaseItems
    ++ (project.weeks.getD []).flatMap weekItems ++ (project.days.getD []).flatMap dayItems

/-- The items `calculateProjectProgress` visits, for a project of any shape:
top-level weeks only without a phases collection, top-level days only without
a weeks and without a phases collection. -/
def countedItems (project : Project) : List Item :=
  project.tasks.getD [] ++ (project.phases.getD []).flatMap phaseItems
    ++ (if project.phases.isNone then (project.weeks.getD []).flatMap weekItems else [])
    ++ (if project.weeks.isNone && project.phases.isNone
        then (project.days.getD []).flatMap dayItems else [])

/-- The four nesting shapes of the data model: flat (no child collection),
phased (only `phases`), weekly (only `weeks`), daily (only `days`). -/
def validShape (project : Project) : Bool :=
  match project.phases, project.weeks, project.days with
  | none, none, none => true
  | some _, none, none => true
  | none, some _, none => true
  | none, none, some _ => true
  | _, _, _ => false

/-- The integer `r` is a nearest integer to the percentage `100 * c / t`:
`|r - 100 * c / t| ≤ 1 / 2`, written without division. -/
def IsRoundedPercent (r c t : Nat) : Prop :=
  2 * t * r ≤ 200 * c + t ∧ 200 * c ≤ 2 * t * r + t

/-- Round-half-up of the percentage `100 * c / t`, as the specification words
it: `floor ((200 * c + t) / (2 * t))`. -/
def roundHalfUp (c t : Nat) : Nat := (200 * c + t) / (2 * t)

/-- A day with `total` tasks of which the first `done` are completed. -/
def sampleDay (done total : Nat) : Day :=
  { id := "d1", title := "Day 1", date := none,
    tasks := some
      (List.replicate done ⟨"t", true⟩ ++ List.replicate (total - done) ⟨"t", false⟩),
    materials := none }

/-- The result `r` computed for the item list `l` agrees with round-half-up
except possibly at an exact tie: for a non-empty `l` of fewer than `2 ^ 44`
items, `r` is `roundHalfUp` or one below it, and it is `roundHalfUp` whenever
`100 * c / t` is not exactly half-way between two integers. -/
def HalfUpExceptTies (r : Nat) (l : List Item) : Prop :=
  0 < l.length → l.length < 2 ^ 44 →
    r ≤ roundHalfUp (completedCount l) l.length ∧
    roundHalfUp (completedCount l) l.length ≤ r + 1 ∧
    ((200 * completedCount l + l.length) % (2 * l.length) ≠ 0 →
      r = roundHalfUp (completedCount l) l.length)

/-- A phased project: one phase with a goal, one week with two goals and one
day with two tasks; three of the six items are completed. -/
def samplePhased : Project :=
  { id := "p1", name := "Sample", description := some "", struct := some ⟨true, true, true, true⟩,
    tasks := some [⟨"plan", false⟩],
    phases := some [
      { id := "ph1", title := "Phase 1", goals := some [⟨"g", true⟩],
        weeks := some [
          { id := "w1", title := "Week 1", goals := some [⟨"a", true⟩, ⟨"b", false⟩],
            days := some [
              { id := "d1", title := "Day 1", date := some "2024-01-01",
                tasks := some [⟨"x", true⟩, ⟨"y", false⟩], materials := none }],
            materials := none }],
        materials := none }],
    weeks := none, days := none, materials := none }

/-- The week of the scenario: goals `[done, done]` and one day with tasks
`[done, not done]`. -/
def sampleWeek : Week :=
  { id := "w1", title := "Week 1", goals := some [⟨"g1", true⟩, ⟨"g2", true⟩],
    days := some [
      { id := "d1", title := "Day 1", date := none,
        tasks := some [⟨"t1", true⟩, ⟨"t2", false⟩], materials := none }],
    materials := none }

/-- A phase holding `sampleWeek` and one open goal of its own. -/
def samplePhase : Phase :=
  { id := "ph1", title := "Phase 1", goals := some [⟨"g", false⟩],
    weeks := some [sampleWeek], materials := none }

/-- A project that has a phases collection and also top-level weeks and days. -/
def sampleMixed : Project :=
  { samplePhased with
    weeks := some [sampleWeek],
    days := some [sampleDay 1 2] }

/-- A project with top-level weeks and top-level days and no phases. -/
def sampleWeeklyWithDays : Project :=
  { samplePhased with
    phases := none,
    weeks := some [sampleWeek],
    days := some [sampleDay 1 2] }

/-! ## Load-time migration (the `forEach` loop of `loadData`) -/

/-- The statement
`if (!x.materials) x.materials = { notes: [], videos: [], files: [], links: [] }`. -/
def defaultMaterials (m : Option Materials) : Option Materials :=
  match m with
  | none => some emptyMaterials
  | some b => some b

/-- The statement `if (!x.goals) x.goals = []` (and the same for `tasks`). -/
def defaultItems (items : Option (List Item)) : Option (List Item) :=
  match items with
  | none => some []
  | some l => some l

/-- The body run for a day below a phase: default `tasks`, default `materials`. -/
def migratePhaseDay (day : Day) : Day :=
  { day with tasks := defaultItems day.tasks, materials := defaultMaterials day.materials }

/-- The body run for a week below a phase: default `goals`, default
`materials`, then every day when `week.days` is present. -/
def migratePhaseWeek (week : Week) : Week :=
  { week with
    goals := defaultItems week.goals,
    materials := defaultMaterials week.materials,
    days := week.days.map fun ds => ds.map migratePhaseDay }

/-- The body run for a phase: default `goals`, default `materials`, then every
week when `phase.weeks` is present. -/
def migratePhase (phase : Phase) : Phase :=
  { phase with
    goals := defaultItems phase.goals,
    materials := defaultMaterials phase.materials,
    weeks := phase.weeks.map fun ws => ws.map migratePhaseWeek }

/-- The body run for a day in the standalone branches: default `materials` only. -/
def migrateStandaloneDay (day : Day) : Day :=
  { day with materials := defaultMaterials day.materials }

/-- The body run for a standalone week: default `materials`, then the
`materials` of every day when `week.days` is present. -/
def migrateStandaloneWeek (week : Week) : Week :=
  { week with
    materials := defaultMaterials week.materials,
    days := week.days.map fun ds => ds.map migrateStandaloneDay }

/-- The body of `appData.projects.forEach(project => ...)` in `loadData`. -/
def migrateProject (project : Project) : Project :=
  { project with
    struct := match project.struct with
      | none => some ⟨false, false, false, false⟩
      | some s => some s,
    description := match project.description with
      | none => some ""
      | some d => if d = "" then some "" else some d,
    tasks := defaultItems project.tasks,
    materials := defaultMaterials project.materials,
    phases := project.phases.map fun ps => ps.map migratePhase,
    weeks := match project.weeks with
      | none => none
      | some ws => if project.phases.isNone then some (ws.map migrateStandaloneWeek) else some ws,
    days := match project.days with
      | none => none
      | some ds =>
        if project.weeks.isNone && project.phases.isNone
        then some (ds.map migrateStandaloneDay) else some ds }

/-- The migration loop of `loadData` over the whole application state. -/
def migrate (appData : AppData) : AppData :=
  { appData with projects := appData.projects.map migrateProject }

/-- A day holds a materials bucket. -/
def dayHasMaterials (day : Day) : Bool := day.materials.isSome

/-- A week and every day of it hold a materials bucket. -/
def weekHasMaterials (week : Week) : Bool :=
  week.materials.isSome && (week.days.getD []).all dayHasMaterials

/-- A phase, every week of it and every day of those weeks hold a materials bucket. -/
def phaseHasMaterials (phase : Phase) : Bool :=
  phase.materials.isSome && (phase.weeks.getD []).all weekHasMaterials

/-- Every node of the project holds a materials bucket: the project, every
phase, every week (inside a phase or top-level) and every day (inside a week
or top-level). -/
def allHaveMaterials (project : Project) : Bool :=
  project.materials.isSome && (project.phases.getD []).all phaseHasMaterials
    && (project.weeks.getD []).all weekHasMaterials
    && (project.days.getD []).all dayHasMaterials

/-- The nodes the migration visits hold a materials bucket: the project, its
phases with their weeks and days, the top-level weeks (and their days) when
there is no phases collection, the top-level days when there is neither a
phases nor a weeks collection. -/
def visitedHaveMaterials (project : Project) : Bool :=
  project.materials.isSome && (project.phases.getD []).all phaseHasMaterials
    && (project.phases.isSome || (project.weeks.getD []).all weekHasMaterials)
    && (project.phases.isSome || project.weeks.isSome
        || (project.days.getD []).all dayHasMaterials)

/-- A legacy week record: no goals, no days, no materials. -/
def legacyWeek : Week :=
  { id := "w1", title := "Week 1", goals := none, days := none, materials := none }

/-- A legacy project that has an (empty) phases collection and a top-level week. -/
def legacyPhasedWithWeeks : Project :=
  { id := "p1", name := "Legacy", description := none, struct := none, tasks := none,
    phases := some [], weeks := some [legacyWeek], days := none, materials := none }

/-- A legacy weekly project: top-level weeks only, the week without goals. -/
def legacyWeekly : Project :=
  { id := "p1", name := "Legacy", description := none, struct := none, tasks := none,
    phases := none, weeks := some [legacyWeek], days := none, materials := none }

/-- The default settings `{ theme: 'dark', lastActivity: null }`. -/
def defaultSettings : Settings := { theme := "dark", lastActivity := none }

/-! ## Tree accessors -/

/-- The loop of `findWeek` over `project.phases`: the first week with the id
in the first phase that has one. -/
def findWeekInPhases (phases : List Phase) (weekId : String) : Option Week :=
  match phases with
  | [] => none
  | phase :: rest =>
    match phase.weeks with
    | none => findWeekInPhases rest weekId
    | some ws =>
      match ws.find? fun w => w.id == weekId with
      | some week => some week
      | none => findWeekInPhases rest weekId

/-- The function `findWeek(project, weekId)`; `none` is the `null` or
`undefined` it returns on a miss. -/
def findWeek (project : Project) (weekId : String) : Option Week :=
  let inPhases := match project.phases with
    | none => none
    | some ps => findWeekInPhases ps weekId
  match inPhases with
  | some week => some week
  | none =>
    match project.weeks with
    | none => none
    | some ws => ws.find? fun w => w.id == weekId

/-- The inner loop of `findDay` over a list of weeks: the first day with the
id in the first week that has one. -/
def findDayInWeeks (weeks : List Week) (dayId : String) : Option Day :=
  match weeks with
  | [] => none
  | week :: rest =>
    match week.days with
    | none => findDayInWeeks rest dayId
    | some ds =>
      match ds.find? fun d => d.id == dayId with
      | some day => some day
      | none => findDayInWeeks rest dayId

/-- The loop of `findDay` over `project.phases`. -/
def findDayInPhases (phases : List Phase) (dayId : String) : Option Day :=
  match phases with
  | [] => none
  | phase :: rest =>
    match phase.weeks with
    | none => findDayInPhases rest dayId
    | some ws =>
      match findDayInWeeks ws dayId with
      | some day => some day
      | none => findDayInPhases rest dayId

/-- The function `findDay(project, dayId)`; `none` is the `null` or
`undefined` it returns on a miss. -/
def findDay (project : Project) (dayId : String) : Option Day :=
  let inPhases := match project.phases with
    | none => none
    | some ps => findDayInPhases ps dayId
  match inPhases with
  | some day => some day
  | none =>
    let inWeeks := match project.weeks with
      | none => none
      | some ws => findDayInWeeks ws dayId
    match inWeeks with
    | some day => some day
    | none =>
      match project.days with
      | none => none
      | some ds => ds.find? fun d => d.id == dayId

/-! ## Application state and the operations that build the project tree -/

/-- The mutable globals of the program together with the stored blob:
`stored` is the item `smartProjectManager` of `localStorage`, kept as the
document it serialises. -/
structure AppState where
  appData : AppData
  currentView : CurrentView
  currentMaterialsContext : String
  stored : Option AppData
  deriving DecidableEq, Repr

/-- The state of a fresh page before anything was stored. -/
def initialState : AppState :=
  { appData := { projects := [], settings := defaultSettings },
    currentView := { type := "home", projectId := none, phaseId := none, weekId := none,
                     dayId := none },
    currentMaterialsContext := "project",
    stored := none }

/-- What an event handler leaves behind: the state, and whether it ended by
an uncaught `TypeError`. -/
structure Outcome where
  state : AppState
  raised : Bool
  deriving DecidableEq, Repr

/-- The characters `String.prototype.trim` strips (WhiteSpace and LineTerminator). -/
def isJsWhiteSpace (c : Char) : Bool :=
  let n := c.toNat
  n = 0x09 || n = 0x0A || n = 0x0B || n = 0x0C || n = 0x0D || n = 0x20 || n = 0xA0
    || n = 0x1680 || (0x2000 ≤ n && n ≤ 0x200A) || n = 0x2028 || n = 0x2029 || n = 0x202F
    || n = 0x205F || n = 0x3000 || n = 0xFEFF

/-- The method `s.trim()`. -/
def jsTrim (s : String) : String :=
  String.mk ((s.toList.dropWhile isJsWhiteSpace).reverse.dropWhile isJsWhiteSpace).reverse

/-- Truthiness of an id held in `currentView`: present and not the empty string. -/
def truthyId (id : Option String) : Bool :=
  match id with
  | none => false
  | some s => s != ""

/-- An in-place change of the element `find` returns: the first element
satisfying `p` is replaced by its image, the rest is kept. -/
def modifyFirst {α : Type} (l : List α) (p : α → Bool) (f : α → α) : List α :=
  match l with
  | [] => []
  | x :: xs => if p x then f x :: xs else x :: modifyFirst xs p f

/-- The lookup `appData.projects.find(p => p.id === currentView.projectId)`. -/
def findProject (appData : AppData) (projectId : Option String) : Option Project :=
  appData.projects.find? fun p => some p.id == projectId

/-- An in-place change of the project `findProject` returns. -/
def modifyProject (st : AppState) (f : Project → Project) : AppState :=
  { st with appData := { st.appData with
      projects := modifyFirst st.appData.projects
        (fun p => some p.id == st.currentView.projectId) f } }

/-! The view refresh.  The render functions only write to the page, so each is
modelled by the one thing it can leave behind: whether it ends by an uncaught
`TypeError` (`true`).  The page elements the script looks up by id are taken
to exist. -/

/-- The function `renderChecklist(items, itemType)`: it raises exactly when
`items` is missing, at `items.filter` or at `filtered.forEach`. -/
def renderChecklist (items : Option (List Item)) : Bool := items.isNone

/-- The function `renderHome()`: every property it reads is a property of a
project that `calculateProjectProgress` and the card template read behind a
presence test, so it never raises. -/
def renderHome (_appData : AppData) : Bool := false

/-- The function `renderProject(projectId)`: `renderHome()` when the project is
not found; otherwise it raises at `project.structure.hasDays` when the project
has no `structure`, and in `renderChecklist(project.tasks)` when it has no
`tasks`. -/
def renderProject (appData : AppData) (projectId : Option String) : Bool :=
  match findProject appData projectId with
  | none => renderHome appData
  | some project => project.struct.isNone || renderChecklist project.tasks

/-- The function `renderPhase(projectId, phaseId)`: it raises at
`project.phases.find` when the project has no `phases`; for a phase that is
found it raises at `project.structure.hasWeeks` without a `structure` and in
`renderChecklist(phase.goals)` without `goals`. -/
def renderPhase (appData : AppData) (projectId phaseId : Option String) : Bool :=
  match findProject appData projectId with
  | none => false
  | some project =>
    match project.phases with
    | none => true
    | some ps =>
      match ps.find? fun p => some p.id == phaseId with
      | none => false
      | some phase => project.struct.isNone || renderChecklist phase.goals

/-- The function `renderWeek(projectId, phaseId, weekId)`: for a week that is
found it raises at `project.phases.find` when `phaseId` is truthy and the
project has no `phases`, at `project.structure.hasDays` without a `structure`,
and in `renderChecklist(week.goals)` without `goals`. -/
def renderWeek (appData : AppData) (projectId phaseId weekId : Option String) : Bool :=
  match findProject appData projectId with
  | none => false
  | some project =>
    match weekId with
    | none => false
    | some id =>
      match findWeek project id with
      | none => false
      | some week =>
        (truthyId phaseId && project.phases.isNone) || project.struct.isNone
          || renderChecklist week.goals

/-- The function `renderDay(projectId, phaseId, weekId, dayId)`: for a day that
is found it raises in `renderChecklist(day.tasks)` when the day has no `tasks`. -/
def renderDay (appData : AppData) (projectId dayId : Option String) : Bool :=
  match findProject appData projectId with
  | none => false
  | some project =>
    match dayId with
    | none => false
    | some id =>
      match findDay project id with
      | none => false
      | some day => renderChecklist day.tasks

/-- The function `renderMaterials(projectId)`: the collections are read behind
presence tests and the bucket through `getMaterialsContext` and
`materials.notes || []`, so it never raises. -/
def renderMaterials (_appData : AppData) (_projectId : Option String) : Bool := false

/-- The function `renderStructure(projectId)`: for a project that is found it
raises at `project.structure.hasPhases` when the project has no `structure`. -/
def renderStructure (appData : AppData) (projectId : Option String) : Bool :=
  match findProject appData projectId with
  | none => false
  | some project => project.struct.isNone

/-- The function `renderProjectAnalysis(projectId)`: `calculateProjectStats`
and `renderPhaseProgressList` read behind presence tests and the chart is
built inside a `try`, so it never raises. -/
def renderProjectAnalysis (_appData : AppData) (_projectId : Option String) : Bool := false

/-- The function `renderProjectCalendar(projectId)`: `getAllWorkDays` reads
behind presence tests, so it never raises. -/
def renderProjectCalendar (_appData : AppData) (_projectId : Option String) : Bool := false

/-- The function `renderView()`: the render function of the current view type;
nothing for any other type. -/
def renderView (st : AppState) : Bool :=
  let view := st.currentView
  if view.type = "home" then renderHome st.appData
  else if view.type = "project" then renderProject st.appData view.projectId
  else if view.type = "phase" then renderPhase st.appData view.projectId view.phaseId
  else if view.type = "week" then
    renderWeek st.appData view.projectId view.phaseId view.weekId
  else if view.type = "day" then renderDay st.appData view.projectId view.dayId
  else if view.type = "materials" then renderMaterials st.appData view.projectId
  else if view.type = "structure" then renderStructure st.appData view.projectId
  else if view.type = "project-analysis" then renderProjectAnalysis st.appData view.projectId
  else if view.type = "project-calendar" then renderProjectCalendar st.appData view.projectId
  else false

/-- Two statements in a row: the second runs only when the first did not raise. -/
def Outcome.andThen (first : Outcome) (next : AppState → Outcome) : Outcome :=
  if first.raised then first else next first.state

/-- The function `saveData()`: stamp `settings.lastActivity`, write the blob,
then `renderView()`, whose `TypeError`, if any, leaves `saveData` after the
write. -/
def saveData (now : String) (st : AppState) : Outcome :=
  let appData :=
    { st.appData with settings := { st.appData.settings with lastActivity := some now } }
  let saved := { st with appData := appData, stored := some appData }
  ⟨saved, renderView saved⟩

/-- The function `navigateTo(type, id)`: replace `currentView` by the view it
builds from its arguments, then call the render function of that type. -/
def navigateTo (st : AppState) (view : CurrentView) : Outcome :=
  let shown := { st with currentView := view }
  ⟨shown, renderView shown⟩

/-- The callback of `createProjectFromTemplate(template)` on the entered
`name`; `newId` is the value of `generateId()`, `now` the time stamp.  When
the view refresh of `saveData()` raises, `navigateTo('project', id)` is
skipped. -/
def createProjectFromTemplate (st : AppState) (template name newId now : String) : Outcome :=
  if jsTrim name = "" then ⟨st, false⟩
  else
    let base : Project :=
      { id := newId, name := jsTrim name, description := some "", tasks := some [],
        materials := some emptyMaterials, struct := some ⟨false, false, false, false⟩,
        phases := none, weeks := none, days := none }
    let project : Project :=
      if template = "phased" then
        { base with struct := some ⟨true, false, false, true⟩, phases := some [] }
      else if template = "weekly" then
        { base with struct := some ⟨false, true, false, true⟩, weeks := some [] }
      else if template = "daily" then
        { base with struct := some ⟨false, false, true, true⟩, days := some [] }
      else if template = "full" then
        { base with struct := some ⟨true, true, true, true⟩, phases := some [] }
      else base
    let st1 := { st with appData := { st.appData with
      projects := st.appData.projects ++ [project] } }
    (saveData now st1).andThen fun saved =>
      navigateTo saved { type := "project", projectId := some project.id, phaseId := none,
                         weekId := none, dayId := none }

/-- The change `updateProjectStructure` makes to the project: the new flags,
then the three `Initialize arrays if checked` statements. -/
def applyStructure (hasPhases hasWeeks hasDays hasMaterials : Bool) (project : Project) :
    Project :=
  let p0 := { project with struct := some ⟨hasPhases, hasWeeks, hasDays, hasMaterials⟩ }
  let p1 := if hasPhases && p0.phases.isNone then { p0 with phases := some [] } else p0
  let p2 := if hasWeeks && p1.weeks.isNone && !hasPhases then { p1 with weeks := some [] } else p1
  if hasDays && p2.days.isNone && !hasWeeks && !hasPhases then { p2 with days := some [] } else p2

/-- The function `updateProjectStructure()`; the four flags are the check boxes. -/
def updateProjectStructure (st : AppState) (hasPhases hasWeeks hasDays hasMaterials : Bool)
    (now : String) : Outcome :=
  match findProject st.appData st.currentView.projectId with
  | none => ⟨st, false⟩
  | some _ =>
    saveData now (modifyProject st (applyStructure hasPhases hasWeeks hasDays hasMaterials))

/-- The function `addPhase()` with the entered `title`.  Reading
`project.structure.hasWeeks` raises when the project has no `structure`; the
statement `if (!project.phases) project.phases = []` has run by then. -/
def addPhase (st : AppState) (title newId now : String) : Outcome :=
  match findProject st.appData st.currentView.projectId with
  | none => ⟨st, false⟩
  | some project =>
    if jsTrim title = "" then ⟨st, false⟩
    else
      match project.struct with
      | none =>
        ⟨modifyProject st fun p => { p with phases := some (p.phases.getD []) }, true⟩
      | some s =>
        let phase : Phase :=
          { id := newId, title := jsTrim title, goals := some [],
            materials := some emptyMaterials,
            weeks := if s.hasWeeks then some [] else none }
        saveData now (modifyProject st fun p =>
            { p with phases := some (p.phases.getD [] ++ [phase]) })

/-- The function `addWeek()` with the entered `title`.  It raises, before any
change, when the project has no `structure`, or when the view is a phase view
and the project has no `phases`. -/
def addWeek (st : AppState) (title newId now : String) : Outcome :=
  match findProject st.appData st.currentView.projectId with
  | none => ⟨st, false⟩
  | some project =>
    if jsTrim title = "" then ⟨st, false⟩
    else
      match project.struct with
      | none => ⟨st, true⟩
      | some s =>
        let week : Week :=
          { id := newId, title := jsTrim title, goals := some [],
            materials := some emptyMaterials,
            days := if s.hasDays then some [] else none }
        if st.currentView.type = "phase" && truthyId st.currentView.phaseId then
          match project.phases with
          | none => ⟨st, true⟩
          | some _ =>
            saveData now (modifyProject st fun p =>
              { p with phases := p.phases.map (fun ps =>
                  modifyFirst ps (fun ph => some ph.id == st.currentView.phaseId)
                    (fun ph => { ph with weeks := some (ph.weeks.getD [] ++ [week]) })) })
        else
          saveData now (modifyProject st fun p =>
            { p with weeks := some (p.weeks.getD [] ++ [week]) })

/-- An in-place change of the week `findWeekInPhases` returns; `none` when it
finds no week. -/
def modifyWeekInPhases (phases : List Phase) (weekId : String) (f : Week → Week) :
    Option (List Phase) :=
  match phases with
  | [] => none
  | phase :: rest =>
    match phase.weeks with
    | none => (modifyWeekInPhases rest weekId f).map fun r => phase :: r
    | some ws =>
      if ws.any fun w => w.id == weekId then
        some ({ phase with weeks := some (modifyFirst ws (fun w => w.id == weekId) f) } :: rest)
      else (modifyWeekInPhases rest weekId f).map fun r => phase :: r

/-- An in-place change of the week `findWeek` returns; nothing changes when it
finds no week. -/
def modifyWeek (project : Project) (weekId : String) (f : Week → Week) : Project :=
  let inPhases := match project.phases with
    | none => none
    | some ps => modifyWeekInPhases ps weekId f
  match inPhases with
  | some ps => { project with phases := some ps }
  | none =>
    match project.weeks with
    | none => project
    | some ws => { project with weeks := some (modifyFirst ws (fun w => w.id == weekId) f) }

/-- The function `addDay()` with the entered `title`. -/
def addDay (st : AppState) (title newId now : String) : Outcome :=
  match findProject st.appData st.currentView.projectId with
  | none => ⟨st, false⟩
  | some _ =>
    if jsTrim title = "" then ⟨st, false⟩
    else
      let day : Day :=
        { id := newId, title := jsTrim title, date := some "", tasks := some [],
          materials := some emptyMaterials }
      if st.currentView.type = "week" && truthyId st.currentView.weekId then
        saveData now (modifyProject st fun p =>
          modifyWeek p (st.currentView.weekId.getD "") fun w =>
            { w with days := some (w.days.getD [] ++ [day]) })
      else
        saveData now (modifyProject st fun p =>
          { p with days := some (p.days.getD [] ++ [day]) })

/-- A user action that builds or reshapes the project tree, or a change of view. -/
inductive Action where
  | createProjectFromTemplate (template name newId now : String)
  | updateProjectStructure (hasPhases hasWeeks hasDays hasMaterials : Bool) (now : String)
  | addPhase (title newId now : String)
  | addWeek (title newId now : String)
  | addDay (title newId now : String)
  | navigateTo (view : CurrentView)
  deriving DecidableEq, Repr

/-- One action run on a state. -/
def step (st : AppState) (action : Action) : Outcome :=
  match action with
  | .createProjectFromTemplate template name newId now =>
    createProjectFromTemplate st template name newId now
  | .updateProjectStructure hasPhases hasWeeks hasDays hasMaterials now =>
    updateProjectStructure st hasPhases hasWeeks hasDays hasMaterials now
  | .addPhase title newId now => addPhase st title newId now
  | .addWeek title newId now => addWeek st title newId now
  | .addDay title newId now => addDay st title newId now
  | .navigateTo view => navigateTo st view

/-- The state after a sequence of actions. -/
def run (st : AppState) (actions : List Action) : AppState :=
  actions.foldl (fun s a => (step s a).state) st

/-- The shape invariant of the data model: exactly the child collection the
flags select is present (phases when `hasPhases`, else weeks when `hasWeeks`,
else days when `hasDays`), and none for a flat project. -/
def shapeInvariant (project : Project) : Bool :=
  match project.struct with
  | none => project.phases.isNone && project.weeks.isNone && project.days.isNone
  | some s =>
    if s.hasPhases then project.phases.isSome && project.weeks.isNone && project.days.isNone
    else if s.hasWeeks then project.phases.isNone && project.weeks.isSome && project.days.isNone
    else if s.hasDays then project.phases.isNone && project.weeks.isNone && project.days.isSome
    else project.phases.isNone && project.weeks.isNone && project.days.isNone

/-- The part of the shape invariant the program keeps: the child collection
the flags select is present. -/
def selectedPresent (project : Project) : Bool :=
  match project.struct with
  | none => true
  | some s =>
    if s.hasPhases then project.phases.isSome
    else if s.hasWeeks then project.weeks.isSome
    else if s.hasDays then project.days.isSome
    else true

/-- The project `q` has the flags of `p` and every top-level collection `p` has. -/
def Grows (p q : Project) : Prop :=
  q.struct = p.struct ∧ (p.phases.isSome = true → q.phases.isSome = true) ∧
    (p.weeks.isSome = true → q.weeks.isSome = true) ∧
    (p.days.isSome = true → q.days.isSome = true)

/-- A weekly project is created, the structure view is opened and the phases
box is ticked. -/
def reshapeTrace : List Action :=
  [ .createProjectFromTemplate "weekly" "Thesis" "id1" "2024-01-01T00:00:00.000Z",
    .navigateTo { type := "structure", projectId := some "id1", phaseId := none,
                  weekId := none, dayId := none },
    .updateProjectStructure true true false true "2024-01-02T00:00:00.000Z" ]

/-- The project the trace `reshapeTrace` leaves: the flags select phases, and
both the `phases` and the `weeks` collection are present. -/
def reshapedProject : Project :=
  { id := "id1", name := "Thesis", description := some "",
    struct := some ⟨true, true, false, true⟩, tasks := some [],
    phases := some [], weeks := some [], days := none, materials := some emptyMaterials }

/-! ## Tree accessors: days -/

/-- The weeks of a list of phases, in phase order then week order. -/
def weeksOfPhases (phases : List Phase) : List Week :=
  phases.flatMap fun phase => phase.weeks.getD []

/-- The days of a list of weeks, in week order then day order. -/
def daysOfWeeks (weeks : List Week) : List Day :=
  weeks.flatMap fun week => week.days.getD []

/-- The search order of the specification for weeks: the weeks of the phases
first, in phase order, then the top-level weeks. -/
def searchedWeeks (project : Project) : List Week :=
  weeksOfPhases (project.phases.getD []) ++ project.weeks.getD []

/-- The search order of the specification for days: the days of the weeks of
the phases, then the days of the top-level weeks, then the top-level days. -/
def searchedDays (project : Project) : List Day :=
  daysOfWeeks (weeksOfPhases (project.phases.getD []))
    ++ daysOfWeeks (project.weeks.getD []) ++ project.days.getD []

/-- The weeks `findWeek` searches as the specification words it: the weeks of
the phases when the project has a phases collection, the top-level weeks
otherwise. -/
def statedWeeks (project : Project) : List Week :=
  match project.phases with
  | some ps => weeksOfPhases ps
  | none => project.weeks.getD []

/-- The result of `findWeek` as the specification words it: the first week
with the id among `statedWeeks`. -/
def findWeekAsStated (project : Project) (weekId : String) : Option Week :=
  (statedWeeks project).find? fun w => w.id == weekId

/-- A weekly project is created, a week is added from its project view, the
structure view is opened and the phases box is ticked. -/
def reshapeWithWeekTrace : List Action :=
  [ .createProjectFromTemplate "weekly" "Thesis" "id1" "2024-01-01T00:00:00.000Z",
    .addWeek "Week 1" "w1" "2024-01-01T00:01:00.000Z",
    .navigateTo { type := "structure", projectId := some "id1", phaseId := none,
                  weekId := none, dayId := none },
    .updateProjectStructure true true false true "2024-01-02T00:00:00.000Z" ]

/-- The week the trace `reshapeWithWeekTrace` adds. -/
def addedWeek : Week :=
  { id := "w1", title := "Week 1", goals := some [], days := none,
    materials := some emptyMaterials }

/-- The project the trace `reshapeWithWeekTrace` leaves: an empty `phases`
collection beside the top-level week `w1`. -/
def reshapedWithWeek : Project :=
  { id := "id1", name := "Thesis", description := some "",
    struct := some ⟨true, true, false, true⟩, tasks := some [],
    phases := some [], weeks := some [addedWeek], days := none,
    materials := some emptyMaterials }

/-- The project `reshapedWithWeek` after a phase without weeks was added. -/
def phaseBesideWeek : Project :=
  { reshapedWithWeek with
    phases := some [{ id := "ph1", title := "Phase 1", goals := some [], weeks := some [],
                      materials := some emptyMaterials }] }

/-- The project without any collection, not even `tasks`. -/
def emptyProject : Project :=
  { id := "p0", name := "Empty", description := none, struct := none, tasks := none,
    phases := none, weeks := none, days := none, materials := none }

/-! ## Calendar day index -/

/-- An entry of `getAllWorkDays`: `{ date, dayId, projectId, phaseId, weekId }`. -/
structure WorkDay where
  date : String
  dayId : String
  projectId : String
  phaseId : Option String
  weekId : Option String
  deriving DecidableEq, Repr

/-- The entry pushed for a day when `day.date` is truthy (present and not
empty); nothing otherwise. -/
def workDayOf (projectId : String) (phaseId weekId : Option String) (day : Day) :
    Option WorkDay :=
  match day.date with
  | none => none
  | some date =>
    if date ≠ "" then
      some { date := date, dayId := day.id, projectId := projectId, phaseId := phaseId,
             weekId := weekId }
    else none

/-- The closure `collectDays(days, projectId, phaseId, weekId)` acting on the
array `workDays`. -/
def collectDays (workDays : List WorkDay) (days : Option (List Day)) (projectId : String)
    (phaseId weekId : Option String) : List WorkDay :=
  match days with
  | none => workDays
  | some ds =>
    ds.foldl (fun acc day =>
      match workDayOf projectId phaseId weekId day with
      | some entry => acc ++ [entry]
      | none => acc) workDays

/-- The function `getAllWorkDays(project)`. -/
def getAllWorkDays (project : Project) : List WorkDay :=
  let w0 : List WorkDay := []
  let w1 := match project.phases with
    | none => w0
    | some ps =>
      ps.foldl (fun acc phase =>
        match phase.weeks with
        | none => acc
        | some ws =>
          ws.foldl (fun acc2 week =>
            collectDays acc2 week.days project.id (some phase.id) (some week.id)) acc) w0
  let w2 := match project.weeks with
    | none => w1
    | some ws =>
      if project.phases.isNone then
        ws.foldl (fun acc week => collectDays acc week.days project.id none (some week.id)) w1
      else w1
  match project.days with
  | none => w2
  | some ds =>
    if project.weeks.isNone && project.phases.isNone then
      collectDays w2 (some ds) project.id none none
    else w2

/-- The day nodes of a list of weeks, each with the ids of its owners. -/
def dayNodesOfWeeks (phaseId : Option String) (weeks : List Week) :
    List (Option String × Option String × Day) :=
  weeks.flatMap fun week => (week.days.getD []).map fun day => (phaseId, some week.id, day)

/-- Every day node of a project with the ids of the phase and week that own
it: days below phases, days of top-level weeks (no phase), top-level days
(no phase, no week). -/
def dayNodes (project : Project) : List (Option String × Option String × Day) :=
  (project.phases.getD []).flatMap
      (fun phase => dayNodesOfWeeks (some phase.id) (phase.weeks.getD []))
    ++ dayNodesOfWeeks none (project.weeks.getD [])
    ++ (project.days.getD []).map (fun day => (none, none, day))

/-- The day has a non-empty date. -/
def hasDate (day : Day) : Bool := day.date.getD "" != ""

/-- The calendar entries the specification asks for: one entry for each day
node with a non-empty date, carrying the date and id of the day, the id of the
project and the ids of the owning phase and week. -/
def expectedWorkDays (project : Project) : List WorkDay :=
  ((dayNodes project).filter fun n => hasDate n.2.2).map fun n =>
    { date := n.2.2.date.getD "", dayId := n.2.2.id, projectId := project.id,
      phaseId := n.1, weekId := n.2.1 }

/-- A weekly project with one dated and one undated day. -/
def sampleCalendar : Project :=
  { id := "p1", name := "Calendar", description := some "",
    struct := some ⟨false, true, true, true⟩, tasks := some [], phases := none,
    weeks := some [
      { id := "w1", title := "Week 1", goals := some [],
        days := some [
          { id := "d1", title := "Mon", date := some "2024-03-04", tasks := some [],
            materials := none },
          { id := "d2", title := "Tue", date := some "", tasks := some [],
            materials := none }],
        materials := none }],
    days := none, materials := none }

/-! ## Materials context -/

/-- The method `split` with a one-character separator, on character lists. -/
def splitChars (sep : Char) : List Char → List (List Char)
  | [] => [[]]
  | c :: cs =>
    if c = sep then [] :: splitChars sep cs
    else
      match splitChars sep cs with
      | [] => [[c]]
      | h :: t => (c :: h) :: t

/-- The method `s.split(sep)` for a one-character separator. -/
def jsSplit (s : String) (sep : Char) : List String :=
  (splitChars sep s.toList).map String.mk

/-- The function `getMaterialsContext()`; `none` is the `null` or `undefined`
it returns.  Every property is read behind a presence test
(`project.phases?.find`, `phase ? phase.materials : null`), so nothing raises. -/
def getMaterialsContext (st : AppState) : Option Materials :=
  match findProject st.appData st.currentView.projectId with
  | none => none
  | some project =>
    if st.currentMaterialsContext = "project" then project.materials
    else
      let parts := jsSplit st.currentMaterialsContext ':'
      let type := parts.head?
      let id := parts.get? 1
      if type = some "phase" then
        match project.phases with
        | none => none
        | some ps =>
          match ps.find? fun p => some p.id == id with
          | some phase => phase.materials
          | none => none
      else if type = some "week" then
        match id with
        | none => none
        | some weekId =>
          match findWeek project weekId with
          | some week => week.materials
          | none => none
      else if type = some "day" then
        match id with
        | none => none
        | some dayId =>
          match findDay project dayId with
          | some day => day.materials
          | none => none
      else project.materials

/-- A state showing the migrated `samplePhased` with the materials context of
its phase. -/
def samplePhaseContext : AppState :=
  { appData := { projects := [migrateProject samplePhased], settings := defaultSettings },
    currentView := { type := "materials", projectId := some "p1", phaseId := none,
                     weekId := none, dayId := none },
    currentMaterialsContext := "phase:ph1",
    stored := none }

/-! ## Deleting nodes -/

/-- The view `navigateTo('home')` sets. -/
def homeView : CurrentView :=
  { type := "home", projectId := none, phaseId := none, weekId := none, dayId := none }

/-- The function `deleteProject(projectId)`; `confirmed` is the answer to the
`confirm` dialog.  When the view refresh of `saveData()` raises,
`navigateTo('home')` is skipped. -/
def deleteProject (st : AppState) (projectId : String) (confirmed : Bool) (now : String) :
    Outcome :=
  if !confirmed then ⟨st, false⟩
  else
    let st1 := { st with appData := { st.appData with
      projects := st.appData.projects.filter fun p => p.id != projectId } }
    (saveData now st1).andThen fun saved => navigateTo saved homeView

/-- The function `deleteSidebarItem(id, type)`; `confirmed` is the answer to
the `confirm` dialog.  Deleting a week from a phase view raises when the
project has no `phases`.  Every branch that deletes ends in `saveData()`, so it
raises when the view refresh does; in the project branch `navigateTo('home')`
is then skipped. -/
def deleteSidebarItem (st : AppState) (id type : String) (confirmed : Bool) (now : String) :
    Outcome :=
  if type = "project" then
    if !confirmed then ⟨st, false⟩
    else
      let st1 := { st with appData := { st.appData with
        projects := st.appData.projects.filter fun p => p.id != id } }
      (saveData now st1).andThen fun saved => navigateTo saved homeView
  else
    match findProject st.appData st.currentView.projectId with
    | none => ⟨st, false⟩
    | some project =>
      if !confirmed then ⟨st, false⟩
      else if type = "phase" && project.phases.isSome then
        saveData now (modifyProject st fun p =>
          { p with phases := p.phases.map (fun ps => ps.filter (fun ph => ph.id != id)) })
      else if type = "week" then
        if truthyId st.currentView.phaseId then
          match project.phases with
          | none => ⟨st, true⟩
          | some ps =>
            match ps.find? fun ph => some ph.id == st.currentView.phaseId with
            | none => ⟨st, false⟩
            | some phase =>
              if phase.weeks.isSome then
                saveData now (modifyProject st fun p =>
                  { p with phases := p.phases.map (fun ps =>
                      modifyFirst ps (fun ph => some ph.id == st.currentView.phaseId)
                        (fun ph => { ph with weeks := ph.weeks.map (fun ws =>
                          ws.filter (fun w => w.id != id)) })) })
              else ⟨st, false⟩
        else if project.weeks.isSome then
          saveData now (modifyProject st fun p =>
            { p with weeks := p.weeks.map (fun ws => ws.filter (fun w => w.id != id)) })
        else ⟨st, false⟩
      else if type = "day" then
        if truthyId st.currentView.weekId then
          match findWeek project (st.currentView.weekId.getD "") with
          | none => ⟨st, false⟩
          | some week =>
            if week.days.isSome then
              saveData now (modifyProject st fun p =>
                modifyWeek p (st.currentView.weekId.getD "") fun w =>
                  { w with days := w.days.map (fun ds => ds.filter (fun d => d.id != id)) })
            else ⟨st, false⟩
        else if project.days.isSome then
          saveData now (modifyProject st fun p =>
            { p with days := p.days.map (fun ds => ds.filter (fun d => d.id != id)) })
        else ⟨st, false⟩
      else ⟨st, false⟩

/-- The first phase of `twoPhaseProject`. -/
def phaseOne : Phase :=
  { id := "ph1", title := "One", goals := some [], weeks := none,
    materials := some emptyMaterials }

/-- The second phase of `twoPhaseProject`. -/
def phaseTwo : Phase :=
  { id := "ph2", title := "Two", goals := some [], weeks := none,
    materials := some emptyMaterials }

/-- A phased project with the phases `ph1` and `ph2`. -/
def twoPhaseProject : Project :=
  { id := "p1", name := "Two phases", description := some "",
    struct := some ⟨true, false, false, true⟩, tasks := some [],
    phases := some [phaseOne, phaseTwo],
    weeks := none, days := none, materials := some emptyMaterials }

/-- A state showing the materials of `twoPhaseProject`, the materials context
being phase `ph2`. -/
def twoPhaseContext : AppState :=
  { appData := { projects := [twoPhaseProject], settings := defaultSettings },
    currentView := { type := "materials", projectId := some "p1", phaseId := none,
                     weekId := none, dayId := none },
    currentMaterialsContext := "phase:ph2",
    stored := none }

/-- A project view of a phased project that has no `tasks` property, the
materials context being its phase `ph1`. -/
def tasklessProjectView : AppState :=
  { appData :=
      { projects := [
          { id := "p1", name := "No tasks", description := some "",
            struct := some ⟨true, false, false, true⟩, tasks := none,
            phases := some [
              { id := "ph1", title := "One", goals := some [], weeks := none,
                materials := some emptyMaterials }],
            weeks := none, days := none, materials := some emptyMaterials }],
        settings := defaultSettings },
    currentView := { type := "project", projectId := some "p1", phaseId := none,
                     weekId := none, dayId := none },
    currentMaterialsContext := "phase:ph1",
    stored := none }

/-! ## Checklist operations -/

/-- An in-place change of the day `findDayInWeeks` returns; `none` when it
finds no day. -/
def modifyDayInWeeks (weeks : List Week) (dayId : String) (f : Day → Day) :
    Option (List Week) :=
  match weeks with
  | [] => none
  | week :: rest =>
    match week.days with
    | none => (modifyDayInWeeks rest dayId f).map fun r => week :: r
    | some ds =>
      if ds.any fun d => d.id == dayId then
        some ({ week with days := some (modifyFirst ds (fun d => d.id == dayId) f) } :: rest)
      else (modifyDayInWeeks rest dayId f).map fun r => week :: r

/-- An in-place change of the day `findDayInPhases` returns; `none` when it
finds no day. -/
def modifyDayInPhases (phases : List Phase) (dayId : String) (f : Day → Day) :
    Option (List Phase) :=
  match phases with
  | [] => none
  | phase :: rest =>
    match phase.weeks with
    | none => (modifyDayInPhases rest dayId f).map fun r => phase :: r
    | some ws =>
      match modifyDayInWeeks ws dayId f with
      | some ws2 => some ({ phase with weeks := some ws2 } :: rest)
      | none => (modifyDayInPhases rest dayId f).map fun r => phase :: r

/-- An in-place change of the day `findDay` returns; nothing changes when it
finds no day. -/
def modifyDay (project : Project) (dayId : String) (f : Day → Day) : Project :=
  let inPhases := match project.phases with
    | none => none
    | some ps => modifyDayInPhases ps dayId f
  match inPhases with
  | some ps => { project with phases := some ps }
  | none =>
    let inWeeks := match project.weeks with
      | none => none
      | some ws => modifyDayInWeeks ws dayId f
    match inWeeks with
    | some ws => { project with weeks := some ws }
    | none =>
      match project.days with
      | none => project
      | some ds => { project with days := some (modifyFirst ds (fun d => d.id == dayId) f) }

/-- The function `getItemsArray(project, itemType)`, which reads only
`currentView`: `ok none` is the `null` or `undefined` it returns, `error` the
`TypeError` of `project.phases.find` on a project without `phases`. -/
def getItemsArray (view : CurrentView) (project : Project) :
    Except String (Option (List Item)) :=
  if view.type = "project" then .ok project.tasks
  else if view.type = "phase" then
    match project.phases with
    | none => .error "TypeError: project.phases is undefined"
    | some ps =>
      match ps.find? fun p => some p.id == view.phaseId with
      | some phase => .ok phase.goals
      | none => .ok none
  else if view.type = "week" then
    match view.weekId with
    | none => .ok none
    | some weekId =>
      match findWeek project weekId with
      | some week => .ok week.goals
      | none => .ok none
  else if view.type = "day" then
    match view.dayId with
    | none => .ok none
    | some dayId =>
      match findDay project dayId with
      | some day => .ok day.tasks
      | none => .ok none
  else .ok none

/-- An in-place change of the array `getItemsArray` returns. -/
def modifyItems (view : CurrentView) (f : List Item → List Item) (project : Project) :
    Project :=
  if view.type = "project" then { project with tasks := project.tasks.map f }
  else if view.type = "phase" then
    { project with phases := project.phases.map (fun ps =>
        modifyFirst ps (fun p => some p.id == view.phaseId)
          (fun ph => { ph with goals := ph.goals.map f })) }
  else if view.type = "week" then
    match view.weekId with
    | none => project
    | some weekId => modifyWeek project weekId fun w => { w with goals := w.goals.map f }
  else if view.type = "day" then
    match view.dayId with
    | none => project
    | some dayId => modifyDay project dayId fun d => { d with tasks := d.tasks.map f }
  else project

/-- A change of the element at `index`, nothing when the index is out of range. -/
def modifyNth {α : Type} (l : List α) (index : Nat) (f : α → α) : List α :=
  match l, index with
  | [], _ => []
  | x :: xs, 0 => f x :: xs
  | x :: xs, n + 1 => x :: modifyNth xs n f

/-- The function `toggleItem(index, itemType)`. -/
def toggleItem (st : AppState) (index : Nat) (_itemType now : String) : Outcome :=
  match findProject st.appData st.currentView.projectId with
  | none => ⟨st, false⟩
  | some project =>
    match getItemsArray st.currentView project with
    | .error _ => ⟨st, true⟩
    | .ok none => ⟨st, false⟩
    | .ok (some items) =>
      if index < items.length then
        saveData now (modifyProject st (modifyItems st.currentView fun l =>
          modifyNth l index fun item => { item with completed := !item.completed }))
      else ⟨st, false⟩

/-- The function `editItem(index, itemType)` with the entered `newText`. -/
def editItem (st : AppState) (index : Nat) (_itemType newText now : String) : Outcome :=
  match findProject st.appData st.currentView.projectId with
  | none => ⟨st, false⟩
  | some project =>
    match getItemsArray st.currentView project with
    | .error _ => ⟨st, true⟩
    | .ok none => ⟨st, false⟩
    | .ok (some items) =>
      if index < items.length then
        if jsTrim newText = "" then ⟨st, false⟩
        else
          saveData now (modifyProject st (modifyItems st.currentView fun l =>
            modifyNth l index fun item => { item with text := jsTrim newText }))
      else ⟨st, false⟩

/-- The function `deleteItem(index, itemType)`: no confirmation is asked. -/
def deleteItem (st : AppState) (index : Nat) (_itemType now : String) : Outcome :=
  match findProject st.appData st.currentView.projectId with
  | none => ⟨st, false⟩
  | some project =>
    match getItemsArray st.currentView project with
    | .error _ => ⟨st, true⟩
    | .ok none => ⟨st, false⟩
    | .ok (some _) =>
      saveData now (modifyProject st (modifyItems st.currentView fun l =>
        l.eraseIdx index))

/-- The function `addItem()` with the entered `text`.  It raises on a phase
view of a project without `phases`, and when the list to push onto is missing. -/
def addItem (st : AppState) (text now : String) : Outcome :=
  match findProject st.appData st.currentView.projectId with
  | none => ⟨st, false⟩
  | some project =>
    let push : List Item → List Item := fun l => l ++ [⟨jsTrim text, false⟩]
    let pushed : Outcome :=
      saveData now (modifyProject st (modifyItems st.currentView push))
    if st.currentView.type = "project" then
      if jsTrim text = "" then ⟨st, false⟩
      else if project.tasks.isNone then ⟨st, true⟩ else pushed
    else if st.currentView.type = "phase" then
      match project.phases with
      | none => ⟨st, true⟩
      | some ps =>
        match ps.find? fun p => some p.id == st.currentView.phaseId with
        | none => ⟨st, false⟩
        | some phase =>
          if jsTrim text = "" then ⟨st, false⟩
          else if phase.goals.isNone then ⟨st, true⟩ else pushed
    else if st.currentView.type = "week" then
      match st.currentView.weekId with
      | none => ⟨st, false⟩
      | some weekId =>
        match findWeek project weekId with
        | none => ⟨st, false⟩
        | some week =>
          if jsTrim text = "" then ⟨st, false⟩
          else if week.goals.isNone then ⟨st, true⟩ else pushed
    else if st.currentView.type = "day" then
      match st.currentView.dayId with
      | none => ⟨st, false⟩
      | some dayId =>
        match findDay project dayId with
        | none => ⟨st, false⟩
        | some day =>
          if jsTrim text = "" then ⟨st, false⟩
          else if day.tasks.isNone then ⟨st, true⟩ else pushed
    else ⟨st, false⟩

/-- A flat project shown in a phase view: the project has no `phases`. -/
def phaseViewOfFlat : AppState :=
  { appData :=
      { projects := [
          { id := "p1", name := "Flat", description := some "",
            struct := some ⟨false, false, false, false⟩,
            tasks := some [⟨"t", false⟩], phases := none, weeks := none, days := none,
            materials := some emptyMaterials }],
        settings := defaultSettings },
    currentView := { type := "phase", projectId := some "p1", phaseId := some "ph1",
                     weekId := none, dayId := none },
    currentMaterialsContext := "project",
    stored := none }

/-! ## Deleting materials -/

/-- An in-place change of the bucket `getMaterialsContext` returns. -/
def modifyMaterials (context : String) (f : Materials → Materials) (project : Project) :
    Project :=
  if context = "project" then { project with materials := project.materials.map f }
  else
    let parts := jsSplit context ':'
    let type := parts.head?
    let id := parts.get? 1
    if type = some "phase" then
      { project with phases := project.phases.map (fun ps =>
          modifyFirst ps (fun p => some p.id == id)
            (fun ph => { ph with materials := ph.materials.map f })) }
    else if type = some "week" then
      match id with
      | none => project
      | some weekId =>
        modifyWeek project weekId fun w => { w with materials := w.materials.map f }
    else if type = some "day" then
      match id with
      | none => project
      | some dayId =>
        modifyDay project dayId fun d => { d with materials := d.materials.map f }
    else { project with materials := project.materials.map f }

/-- The shared body of `deleteNote`, `deleteVideo`, `deleteFile` and
`deleteLink`: when the bucket resolves and holds the list (`present`), splice
the list (`f`) and save.  No confirmation is asked. -/
def deleteMaterial (st : AppState) (present : Materials → Bool) (f : Materials → Materials)
    (now : String) : Outcome :=
  match getMaterialsContext st with
  | none => ⟨st, false⟩
  | some materials =>
    if present materials then
      saveData now (modifyProject st (modifyMaterials st.currentMaterialsContext f))
    else ⟨st, false⟩

/-- The function `deleteNote(index)`. -/
def deleteNote (st : AppState) (index : Nat) (now : String) : Outcome :=
  deleteMaterial st (fun m => m.notes.isSome)
    (fun m => { m with notes := m.notes.map fun l => l.eraseIdx index }) now

/-- The function `deleteVideo(index)`. -/
def deleteVideo (st : AppState) (index : Nat) (now : String) : Outcome :=
  deleteMaterial st (fun m => m.videos.isSome)
    (fun m => { m with videos := m.videos.map fun l => l.eraseIdx index }) now

/-- The function `deleteFile(index)`. -/
def deleteFile (st : AppState) (index : Nat) (now : String) : Outcome :=
  deleteMaterial st (fun m => m.files.isSome)
    (fun m => { m with files := m.files.map fun l => l.eraseIdx index }) now

/-- The function `deleteLink(index)`. -/
def deleteLink (st : AppState) (index : Nat) (now : String) : Outcome :=
  deleteMaterial st (fun m => m.links.isSome)
    (fun m => { m with links := m.links.map fun l => l.eraseIdx index }) now

/-- The state was saved at time `now`: the stored document is its `appData`,
whose `lastActivity` is `now`. -/
def SavedAt (now : String) (st : AppState) : Prop :=
  st.stored = some st.appData ∧ st.appData.settings.lastActivity = some now

/-- A state showing the materials of a flat project that holds one note. -/
def oneNoteState : AppState :=
  { appData :=
      { projects := [
          { id := "p1", name := "Notes", description := some "",
            struct := some ⟨false, false, false, true⟩,
            tasks := some [⟨"t", false⟩], phases := none, weeks := none, days := none,
            materials := some { notes := some ["remember"], videos := some [],
                                files := some [], links := some [] } }],
        settings := defaultSettings },
    currentView := { type := "materials", projectId := some "p1", phaseId := none,
                     weekId := none, dayId := none },
    currentMaterialsContext := "project",
    stored := none }

/-- The state `oneNoteState` seen from the project view. -/
def oneTaskState : AppState :=
  { oneNoteState with
    currentView := { type := "project", projectId := some "p1", phaseId := none,
                     weekId := none, dayId := none } }

/-- The type part of a context selector, as the specification words it: the
text before the first colon (the whole text when there is none). -/
def typePrefixOf (context : String) : String :=
  String.mk (context.toList.takeWhile fun c => c != ':')

/-- The state `samplePhaseContext` with a selector of an unknown type. -/
def unknownTypeContext : AppState :=
  { samplePhaseContext with currentMaterialsContext := "files:ph1" }

/-! ## Persistence: load, save, export, import -/

/-- A parsed stored document: each top-level key may be missing. -/
structure RawDocument where
  projects : Option (List Project)
  settings : Option Settings
  deriving DecidableEq, Repr

/-- The text read from `localStorage`: text on which `JSON.parse` raises, or
the document it parses to. -/
inductive Blob where
  | malformed (text : String)
  | document (doc : RawDocument)
  deriving DecidableEq, Repr

/-- The default `appData` of the program text. -/
def defaultAppData : AppData := { projects := [], settings := defaultSettings }

/-- The function `loadData()` on the global `appData`; `saved` is the item
read from `localStorage`, `none` when it is absent or the empty string.  A
`JSON.parse` failure is caught and logged.  A parsed document is spread over
`appData` key by key, then the migration loop runs. -/
def loadData (appData : AppData) (saved : Option Blob) : AppData :=
  match saved with
  | none => appData
  | some (.malformed _) => appData
  | some (.document parsed) =>
    migrate
      { projects := parsed.projects.getD appData.projects,
        settings := parsed.settings.getD appData.settings }

/-- The function `saveDataQuietly()`: the two statements of `saveData`
without the view refresh. -/
def saveDataQuietly (now : String) (st : AppState) : AppState :=
  let appData :=
    { st.appData with settings := { st.appData.settings with lastActivity := some now } }
  { st with appData := appData, stored := some appData }

/-- The content of a file chosen for import: text on which `JSON.parse`
raises, or a full document.  `JSON.stringify` followed by `JSON.parse` gives
back the document, so an exported file is kept as the document it holds; a file
that parses to something else than a full document is outside the model. -/
inductive ImportFile where
  | malformed (text : String)
  | document (doc : AppData)
  deriving DecidableEq, Repr

/-- The file `exportData()` downloads. -/
def exportData (st : AppState) : ImportFile := .document st.appData

/-- The function `importData(event)` together with its `reader.onload`
handler; `file` is `event.target.files[0]` read as text, `confirmed` the
answer to the `confirm` dialog.  A `JSON.parse` failure is caught and shown
by `alert`; so is a `TypeError` of the view refresh inside `saveData()`, which
comes after the data was replaced and stored and skips `navigateTo('home')`.
Nothing is raised to the caller. -/
def importData (st : AppState) (file : Option ImportFile) (confirmed : Bool) (now : String) :
    Outcome :=
  match file with
  | none => ⟨st, false⟩
  | some (.malformed _) => ⟨st, false⟩
  | some (.document imported) =>
    if confirmed then
      let replaced :=
        (saveData now { st with appData := imported }).andThen fun saved =>
          navigateTo saved homeView
      ⟨replaced.state, false⟩
    else ⟨st, false⟩

/-- A state saved once, at `2024-01-01`, holding the sample phased project. -/
def savedState : AppState :=
  (saveData "2024-01-01T00:00:00.000Z"
    { initialState with
      appData := { projects := [samplePhased], settings := defaultSettings } }).state

/-! ## Adding a video -/

/-- The list `cs` starts with the list `head`. -/
def startsWith : List Char → List Char → Bool
  | _, [] => true
  | [], _ :: _ => false
  | c :: cs, h :: hs => c == h && startsWith cs hs

/-- The class `[^&\n?#]` of the first pattern. -/
def isIdRunChar (c : Char) : Bool :=
  !(c = '&' || c = '\n' || c = '?' || c = '#')

/-- The three alternatives `youtube\.com\/watch\?v=`, `youtu\.be\/` and
`youtube\.com\/embed\/` of the first pattern, in their order. -/
def urlHeads : List (List Char) :=
  ["youtube.com/watch?v=".toList, "youtu.be/".toList, "youtube.com/embed/".toList]

/-- A match of the first pattern that starts at the head of `cs`: one of the
alternatives, then the longest non-empty run of `[^&\n?#]`, which is the
captured group. -/
def matchUrlAt (cs : List Char) : Option (List Char) :=
  urlHeads.findSome? fun head =>
    if startsWith cs head then
      match (cs.drop head.length).takeWhile isIdRunChar with
      | [] => none
      | c :: run => some (c :: run)
    else none

/-- The leftmost match of the first pattern in `cs`. -/
def searchUrl : List Char → Option (List Char)
  | [] => matchUrlAt []
  | c :: cs =>
    match matchUrlAt (c :: cs) with
    | some run => some run
    | none => searchUrl cs

/-- The class `[a-zA-Z0-9_-]` of the second pattern. -/
def isIdChar (c : Char) : Bool :=
  ('a' ≤ c && c ≤ 'z') || ('A' ≤ c && c ≤ 'Z') || ('0' ≤ c && c ≤ '9') || c = '_' || c = '-'

/-- The function `extractYouTubeId(url)`: the group of the first pattern that
matches, `none` for `null`. -/
def extractYouTubeId (url : String) : Option String :=
  match searchUrl url.toList with
  | some run => some (String.mk run)
  | none =>
    if url.toList.length = 11 && url.toList.all isIdChar then some url else none

/-- The function `addVideo()`; `input` is the value of the URL field. -/
def addVideo (st : AppState) (input now : String) : Outcome :=
  let url := jsTrim input
  if url = "" then ⟨st, false⟩
  else
    match extractYouTubeId url with
    | none => ⟨st, false⟩
    | some videoId =>
      match getMaterialsContext st with
      | none => ⟨st, false⟩
      | some _ =>
        saveData now (modifyProject st (modifyMaterials st.currentMaterialsContext fun m =>
          { m with videos := some (m.videos.getD [] ++ [{ id := videoId, url := url }]) }))

/-! ## Project statistics -/

/-- The object `calculateProjectStats` returns. -/
structure ProjectStats where
  totalTasks : Nat
  completedTasks : Nat
  totalPhases : Nat
  totalWeeks : Nat
  totalDays : Nat
  completionRate : Nat
  deriving DecidableEq, Repr

/-- The five counters of `calculateProjectStats`. -/
structure StatCounters where
  totalTasks : Nat
  completedTasks : Nat
  totalPhases : Nat
  totalWeeks : Nat
  totalDays : Nat
  deriving DecidableEq, Repr

/-- The two statements `totalTasks += x ? x.length : 0` and
`completedTasks += x ? x.filter(t => t.completed).length : 0`. -/
def statItems (s : StatCounters) (items : Option (List Item)) : StatCounters :=
  { s with
    totalTasks := s.totalTasks + (match items with
      | some l => l.length
      | none => 0),
    completedTasks := s.completedTasks + (match items with
      | some l => (l.filter fun t => t.completed).length
      | none => 0) }

/-- The loop over the days of a week or of the project. -/
def statDays (s : StatCounters) (days : List Day) : StatCounters :=
  days.foldl (fun a day => statItems a day.tasks) s

/-- The body run for one week: its goals, then `totalDays += week.days.length`
and the loop over its days when `week.days` is present. -/
def statWeek (s : StatCounters) (week : Week) : StatCounters :=
  let a := statItems s week.goals
  match week.days with
  | none => a
  | some ds => statDays { a with totalDays := a.totalDays + ds.length } ds

/-- The loop over a list of weeks. -/
def statWeeks (s : StatCounters) (weeks : List Week) : StatCounters :=
  weeks.foldl statWeek s

/-- The body run for one phase: its goals, then `totalWeeks += phase.weeks.length`
and the loop over its weeks when `phase.weeks` is present. -/
def statPhase (s : StatCounters) (phase : Phase) : StatCounters :=
  let a := statItems s phase.goals
  match phase.weeks with
  | none => a
  | some ws => statWeeks { a with totalWeeks := a.totalWeeks + ws.length } ws

/-- The counters of `calculateProjectStats` just before `completionRate` is
computed. -/
def projectStatCounters (project : Project) : StatCounters :=
  let s0 := statItems ⟨0, 0, 0, 0, 0⟩ project.tasks
  let s1 := match project.phases with
    | none => s0
    | some ps => ps.foldl statPhase { s0 with totalPhases := ps.length }
  let s2 := match project.weeks with
    | none => s1
    | some ws =>
      if project.phases.isNone then statWeeks { s1 with totalWeeks := ws.length } ws else s1
  match project.days with
  | none => s2
  | some ds =>
    if project.weeks.isNone && project.phases.isNone then
      statDays { s2 with totalDays := ds.length } ds
    else s2

/-- The function `calculateProjectStats(project)`. -/
def calculateProjectStats (project : Project) : ProjectStats :=
  let s := projectStatCounters project
  { totalTasks := s.totalTasks, completedTasks := s.completedTasks,
    totalPhases := s.totalPhases, totalWeeks := s.totalWeeks, totalDays := s.totalDays,
    completionRate := percent s.completedTasks s.totalTasks }

/-- The pair `(totalTasks, completedTasks)` of the counters. -/
def taskCounts (s : StatCounters) : Counts := (s.totalTasks, s.completedTasks)

/-! ## What the load-time normalisation keeps -/

/-- A materials bucket that is present before is the same bucket after. -/
def MaterialsKept (before after : Option Materials) : Prop :=
  ∀ b, before = some b → after = some b

/-- The checklist holds the same items, in the same order, with the same text
and completion flag; a missing list holds no item. -/
def ItemsKept (before after : Option (List Item)) : Prop :=
  after.getD [] = before.getD []

/-- A child collection is present after exactly when it was present before, and
it holds the same number of nodes, pairwise related by `R` in the same order. -/
def ChildrenKept {α : Type} (R : α → α → Prop) (before after : Option (List α)) : Prop :=
  before.isSome = after.isSome ∧ List.Forall₂ R (before.getD []) (after.getD [])

/-- The day `after` is the day `before` with nothing present altered. -/
def DayKept (before after : Day) : Prop :=
  after.id = before.id ∧ after.title = before.title ∧ after.date = before.date ∧
  ItemsKept before.tasks after.tasks ∧ MaterialsKept before.materials after.materials

/-- The week `after` is the week `before` with nothing present altered, days
included. -/
def WeekKept (before after : Week) : Prop :=
  after.id = before.id ∧ after.title = before.title ∧
  ItemsKept before.goals after.goals ∧ MaterialsKept before.materials after.materials ∧
  ChildrenKept DayKept before.days after.days

/-- The phase `after` is the phase `before` with nothing present altered, weeks
and days included. -/
def PhaseKept (before after : Phase) : Prop :=
  after.id = before.id ∧ after.title = before.title ∧
  ItemsKept before.goals after.goals ∧ MaterialsKept before.materials after.materials ∧
  ChildrenKept WeekKept before.weeks after.weeks

/-- The project `after` is the project `before` with nothing present altered:
same id and name, a present description and `structure` kept, same tasks, a
present materials bucket kept, and the same phases, weeks and days. -/
def ProjectKept (before after : Project) : Prop :=
  after.id = before.id ∧ after.name = before.name ∧
  (∀ d, before.description = some d → after.description = some d) ∧
  (∀ s, before.struct = some s → after.struct = some s) ∧
  ItemsKept before.tasks after.tasks ∧ MaterialsKept before.materials after.materials ∧
  ChildrenKept PhaseKept before.phases after.phases ∧
  ChildrenKept WeekKept before.weeks after.weeks ∧
  ChildrenKept DayKept before.days after.days

/-! ## Progress before and after a change of the tree -/

/-- The list `after` has as many items as `before` and at least as many
completed ones. -/
def ItemsUp (before after : List Item) : Prop :=
  after.length = before.length ∧ completedCount before ≤ completedCount after

/-- The tasks of a day: as many as before, at least as many completed. -/
def DayUp (before after : Day) : Prop := ItemsUp (dayItems before) (dayItems after)

/-- The goals of a week and, day by day in the same order, the tasks of its
days: as many as before, at least as many completed. -/
def WeekUp (before after : Week) : Prop :=
  ItemsUp (before.goals.getD []) (after.goals.getD []) ∧
  List.Forall₂ DayUp (before.days.getD []) (after.days.getD [])

/-- The goals of a phase and, week by week in the same order, the items of its
weeks: as many as before, at least as many completed. -/
def PhaseUp (before after : Phase) : Prop :=
  ItemsUp (before.goals.getD []) (after.goals.getD []) ∧
  List.Forall₂ WeekUp (before.weeks.getD []) (after.weeks.getD [])

/-- The same collections are present, and every checklist of the tree holds as
many items as before and at least as many completed ones. -/
def ProjectUp (before after : Project) : Prop :=
  after.phases.isNone = before.phases.isNone ∧ after.weeks.isNone = before.weeks.isNone ∧
  ItemsUp (before.tasks.getD []) (after.tasks.getD []) ∧
  List.Forall₂ PhaseUp (before.phases.getD []) (after.phases.getD []) ∧
  List.Forall₂ WeekUp (before.weeks.getD []) (after.weeks.getD []) ∧
  List.Forall₂ DayUp (before.days.getD []) (after.days.getD [])

/-- The value of `calculateDayProgress` did not decrease. -/
def DayProgressUp (before after : Day) : Prop :=
  calculateDayProgress before ≤ calculateDayProgress after

/-- The value of `calculateWeekProgress` did not decrease, nor did
`calculateDayProgress` of any day of the week. -/
def WeekProgressUp (before after : Week) : Prop :=
  calculateWeekProgress before ≤ calculateWeekProgress after ∧
  List.Forall₂ DayProgressUp (before.days.getD []) (after.days.getD [])

/-- The value of `calculatePhaseProgress` did not decrease, nor did the progress
of any week or day of the phase. -/
def PhaseProgressUp (before after : Phase) : Prop :=
  calculatePhaseProgress before ≤ calculatePhaseProgress after ∧
  List.Forall₂ WeekProgressUp (before.weeks.getD []) (after.weeks.getD [])

/-- The value of `calculateProjectProgress` did not decrease, nor did the
progress of any phase, week or day of the project; the nodes are compared
position by position. -/
def ProjectProgressUp (before after : Project) : Prop :=
  calculateProjectProgress before ≤ calculateProjectProgress after ∧
  List.Forall₂ PhaseProgressUp (before.phases.getD []) (after.phases.getD []) ∧
  List.Forall₂ WeekProgressUp (before.weeks.getD []) (after.weeks.getD []) ∧
  List.Forall₂ DayProgressUp (before.days.getD []) (after.days.getD [])

/-- The project `samplePhased` seen from the view of its day `d1`. -/
def dayViewState : AppState :=
  { appData := { projects := [samplePhased], settings := defaultSettings },
    currentView := { type := "day", projectId := some "p1", phaseId := some "ph1",
                     weekId := some "w1", dayId := some "d1" },
    currentMaterialsContext := "project",
    stored := none }

/-! ## Theorems -/

theorem roundHalfEven_bounds (n d : Nat) (hd : 0 < d) :
    2 * roundHalfEven n d * d ≤ 2 * n + d ∧ 2 * n ≤ 2 * roundHalfEven n d * d + d := by
  have h := Nat.div_add_mod n d
  have hm := Nat.mod_lt n hd
  unfold roundHalfEven
  simp only
  generalize n / d = q at *
  generalize n % d = r at *
  have e1 : 2 * q * d = 2 * (d * q) := by ring
  have e2 : 2 * (q + 1) * d = 2 * (d * q) + 2 * d := by ring
  split_ifs <;> constructor <;> omega

theorem roundHalfEven_le (n d K : Nat) (hd : 0 < d) (h : n ≤ K * d) :
    roundHalfEven n d ≤ K := by
  have hb := (roundHalfEven_bounds n d hd).1
  by_contra hc
  push_neg at hc
  have : (K + 1) * d ≤ roundHalfEven n d * d := Nat.mul_le_mul_right d hc
  nlinarith

theorem ilog2Loop_eq (fuel n : Nat) (h : n ≤ fuel) : ilog2Loop fuel n = Nat.log 2 n := by
  induction fuel generalizing n with
  | zero =>
    have : n = 0 := by omega
    subst this
    simp [ilog2Loop]
  | succ f ih =>
    unfold ilog2Loop
    split_ifs with h2
    · rw [ih (n / 2) (by omega)]
      exact (Nat.log_of_one_lt_of_le (by norm_num) h2).symm
    · exact (Nat.log_of_lt (by omega)).symm

theorem ilog2_eq (n : Nat) : ilog2 n = Nat.log 2 n := ilog2Loop_eq n n le_rfl

theorem ilog2_le_of_le_mul_pow (n d K : Nat) (hd : 0 < d) (h : n ≤ d * 2 ^ K) :
    ilog2 n ≤ ilog2 d + K := by
  rw [ilog2_eq, ilog2_eq]
  have hlog : ∀ k : Nat, Nat.log 2 (d * 2 ^ k) = Nat.log 2 d + k := by
    intro k
    induction k with
    | zero => simp
    | succ k ih =>
      rw [pow_succ, ← mul_assoc, Nat.log_mul_base (by norm_num) (by positivity), ih]
      rfl
  calc Nat.log 2 n ≤ Nat.log 2 (d * 2 ^ K) := Nat.log_mono_right h
    _ = Nat.log 2 d + K := hlog K

theorem binade_le (n d K : Nat) (hd : 0 < d) (h : n ≤ d * 2 ^ K) : binade n d ≤ (K : Int) := by
  have := ilog2_le_of_le_mul_pow n d K hd h
  unfold binade
  simp only
  split_ifs <;> omega


theorem two_zpow_split (e : Int) :
    (2 : ℚ) ^ e = (2 : ℚ) ^ e.toNat / (2 : ℚ) ^ (-e).toNat := by
  rcases le_total 0 e with h | h
  · have h1 : (-e).toNat = 0 := by omega
    rw [h1, pow_zero, div_one, ← zpow_natCast, Int.toNat_of_nonneg h]
  · have h1 : e.toNat = 0 := by omega
    have h2 : ((-e).toNat : Int) = -e := Int.toNat_of_nonneg (by omega)
    rw [h1, pow_zero, ← zpow_natCast, h2, zpow_neg, one_div, inv_inv]

theorem fl_exp_le (n d K : Nat) (hn : n ≠ 0) (hd : 0 < d) (h : n ≤ d * 2 ^ K) :
    (fl n d).exp ≤ (K : Int) - 52 := by
  have hb := binade_le n d K hd h
  unfold fl
  rw [if_neg hn]
  simp only
  have : max (binade n d) (-1022) ≤ (K : Int) := max_le hb (by omega)
  omega

theorem fl_err_exp (n d : Nat) (hn : n ≠ 0) (hd : 0 < d) :
    |(fl n d).toRat - (n : ℚ) / d| ≤ (2 : ℚ) ^ (fl n d).exp / 2 := by
  unfold fl
  rw [if_neg hn]
  simp only [Dbl.toRat]
  generalize max (binade n d) (-1022) - 52 = e
  have hD : 0 < d * 2 ^ e.toNat := by positivity
  obtain ⟨h1, h2⟩ := roundHalfEven_bounds (n * 2 ^ (-e).toNat) (d * 2 ^ e.toNat) hD
  generalize roundHalfEven (n * 2 ^ (-e).toNat) (d * 2 ^ e.toNat) = m at h1 h2
  have h1q : (2 : ℚ) * m * (d * 2 ^ e.toNat) ≤ 2 * (n * 2 ^ (-e).toNat) + d * 2 ^ e.toNat := by
    exact_mod_cast h1
  have h2q : (2 : ℚ) * (n * 2 ^ (-e).toNat) ≤ 2 * m * (d * 2 ^ e.toNat) + d * 2 ^ e.toNat := by
    exact_mod_cast h2
  rw [two_zpow_split e]
  generalize (2 : ℚ) ^ e.toNat = B at *
  have hA : (0 : ℚ) < 2 ^ (-e).toNat := by positivity
  generalize (2 : ℚ) ^ (-e).toNat = A at *
  have hd' : (0 : ℚ) < d := by exact_mod_cast hd
  have hAd : 0 < A * d := mul_pos hA hd'
  rw [abs_le]
  constructor
  · rw [neg_le_sub_iff_le_add, div_le_iff₀ hd']
    have e1 : (↑m * (B / A) + B / A / 2) * ↑d = (2 * m * (d * B) + d * B) / (2 * A) := by
      field_simp
      ring
    rw [e1, le_div_iff₀ (by positivity)]
    linarith
  · rw [sub_le_iff_le_add, ← sub_le_iff_le_add', le_div_iff₀ hd']
    have e1 : (↑m * (B / A) - B / A / 2) * ↑d = (2 * m * (d * B) - d * B) / (2 * A) := by
      field_simp
      ring
    rw [e1, div_le_iff₀ (by positivity)]
    linarith

theorem fl_err (n d K : Nat) (hd : 0 < d) (h : n ≤ d * 2 ^ K) :
    |(fl n d).toRat - (n : ℚ) / d| ≤ (2 : ℚ) ^ ((K : Int) - 53) := by
  by_cases hn : n = 0
  · subst hn
    simp [fl, Dbl.toRat]
    positivity
  · refine (fl_err_exp n d hn hd).trans ?_
    have he := fl_exp_le n d K hn hd h
    have : (2 : ℚ) ^ (fl n d).exp / 2 = (2 : ℚ) ^ ((fl n d).exp - 1) := by
      rw [zpow_sub_one₀ (by norm_num)]
      rfl
    rw [this]
    exact zpow_le_zpow_right₀ (by norm_num) (by omega)


theorem mathRound_bounds (x : Dbl) :
    (mathRound x : ℚ) ≤ x.toRat + 1 / 2 ∧ x.toRat + 1 / 2 < (mathRound x : ℚ) + 1 := by
  have hD : 0 < 2 * 2 ^ (-x.exp).toNat := by positivity
  have h1 := Nat.mul_div_le (2 * x.mant * 2 ^ x.exp.toNat + 2 ^ (-x.exp).toNat)
    (2 * 2 ^ (-x.exp).toNat)
  have h2 := Nat.lt_mul_div_succ (2 * x.mant * 2 ^ x.exp.toNat + 2 ^ (-x.exp).toNat) hD
  unfold mathRound
  generalize (2 * x.mant * 2 ^ x.exp.toNat + 2 ^ (-x.exp).toNat) / (2 * 2 ^ (-x.exp).toNat) = r
    at h1 h2
  have h1q : (2 : ℚ) * 2 ^ (-x.exp).toNat * r
      ≤ 2 * x.mant * 2 ^ x.exp.toNat + 2 ^ (-x.exp).toNat := by exact_mod_cast h1
  have h2q : (2 : ℚ) * x.mant * 2 ^ x.exp.toNat + 2 ^ (-x.exp).toNat
      < 2 * 2 ^ (-x.exp).toNat * (r + 1) := by exact_mod_cast h2
  simp only [Dbl.toRat]
  rw [two_zpow_split x.exp]
  generalize (2 : ℚ) ^ x.exp.toNat = P at *
  have hQ : (0 : ℚ) < 2 ^ (-x.exp).toNat := by positivity
  generalize (2 : ℚ) ^ (-x.exp).toNat = Q at *
  have e1 : (x.mant : ℚ) * (P / Q) + 1 / 2 = (2 * x.mant * P + Q) / (2 * Q) := by
    field_simp
    ring
  rw [e1]
  constructor
  · rw [le_div_iff₀ (by positivity)]
    linarith
  · rw [div_lt_iff₀ (by positivity)]
    linarith

theorem jsMul_err (x : Dbl) (k K : Nat) (h : x.toRat * k ≤ (2 : ℚ) ^ K) :
    |(jsMul x k).toRat - x.toRat * k| ≤ (2 : ℚ) ^ ((K : Int) - 53) := by
  have hd : 0 < 2 ^ (-x.exp).toNat := by positivity
  have hval : ((x.mant * k * 2 ^ x.exp.toNat : Nat) : ℚ) / ((2 ^ (-x.exp).toNat : Nat) : ℚ)
      = x.toRat * k := by
    simp only [Dbl.toRat]
    rw [two_zpow_split x.exp]
    push_cast
    ring
  have hle : x.mant * k * 2 ^ x.exp.toNat ≤ 2 ^ (-x.exp).toNat * 2 ^ K := by
    have hdq : (0 : ℚ) < ((2 ^ (-x.exp).toNat : Nat) : ℚ) := by exact_mod_cast hd
    rw [← hval, div_le_iff₀ hdq] at h
    have : ((x.mant * k * 2 ^ x.exp.toNat : Nat) : ℚ)
        ≤ ((2 ^ (-x.exp).toNat * 2 ^ K : Nat) : ℚ) := by
      push_cast at h ⊢
      linarith
    exact_mod_cast this
  have := fl_err (x.mant * k * 2 ^ x.exp.toNat) (2 ^ (-x.exp).toNat) K hd hle
  rw [hval] at this
  exact this

theorem percent_err (c t : Nat) (ht : 0 < t) (hct : c ≤ t) :
    |(percent c t : ℚ) - 100 * c / t| ≤ 1 / 2 + (2 : ℚ) ^ (-45 : Int) := by
  have hx := fl_err c t 0 ht (by simpa using hct)
  have htq : (0 : ℚ) < t := by exact_mod_cast ht
  have hq1 : (c : ℚ) / t ≤ 1 := by
    rw [div_le_one htq]
    exact_mod_cast hct
  have hq0 : (0 : ℚ) ≤ (c : ℚ) / t := by positivity
  have p53 : (2 : ℚ) ^ ((0 : Nat) - 53 : Int) = 1 / 9007199254740992 := by norm_num [zpow_neg]
  have p46 : (2 : ℚ) ^ ((7 : Nat) - 53 : Int) = 1 / 70368744177664 := by norm_num [zpow_neg]
  have p45 : (2 : ℚ) ^ (-45 : Int) = 1 / 35184372088832 := by norm_num [zpow_neg]
  rw [p53] at hx
  rw [abs_le] at hx
  have hy := jsMul_err (fl c t) 100 7 (by norm_num; linarith [hx.2])
  rw [p46, abs_le] at hy
  have hr := mathRound_bounds (jsMul (fl c t) 100)
  have hp : percent c t = mathRound (jsMul (fl c t) 100) := by
    simp [percent, jsDiv, ht]
  have e : (100 : ℚ) * c / t = c / t * 100 := by ring
  rw [hp, p45, e, abs_le]
  push_cast at hy
  constructor <;> linarith [hr.1, hr.2, hy.1, hy.2, hx.1, hx.2]


theorem percent_near (c t : Nat) (ht : 0 < t) (hct : c ≤ t) (hb : t < 2 ^ 44) :
    2 * t * percent c t ≤ 200 * c + t ∧ 200 * c ≤ 2 * t * percent c t + t := by
  have h := percent_err c t ht hct
  have htq : (0 : ℚ) < t := by exact_mod_cast ht
  have hbq : (t : ℚ) < 17592186044416 := by exact_mod_cast hb
  have p45 : (2 : ℚ) ^ (-45 : Int) = 1 / 35184372088832 := by norm_num [zpow_neg]
  rw [p45, abs_le] at h
  have e : (100 : ℚ) * c / t * (2 * t) = 200 * c := by
    field_simp
    ring
  have h1 := mul_le_mul_of_nonneg_right h.1 (by positivity : (0 : ℚ) ≤ 2 * t)
  have h2 := mul_le_mul_of_nonneg_right h.2 (by positivity : (0 : ℚ) ≤ 2 * t)
  rw [sub_mul, e] at h1 h2
  constructor
  · have : ((2 * t * percent c t : Nat) : ℚ) < ((200 * c + t + 1 : Nat) : ℚ) := by
      push_cast
      linarith
    have hn : 2 * t * percent c t < 200 * c + t + 1 := by exact_mod_cast this
    omega
  · have : ((200 * c : Nat) : ℚ) < ((2 * t * percent c t + t + 1 : Nat) : ℚ) := by
      push_cast
      linarith
    have hn : 200 * c < 2 * t * percent c t + t + 1 := by exact_mod_cast this
    omega

theorem percent_le (c t : Nat) (hct : c ≤ t) : percent c t ≤ 100 := by
  rcases Nat.eq_zero_or_pos t with h0 | ht
  · simp [percent, h0]
  · have h := percent_err c t ht hct
    have htq : (0 : ℚ) < t := by exact_mod_cast ht
    have hq1 : (100 : ℚ) * c / t ≤ 100 := by
      rw [div_le_iff₀ htq]
      have : (c : ℚ) ≤ t := by exact_mod_cast hct
      linarith
    have p45 : (2 : ℚ) ^ (-45 : Int) = 1 / 35184372088832 := by norm_num [zpow_neg]
    rw [p45, abs_le] at h
    have : ((percent c t : Nat) : ℚ) < ((101 : Nat) : ℚ) := by
      push_cast
      linarith [h.2]
    have hn : percent c t < 101 := by exact_mod_cast this
    omega

theorem halfUp_of_near (c t r : Nat) (ht : 0 < t)
    (h1 : 2 * t * r ≤ 200 * c + t) (h2 : 200 * c ≤ 2 * t * r + t)
    (hne : (200 * c + t) % (2 * t) ≠ 0) : r = (200 * c + t) / (2 * t) := by
  have hd := Nat.div_add_mod (200 * c + t) (2 * t)
  have hm := Nat.mod_lt (200 * c + t) (by omega : 0 < 2 * t)
  generalize (200 * c + t) / (2 * t) = H at *
  generalize (200 * c + t) % (2 * t) = m at *
  rcases Nat.lt_trichotomy r H with hlt | heq | hgt
  · exfalso
    have : 2 * t * (r + 1) ≤ 2 * t * H := Nat.mul_le_mul_left _ hlt
    rw [Nat.mul_add] at this
    omega
  · exact heq
  · exfalso
    have : 2 * t * (H + 1) ≤ 2 * t * r := Nat.mul_le_mul_left _ hgt
    rw [Nat.mul_add] at this
    omega

theorem completedCount_le (l : List Item) : completedCount l ≤ l.length :=
  List.length_filter_le _ l

theorem completedCount_append (l₁ l₂ : List Item) :
    completedCount (l₁ ++ l₂) = completedCount l₁ + completedCount l₂ := by
  simp [completedCount]

theorem countItems_eq (acc : Counts) (items : Option (List Item)) :
    countItems acc items
      = (acc.1 + (items.getD []).length, acc.2 + completedCount (items.getD [])) := by
  cases items <;> simp [countItems, completedCount]

theorem countDays_eq (ds : List Day) (acc : Counts) :
    countDays acc ds
      = (acc.1 + (ds.flatMap dayItems).length, acc.2 + completedCount (ds.flatMap dayItems)) := by
  induction ds generalizing acc with
  | nil => simp [countDays, completedCount]
  | cons d ds ih =>
    have h : countDays acc (d :: ds) = countDays (countItems acc d.tasks) ds := rfl
    rw [h, ih, countItems_eq]
    simp [dayItems, completedCount_append, Nat.add_assoc]

theorem countWeek_eq (w : Week) (acc : Counts) :
    countWeek acc w = (acc.1 + (weekItems w).length, acc.2 + completedCount (weekItems w)) := by
  unfold countWeek weekItems
  cases hd : w.days with
  | none => simp [countItems_eq, completedCount_append, completedCount]
  | some ds => simp [countItems_eq, countDays_eq, completedCount_append, Nat.add_assoc]

theorem countWeeks_eq (ws : List Week) (acc : Counts) :
    countWeeks acc ws
      = (acc.1 + (ws.flatMap weekItems).length,
         acc.2 + completedCount (ws.flatMap weekItems)) := by
  induction ws generalizing acc with
  | nil => simp [countWeeks, completedCount]
  | cons w ws ih =>
    have h : countWeeks acc (w :: ws) = countWeeks (countWeek acc w) ws := rfl
    rw [h, ih, countWeek_eq]
    simp [completedCount_append, Nat.add_assoc]

theorem countPhase_eq (ph : Phase) (acc : Counts) :
    countPhase acc ph
      = (acc.1 + (phaseItems ph).length, acc.2 + completedCount (phaseItems ph)) := by
  unfold countPhase phaseItems
  cases hd : ph.weeks with
  | none => simp [countItems_eq, completedCount_append, completedCount]
  | some ws => simp [countItems_eq, countWeeks_eq, completedCount_append, Nat.add_assoc]

theorem countPhases_eq (ps : List Phase) (acc : Counts) :
    countPhases acc ps
      = (acc.1 + (ps.flatMap phaseItems).length,
         acc.2 + completedCount (ps.flatMap phaseItems)) := by
  induction ps generalizing acc with
  | nil => simp [countPhases, completedCount]
  | cons p ps ih =>
    have h : countPhases acc (p :: ps) = countPhases (countPhase acc p) ps := rfl
    rw [h, ih, countPhase_eq]
    simp [completedCount_append, Nat.add_assoc]

theorem projectCounts_eq (p : Project) :
    projectCounts p = ((countedItems p).length, completedCount (countedItems p)) := by
  unfold projectCounts countedItems
  rcases hp : p.phases with _ | ps <;> rcases hw : p.weeks with _ | ws <;>
    rcases hd : p.days with _ | ds <;>
    simp [countItems_eq, countPhases_eq, countWeeks_eq, countDays_eq, completedCount_append,
      completedCount, Nat.add_assoc]

theorem countedItems_of_validShape (p : Project) (h : validShape p = true) :
    countedItems p = projectItems p := by
  unfold validShape at h
  unfold countedItems projectItems
  rcases hp : p.phases with _ | ps <;> rcases hw : p.weeks with _ | ws <;>
    rcases hd : p.days with _ | ds <;> simp_all

theorem calculateProjectProgress_eq (p : Project) :
    calculateProjectProgress p
      = percent (completedCount (countedItems p)) (countedItems p).length := by
  simp [calculateProjectProgress, projectCounts_eq]

theorem calculatePhaseProgress_eq (ph : Phase) :
    calculatePhaseProgress ph = percent (completedCount (phaseItems ph)) (phaseItems ph).length := by
  simp [calculatePhaseProgress, countPhase_eq]

theorem calculateWeekProgress_eq (w : Week) :
    calculateWeekProgress w = percent (completedCount (weekItems w)) (weekItems w).length := by
  simp [calculateWeekProgress, countWeek_eq]

theorem calculateDayProgress_eq (d : Day) :
    calculateDayProgress d = percent (completedCount (dayItems d)) (dayItems d).length := by
  unfold calculateDayProgress dayItems
  cases ht : d.tasks with
  | none => simp [percent]
  | some l =>
    by_cases hl : l.length = 0
    · simp [percent, hl]
    · have : 0 < l.length := Nat.pos_of_ne_zero hl
      simp [percent, hl, this, completedCount]

theorem percent_zero_total (c : Nat) : percent c 0 = 0 := by simp [percent]

theorem percent_rounded (l : List Item) (ht : 0 < l.length) (hb : l.length < 2 ^ 44) :
    IsRoundedPercent (percent (completedCount l) l.length) (completedCount l) l.length :=
  percent_near _ _ ht (completedCount_le l) hb

/-- C1: for a project in one of the four valid nesting shapes (with fewer than
`2 ^ 44` items, far above any storable document), `calculateProjectProgress`
is 0 when the project reaches no item, and otherwise is a nearest integer to
`100 * c / t`, where `t` counts every item reachable from the project once and
`c` counts the completed ones. -/
theorem calculateProjectProgress_spec (project : Project)
    (hshape : validShape project = true) (hsize : (projectItems project).length < 2 ^ 44) :
    ((projectItems project).length = 0 → calculateProjectProgress project = 0) ∧
    (0 < (projectItems project).length →
      IsRoundedPercent (calculateProjectProgress project)
        (completedCount (projectItems project)) (projectItems project).length) := by
  rw [calculateProjectProgress_eq, countedItems_of_validShape project hshape]
  constructor
  · intro h0
    rw [h0, percent_zero_total]
  · intro hpos
    exact percent_rounded _ hpos hsize

/-- Witness for C1 on the sample phased project (3 of 6 items completed). -/
theorem calculateProjectProgress_spec_witness :
    validShape samplePhased = true ∧ (projectItems samplePhased).length < 2 ^ 44 ∧
    ((projectItems samplePhased).length = 0 → calculateProjectProgress samplePhased = 0) ∧
    (0 < (projectItems samplePhased).length →
      IsRoundedPercent (calculateProjectProgress samplePhased)
        (completedCount (projectItems samplePhased)) (projectItems samplePhased).length) :=
  ⟨by decide, by decide, calculateProjectProgress_spec samplePhased (by decide) (by decide)⟩

/-- C2: `calculateDayProgress` is 0 for a day whose task list is missing or
empty, otherwise (for fewer than `2 ^ 44` tasks) a nearest integer to
`100 * completed / total`; tasks `[completed, not completed, completed]` give 67. -/
theorem calculateDayProgress_spec (day : Day) (hsize : (dayItems day).length < 2 ^ 44) :
    ((day.tasks = none ∨ day.tasks = some []) → calculateDayProgress day = 0) ∧
    (0 < (dayItems day).length →
      IsRoundedPercent (calculateDayProgress day)
        (completedCount (dayItems day)) (dayItems day).length) ∧
    (∀ (id title a b c : String) (date : Option String) (materials : Option Materials),
      calculateDayProgress
        { id := id, title := title, date := date,
          tasks := some [⟨a, true⟩, ⟨b, false⟩, ⟨c, true⟩], materials := materials } = 67) := by
  refine ⟨?_, ?_, ?_⟩
  · rintro (h | h) <;> simp [calculateDayProgress, h]
  · intro hpos
    rw [calculateDayProgress_eq]
    exact percent_rounded _ hpos hsize
  · intro id title a b c date materials
    simp only [calculateDayProgress, List.length_cons, List.length_nil, List.filter]
    decide

/-- Witness for C2 on a day with 2 of 3 tasks completed. -/
theorem calculateDayProgress_spec_witness :
    (dayItems (sampleDay 2 3)).length < 2 ^ 44 ∧
    IsRoundedPercent (calculateDayProgress (sampleDay 2 3))
      (completedCount (dayItems (sampleDay 2 3))) (dayItems (sampleDay 2 3)).length :=
  ⟨by decide, (calculateDayProgress_spec (sampleDay 2 3) (by decide)).2.1 (by decide)⟩

/-- C3: `calculateWeekProgress` is 0 when the week's goals and the tasks of its
days are together empty, otherwise (for fewer than `2 ^ 44` items) a nearest
integer to `100 * completed / total` over that combined set; a week with goals
`[done, done]` and one day with tasks `[done, not done]` yields 75. -/
theorem calculateWeekProgress_spec (week : Week) (hsize : (weekItems week).length < 2 ^ 44) :
    ((weekItems week).length = 0 → calculateWeekProgress week = 0) ∧
    (0 < (weekItems week).length →
      IsRoundedPercent (calculateWeekProgress week)
        (completedCount (weekItems week)) (weekItems week).length) ∧
    (∀ (id title did dtitle a b c d : String) (date : Option String)
        (m dm : Option Materials),
      calculateWeekProgress
        { id := id, title := title, goals := some [⟨a, true⟩, ⟨b, true⟩],
          days := some [{ id := did, title := dtitle, date := date,
                          tasks := some [⟨c, true⟩, ⟨d, false⟩], materials := dm }],
          materials := m } = 75) := by
  refine ⟨?_, ?_, ?_⟩
  · intro h0
    rw [calculateWeekProgress_eq, h0, percent_zero_total]
  · intro hpos
    rw [calculateWeekProgress_eq]
    exact percent_rounded _ hpos hsize
  · intro id title did dtitle a b c d date m dm
    simp only [calculateWeekProgress, countWeek, countDays, countItems, List.foldl,
      List.length_cons, List.length_nil, List.filter]
    decide

/-- Witness for C3 on the scenario week. -/
theorem calculateWeekProgress_spec_witness :
    (weekItems sampleWeek).length < 2 ^ 44 ∧
    IsRoundedPercent (calculateWeekProgress sampleWeek)
      (completedCount (weekItems sampleWeek)) (weekItems sampleWeek).length :=
  ⟨by decide, (calculateWeekProgress_spec sampleWeek (by decide)).2.1 (by decide)⟩

/-- C4: `calculatePhaseProgress` is 0 when the phase's goals, the goals of its
weeks and the tasks of their days are together empty, otherwise (for fewer than
`2 ^ 44` items) a nearest integer to `100 * completed / total` over that
combined set. -/
theorem calculatePhaseProgress_spec (phase : Phase)
    (hsize : (phaseItems phase).length < 2 ^ 44) :
    ((phaseItems phase).length = 0 → calculatePhaseProgress phase = 0) ∧
    (0 < (phaseItems phase).length →
      IsRoundedPercent (calculatePhaseProgress phase)
        (completedCount (phaseItems phase)) (phaseItems phase).length) := by
  rw [calculatePhaseProgress_eq]
  constructor
  · intro h0
    rw [h0, percent_zero_total]
  · intro hpos
    exact percent_rounded _ hpos hsize

/-- Witness for C4 on the sample phase (3 of 5 items completed). -/
theorem calculatePhaseProgress_spec_witness :
    (phaseItems samplePhase).length < 2 ^ 44 ∧
    IsRoundedPercent (calculatePhaseProgress samplePhase)
      (completedCount (phaseItems samplePhase)) (phaseItems samplePhase).length :=
  ⟨by decide, (calculatePhaseProgress_spec samplePhase (by decide)).2 (by decide)⟩

/-- C5: each of the four progress functions returns a natural number that is
at most 100, for every day, week, phase and project of any shape. -/
theorem progress_range (day : Day) (week : Week) (phase : Phase) (project : Project) :
    calculateDayProgress day ≤ 100 ∧ calculateWeekProgress week ≤ 100 ∧
    calculatePhaseProgress phase ≤ 100 ∧ calculateProjectProgress project ≤ 100 := by
  rw [calculateDayProgress_eq, calculateWeekProgress_eq, calculatePhaseProgress_eq,
    calculateProjectProgress_eq]
  exact ⟨percent_le _ _ (completedCount_le _), percent_le _ _ (completedCount_le _),
    percent_le _ _ (completedCount_le _), percent_le _ _ (completedCount_le _)⟩

/-- C6, the failing input evaluated: with 23 of 40 tasks completed the exact
percentage is 57.5 and round-half-up gives 58, but `calculateDayProgress`
returns 57.  The quotient `23 / 40` is rounded to a double before it is
multiplied by 100; the product is `57.49999999999999`, which `Math.round` takes
down.  `Math.round` of the quotient `2300 / 40`, rounded once, is 58. -/
theorem progress_halfUp_counterexample :
    completedCount (dayItems (sampleDay 23 40)) = 23 ∧ (dayItems (sampleDay 23 40)).length = 40 ∧
    roundHalfUp 23 40 = 58 ∧ calculateDayProgress (sampleDay 23 40) = 57 ∧
    mathRound (jsMul (jsDiv 23 40) 100) = 57 ∧ mathRound (jsDiv (100 * 23) 40) = 58 := by
  decide

theorem halfUpExceptTies_percent (l : List Item) :
    HalfUpExceptTies (percent (completedCount l) l.length) l := by
  intro hpos hb
  obtain ⟨h1, h2⟩ := percent_near _ _ hpos (completedCount_le l) hb
  generalize percent (completedCount l) l.length = r at h1 h2
  generalize completedCount l = c at h1 h2
  generalize l.length = t at hpos h1 h2
  unfold roundHalfUp
  have hd := Nat.div_add_mod (200 * c + t) (2 * t)
  have hm := Nat.mod_lt (200 * c + t) (by omega : 0 < 2 * t)
  refine ⟨?_, ?_, fun hne => halfUp_of_near c t r hpos h1 h2 hne⟩
  · generalize (200 * c + t) / (2 * t) = H at *
    by_contra hc
    push_neg at hc
    have : 2 * t * (H + 1) ≤ 2 * t * r := Nat.mul_le_mul_left _ hc
    rw [Nat.mul_add] at this
    omega
  · generalize (200 * c + t) / (2 * t) = H at *
    by_contra hc
    push_neg at hc
    have : 2 * t * (r + 2) ≤ 2 * t * H := Nat.mul_le_mul_left _ hc
    rw [Nat.mul_add] at this
    omega

/-- How far the defect of `progress_halfUp_counterexample` reaches: every
progress function returns round-half-up of the percentage except possibly at
an exact tie.  For a non-empty item set of fewer
than `2 ^ 44` items the result is `floor ((200 * c + t) / (2 * t))` or one
below it, and it is `floor ((200 * c + t) / (2 * t))` whenever `100 * c / t` is
not exactly half-way between two integers; 1 of 3 gives 33, 2 of 3 gives 67
and the tie 1 of 8 gives 13. -/
theorem progress_halfUp_except_ties (day : Day) (week : Week) (phase : Phase)
    (project : Project) :
    HalfUpExceptTies (calculateDayProgress day) (dayItems day) ∧
    HalfUpExceptTies (calculateWeekProgress week) (weekItems week) ∧
    HalfUpExceptTies (calculatePhaseProgress phase) (phaseItems phase) ∧
    HalfUpExceptTies (calculateProjectProgress project) (countedItems project) ∧
    calculateDayProgress (sampleDay 1 3) = 33 ∧ calculateDayProgress (sampleDay 2 3) = 67 ∧
    calculateDayProgress (sampleDay 1 8) = 13 := by
  rw [calculateDayProgress_eq, calculateWeekProgress_eq, calculatePhaseProgress_eq,
    calculateProjectProgress_eq]
  exact ⟨halfUpExceptTies_percent _, halfUpExceptTies_percent _, halfUpExceptTies_percent _,
    halfUpExceptTies_percent _, by decide, by decide, by decide⟩

/-- An instance of `progress_halfUp_except_ties`: 2 of 7 tasks is no tie, and
the day progress is the round-half-up value 29. -/
theorem progress_halfUp_except_ties_witness :
    calculateDayProgress (sampleDay 2 7) = roundHalfUp (completedCount (dayItems (sampleDay 2 7)))
      (dayItems (sampleDay 2 7)).length :=
  ((progress_halfUp_except_ties (sampleDay 2 7) sampleWeek samplePhase samplePhased).1
    (by decide) (by decide)).2.2 (by decide)

/-- C8: when a project has a phases collection, replacing its top-level weeks
and top-level days by anything leaves `calculateProjectProgress` unchanged;
and when top-level weeks are present, replacing the top-level days by anything
leaves it unchanged. -/
theorem calculateProjectProgress_single_route (project : Project)
    (weeks : Option (List Week)) (days : Option (List Day)) :
    (project.phases.isSome = true →
      calculateProjectProgress { project with weeks := weeks, days := days }
        = calculateProjectProgress project) ∧
    (project.weeks.isSome = true →
      calculateProjectProgress { project with days := days }
        = calculateProjectProgress project) := by
  constructor
  · intro h
    obtain ⟨ps, hps⟩ := Option.isSome_iff_exists.1 h
    simp only [calculateProjectProgress, projectCounts, hps]
    cases weeks <;> cases days <;> cases project.weeks <;> cases project.days <;> simp
  · intro h
    obtain ⟨ws, hws⟩ := Option.isSome_iff_exists.1 h
    simp only [calculateProjectProgress, projectCounts, hws]
    cases days <;> cases project.days <;> simp

/-- Witness for C8: on the project with phases, dropping the top-level weeks
and days changes nothing; on the weekly project, dropping the top-level days
changes nothing. -/
theorem calculateProjectProgress_single_route_witness :
    calculateProjectProgress { sampleMixed with weeks := none, days := none }
        = calculateProjectProgress sampleMixed ∧
    calculateProjectProgress { sampleWeeklyWithDays with days := none }
        = calculateProjectProgress sampleWeeklyWithDays :=
  ⟨(calculateProjectProgress_single_route sampleMixed none none).1 (by decide),
   (calculateProjectProgress_single_route sampleWeeklyWithDays none none).2 (by decide)⟩

theorem defaultMaterials_isSome (m : Option Materials) : (defaultMaterials m).isSome = true := by
  cases m <;> rfl

theorem dayHasMaterials_migratePhaseDay (d : Day) : dayHasMaterials (migratePhaseDay d) = true := by
  simp [dayHasMaterials, migratePhaseDay, defaultMaterials_isSome]

theorem dayHasMaterials_migrateStandaloneDay (d : Day) :
    dayHasMaterials (migrateStandaloneDay d) = true := by
  simp [dayHasMaterials, migrateStandaloneDay, defaultMaterials_isSome]

theorem weekHasMaterials_migratePhaseWeek (w : Week) :
    weekHasMaterials (migratePhaseWeek w) = true := by
  cases h : w.days <;>
    simp [weekHasMaterials, migratePhaseWeek, defaultMaterials_isSome, h,
      dayHasMaterials_migratePhaseDay]

theorem weekHasMaterials_migrateStandaloneWeek (w : Week) :
    weekHasMaterials (migrateStandaloneWeek w) = true := by
  cases h : w.days <;>
    simp [weekHasMaterials, migrateStandaloneWeek, defaultMaterials_isSome, h,
      dayHasMaterials_migrateStandaloneDay]

theorem phaseHasMaterials_migratePhase (ph : Phase) :
    phaseHasMaterials (migratePhase ph) = true := by
  cases h : ph.weeks <;>
    simp [phaseHasMaterials, migratePhase, defaultMaterials_isSome, h,
      weekHasMaterials_migratePhaseWeek]

theorem visitedHaveMaterials_migrateProject (p : Project) :
    visitedHaveMaterials (migrateProject p) = true := by
  rcases hp : p.phases with _ | ps <;> rcases hw : p.weeks with _ | ws <;>
    rcases hd : p.days with _ | ds <;>
    simp [visitedHaveMaterials, migrateProject, defaultMaterials_isSome, hp, hw, hd,
      phaseHasMaterials_migratePhase, weekHasMaterials_migrateStandaloneWeek,
      dayHasMaterials_migrateStandaloneDay]

theorem validShape_migrateProject (p : Project) :
    validShape (migrateProject p) = validShape p := by
  rcases hp : p.phases with _ | ps <;> rcases hw : p.weeks with _ | ws <;>
    rcases hd : p.days with _ | ds <;> simp [validShape, migrateProject, hp, hw, hd]

theorem allHaveMaterials_of_visited (p : Project) (hv : visitedHaveMaterials p = true)
    (hs : validShape p = true) : allHaveMaterials p = true := by
  unfold validShape at hs
  unfold visitedHaveMaterials at hv
  unfold allHaveMaterials
  rcases hp : p.phases with _ | ps <;> rcases hw : p.weeks with _ | ws <;>
    rcases hd : p.days with _ | ds <;> simp_all

/-- C9 as stated fails: a legacy project with a phases collection and a
top-level week without materials keeps that week without a materials bucket
after the migration (the standalone-weeks branch is guarded by `!project.phases`). -/
theorem migrate_skips_weeks_beside_phases :
    allHaveMaterials (migrateProject legacyPhasedWithWeeks) = false ∧
    (migrateProject legacyPhasedWithWeeks).weeks = some [legacyWeek] ∧
    legacyWeek.materials = none := by
  decide

/-- C9, amended: after the migration loop every project, every phase, every
week inside a phase and every day inside such a week has a materials bucket;
top-level weeks and their days have one when the project has no phases
collection, and top-level days when it has neither a phases nor a weeks
collection.  Hence every node of a project in one of the four valid shapes has
a materials bucket. -/
theorem migrate_materials (appData : AppData) (project : Project)
    (hmem : project ∈ (migrate appData).projects) :
    visitedHaveMaterials project = true ∧
    (validShape project = true → allHaveMaterials project = true) := by
  simp only [migrate, List.mem_map] at hmem
  obtain ⟨p, _, rfl⟩ := hmem
  have hv := visitedHaveMaterials_migrateProject p
  exact ⟨hv, fun hs => allHaveMaterials_of_visited _ hv hs⟩

/-- Witness for C9 amended on a state holding the legacy weekly project. -/
theorem migrate_materials_witness :
    migrateProject legacyWeekly ∈ (migrate ⟨[legacyWeekly], defaultSettings⟩).projects ∧
    visitedHaveMaterials (migrateProject legacyWeekly) = true ∧
    (validShape (migrateProject legacyWeekly) = true →
      allHaveMaterials (migrateProject legacyWeekly) = true) :=
  ⟨by decide, migrate_materials ⟨[legacyWeekly], defaultSettings⟩ (migrateProject legacyWeekly)
    (by decide)⟩

/-- C10, the failing input evaluated: the migration of a legacy weekly project
leaves the `goals` of its top-level week missing (only `materials` is
defaulted there), while a week below a phase gets `goals = []`. -/
theorem migrate_standalone_week_goals_missing :
    (migrate ⟨[legacyWeekly], defaultSettings⟩).projects.map
        (fun p => p.weeks.map fun ws => ws.map fun w => w.goals) = [some [none]] ∧
    (migratePhaseWeek legacyWeek).goals = some [] := by
  decide

theorem mem_modifyFirst {α : Type} (l : List α) (p : α → Bool) (f : α → α) (q : α)
    (h : q ∈ modifyFirst l p f) : q ∈ l ∨ ∃ x, l.find? p = some x ∧ q = f x := by
  induction l with
  | nil => simp [modifyFirst] at h
  | cons a as ih =>
    unfold modifyFirst at h
    by_cases hp : p a = true
    · rw [if_pos hp] at h
      rcases List.mem_cons.1 h with h1 | h1
      · exact Or.inr ⟨a, by simp [List.find?, hp], h1⟩
      · exact Or.inl (List.mem_cons_of_mem _ h1)
    · rw [if_neg hp] at h
      rcases List.mem_cons.1 h with h1 | h1
      · exact Or.inl (h1 ▸ List.mem_cons_self _ _)
      · rcases ih h1 with h2 | ⟨x, hx, hq⟩
        · exact Or.inl (List.mem_cons_of_mem _ h2)
        · refine Or.inr ⟨x, ?_, hq⟩
          simp only [Bool.not_eq_true] at hp
          simp [List.find?, hp, hx]

theorem saveData_projects (now : String) (st : AppState) :
    (saveData now st).state.appData.projects = st.appData.projects := rfl

theorem andThen_navigateTo_appData (first : Outcome) (view : CurrentView) :
    (first.andThen fun saved => navigateTo saved view).state.appData = first.state.appData := by
  unfold Outcome.andThen
  split <;> rfl

theorem andThen_navigateTo_stored (first : Outcome) (view : CurrentView) :
    (first.andThen fun saved => navigateTo saved view).state.stored = first.state.stored := by
  unfold Outcome.andThen
  split <;> rfl

theorem mem_modifyProject (st : AppState) (f : Project → Project) (q : Project)
    (h : q ∈ (modifyProject st f).appData.projects) :
    q ∈ st.appData.projects ∨
      ∃ x, findProject st.appData st.currentView.projectId = some x ∧ q = f x :=
  mem_modifyFirst _ _ f q h

theorem selectedPresent_of_grows (p q : Project) (hg : Grows p q)
    (h : selectedPresent p = true) : selectedPresent q = true := by
  obtain ⟨hs, hp, hw, hd⟩ := hg
  unfold selectedPresent at h ⊢
  rw [hs]
  cases hst : p.struct with
  | none => rfl
  | some s =>
    rw [hst] at h
    simp only at h ⊢
    split_ifs at h ⊢ <;> simp_all

theorem selectedPresent_applyStructure (a b c d : Bool) (p : Project) :
    selectedPresent (applyStructure a b c d p) = true := by
  cases a <;> cases b <;> cases c <;> cases hp : p.phases <;> cases hw : p.weeks <;>
    cases hd : p.days <;> simp [applyStructure, selectedPresent, hp, hw, hd]

theorem grows_modifyWeek (p : Project) (weekId : String) (f : Week → Week) :
    Grows p (modifyWeek p weekId f) := by
  unfold modifyWeek
  simp only
  split
  · refine ⟨rfl, fun _ => rfl, fun h => h, fun h => h⟩
  · split
    · exact ⟨rfl, fun h => h, fun h => h, fun h => h⟩
    · exact ⟨rfl, fun h => h, fun _ => rfl, fun h => h⟩


theorem selectedPresent_modifyProject (st : AppState) (f : Project → Project)
    (hf : ∀ p, selectedPresent p = true → selectedPresent (f p) = true)
    (h : ∀ p ∈ st.appData.projects, selectedPresent p = true) :
    ∀ p ∈ (modifyProject st f).appData.projects, selectedPresent p = true := by
  intro q hq
  rcases mem_modifyProject st f q hq with h1 | ⟨x, hx, rfl⟩
  · exact h q h1
  · exact hf x (h x (List.mem_of_find?_eq_some hx))

theorem createProjectFromTemplate_projects (st : AppState) (template name newId now : String)
    (hname : jsTrim name ≠ "") :
    ∃ project, (createProjectFromTemplate st template name newId now).state.appData.projects
        = st.appData.projects ++ [project] ∧ shapeInvariant project = true := by
  unfold createProjectFromTemplate
  rw [if_neg hname]
  dsimp only
  rw [andThen_navigateTo_appData]
  refine ⟨_, rfl, ?_⟩
  split_ifs <;> rfl

theorem selectedPresent_of_shapeInvariant (p : Project) (h : shapeInvariant p = true) :
    selectedPresent p = true := by
  unfold shapeInvariant at h
  unfold selectedPresent
  cases hs : p.struct with
  | none => rfl
  | some s =>
    rw [hs] at h
    simp only at h ⊢
    split_ifs at h ⊢ <;> simp_all

theorem addPhase_projects (st : AppState) (title newId now : String) :
    (addPhase st title newId now).state.appData.projects = st.appData.projects ∨
    ∃ f : Project → Project, (∀ p, Grows p (f p)) ∧
      (addPhase st title newId now).state.appData.projects
        = (modifyProject st f).appData.projects := by
  unfold addPhase
  cases hfp : findProject st.appData st.currentView.projectId with
  | none => exact Or.inl rfl
  | some project =>
    dsimp only
    by_cases ht : jsTrim title = ""
    · rw [if_pos ht]
      exact Or.inl rfl
    · rw [if_neg ht]
      cases hs : project.struct with
      | none =>
        dsimp only
        refine Or.inr ⟨_, ?_, rfl⟩
        exact fun p => ⟨rfl, fun _ => rfl, fun h => h, fun h => h⟩
      | some s =>
        dsimp only
        refine Or.inr ⟨_, ?_, rfl⟩
        exact fun p => ⟨rfl, fun _ => rfl, fun h => h, fun h => h⟩

theorem addWeek_projects (st : AppState) (title newId now : String) :
    (addWeek st title newId now).state.appData.projects = st.appData.projects ∨
    ∃ f : Project → Project, (∀ p, Grows p (f p)) ∧
      (addWeek st title newId now).state.appData.projects
        = (modifyProject st f).appData.projects := by
  unfold addWeek
  cases hfp : findProject st.appData st.currentView.projectId with
  | none => exact Or.inl rfl
  | some project =>
    dsimp only
    by_cases ht : jsTrim title = ""
    · rw [if_pos ht]
      exact Or.inl rfl
    · rw [if_neg ht]
      cases hs : project.struct with
      | none => exact Or.inl rfl
      | some s =>
        dsimp only
        by_cases hv :
            (decide (st.currentView.type = "phase") && truthyId st.currentView.phaseId) = true
        · rw [if_pos hv]
          cases hps : project.phases with
          | none => exact Or.inl rfl
          | some ps =>
            dsimp only
            refine Or.inr ⟨_, ?_, rfl⟩
            exact fun p => ⟨rfl, fun h => by simpa using h, fun h => h, fun h => h⟩
        · rw [if_neg hv]
          refine Or.inr ⟨_, ?_, rfl⟩
          exact fun p => ⟨rfl, fun h => h, fun _ => rfl, fun h => h⟩

theorem addDay_projects (st : AppState) (title newId now : String) :
    (addDay st title newId now).state.appData.projects = st.appData.projects ∨
    ∃ f : Project → Project, (∀ p, Grows p (f p)) ∧
      (addDay st title newId now).state.appData.projects
        = (modifyProject st f).appData.projects := by
  unfold addDay
  cases hfp : findProject st.appData st.currentView.projectId with
  | none => exact Or.inl rfl
  | some project =>
    dsimp only
    by_cases ht : jsTrim title = ""
    · rw [if_pos ht]
      exact Or.inl rfl
    · rw [if_neg ht]
      by_cases hv :
          (decide (st.currentView.type = "week") && truthyId st.currentView.weekId) = true
      · rw [if_pos hv]
        refine Or.inr ⟨_, ?_, rfl⟩
        exact fun p => grows_modifyWeek p _ _
      · rw [if_neg hv]
        refine Or.inr ⟨_, ?_, rfl⟩
        exact fun p => ⟨rfl, fun h => h, fun h => h, fun _ => rfl⟩

theorem selectedPresent_of_projects (st st' : AppState)
    (hst : st'.appData.projects = st.appData.projects ∨
      ∃ f : Project → Project, (∀ p, Grows p (f p)) ∧
        st'.appData.projects = (modifyProject st f).appData.projects)
    (h : ∀ p ∈ st.appData.projects, selectedPresent p = true) :
    ∀ p ∈ st'.appData.projects, selectedPresent p = true := by
  rcases hst with h1 | ⟨f, hf, h1⟩
  · rw [h1]
    exact h
  · rw [h1]
    exact selectedPresent_modifyProject st f (fun p hp => selectedPresent_of_grows p _ (hf p) hp) h

theorem step_selectedPresent (st : AppState) (a : Action)
    (h : ∀ p ∈ st.appData.projects, selectedPresent p = true) :
    ∀ p ∈ (step st a).state.appData.projects, selectedPresent p = true := by
  cases a with
  | createProjectFromTemplate template name newId now =>
    by_cases hname : jsTrim name = ""
    · simpa [step, createProjectFromTemplate, hname] using h
    · obtain ⟨project, hp, hs⟩ :=
        createProjectFromTemplate_projects st template name newId now hname
      intro q hq
      simp only [step, hp, List.mem_append, List.mem_singleton] at hq
      rcases hq with h1 | rfl
      · exact h q h1
      · exact selectedPresent_of_shapeInvariant _ hs
  | updateProjectStructure a b c d now =>
    simp only [step, updateProjectStructure]
    cases hfp : findProject st.appData st.currentView.projectId with
    | none => exact h
    | some project =>
      exact selectedPresent_modifyProject st _
        (fun p _ => selectedPresent_applyStructure a b c d p) h
  | addPhase title newId now =>
    exact selectedPresent_of_projects st _ (addPhase_projects st title newId now) h
  | addWeek title newId now =>
    exact selectedPresent_of_projects st _ (addWeek_projects st title newId now) h
  | addDay title newId now =>
    exact selectedPresent_of_projects st _ (addDay_projects st title newId now) h
  | navigateTo view => exact h

theorem run_selectedPresent (actions : List Action) (st : AppState)
    (h : ∀ p ∈ st.appData.projects, selectedPresent p = true) :
    ∀ p ∈ (run st actions).appData.projects, selectedPresent p = true := by
  induction actions generalizing st with
  | nil => exact h
  | cons a as ih => exact ih (step st a).state (step_selectedPresent st a h)


theorem shapeInvariant_modifyProject (st : AppState) (f : Project → Project) (project : Project)
    (hfp : findProject st.appData st.currentView.projectId = some project)
    (hf : shapeInvariant (f project) = true)
    (h : ∀ p ∈ st.appData.projects, shapeInvariant p = true) :
    ∀ p ∈ (modifyProject st f).appData.projects, shapeInvariant p = true := by
  intro q hq
  rcases mem_modifyProject st f q hq with h1 | ⟨x, hx, rfl⟩
  · exact h q h1
  · rw [hfp] at hx
    cases hx
    exact hf

theorem shapeInvariant_of_same (p q : Project) (hs : q.struct = p.struct)
    (hp : q.phases.isSome = p.phases.isSome) (hw : q.weeks.isSome = p.weeks.isSome)
    (hd : q.days.isSome = p.days.isSome) (h : shapeInvariant p = true) :
    shapeInvariant q = true := by
  have hp2 : q.phases.isNone = p.phases.isNone := by
    cases hq : q.phases <;> cases hp1 : p.phases <;> simp_all
  have hw2 : q.weeks.isNone = p.weeks.isNone := by
    cases hq : q.weeks <;> cases hp1 : p.weeks <;> simp_all
  have hd2 : q.days.isNone = p.days.isNone := by
    cases hq : q.days <;> cases hp1 : p.days <;> simp_all
  unfold shapeInvariant at h ⊢
  rw [hs, hp, hw, hd, hp2, hw2, hd2]
  exact h

theorem modifyWeek_same (p : Project) (weekId : String) (f : Week → Week) :
    (modifyWeek p weekId f).struct = p.struct ∧
    (modifyWeek p weekId f).phases.isSome = p.phases.isSome ∧
    (modifyWeek p weekId f).weeks.isSome = p.weeks.isSome ∧
    (modifyWeek p weekId f).days.isSome = p.days.isSome := by
  unfold modifyWeek
  cases hp : p.phases with
  | none =>
    dsimp only
    cases hw : p.weeks with
    | none => simp [hp, hw]
    | some ws => simp [hp, hw]
  | some ps =>
    dsimp only
    cases hm : modifyWeekInPhases ps weekId f with
    | none =>
      dsimp only
      cases hw : p.weeks with
      | none => simp [hp, hw]
      | some ws => simp [hp, hw]
    | some ps2 => simp [hp]

theorem addPhase_shapeInvariant (st : AppState) (title newId now : String)
    (project : Project) (s : Structure)
    (hfp : findProject st.appData st.currentView.projectId = some project)
    (hs : project.struct = some s) (hflag : s.hasPhases = true)
    (h : ∀ p ∈ st.appData.projects, shapeInvariant p = true) :
    ∀ p ∈ (addPhase st title newId now).state.appData.projects, shapeInvariant p = true := by
  have hproj := h project (List.mem_of_find?_eq_some hfp)
  unfold addPhase
  rw [hfp]
  dsimp only
  by_cases ht : jsTrim title = ""
  · rw [if_pos ht]
    exact h
  · rw [if_neg ht, hs]
    dsimp only
    rw [saveData_projects]
    apply shapeInvariant_modifyProject st _ project hfp _ h
    unfold shapeInvariant at hproj ⊢
    rw [hs] at hproj
    simp only [hs, hflag, if_true] at hproj ⊢
    simp at hproj ⊢
    tauto

theorem addWeek_shapeInvariant (st : AppState) (title newId now : String)
    (project : Project) (s : Structure)
    (hfp : findProject st.appData st.currentView.projectId = some project)
    (hs : project.struct = some s)
    (hcall : (st.currentView.type = "phase" ∧ truthyId st.currentView.phaseId = true) ∨
      (st.currentView.type ≠ "phase" ∧ s.hasPhases = false ∧ s.hasWeeks = true))
    (h : ∀ p ∈ st.appData.projects, shapeInvariant p = true) :
    ∀ p ∈ (addWeek st title newId now).state.appData.projects, shapeInvariant p = true := by
  have hproj := h project (List.mem_of_find?_eq_some hfp)
  unfold addWeek
  rw [hfp]
  dsimp only
  by_cases ht : jsTrim title = ""
  · rw [if_pos ht]
    exact h
  · rw [if_neg ht, hs]
    dsimp only
    rcases hcall with ⟨hv1, hv2⟩ | ⟨hv, hp, hw⟩
    · rw [if_pos (by simp [hv1, hv2])]
      cases hps : project.phases with
      | none => exact h
      | some ps =>
        dsimp only
        rw [saveData_projects]
        apply shapeInvariant_modifyProject st _ project hfp _ h
        exact shapeInvariant_of_same project _ rfl (by simp) rfl rfl hproj
    · rw [if_neg (by simp [hv])]
      rw [saveData_projects]
      apply shapeInvariant_modifyProject st _ project hfp _ h
      unfold shapeInvariant at hproj ⊢
      rw [hs] at hproj
      simp only [hs, hp, hw] at hproj ⊢
      simp at hproj ⊢
      tauto

theorem addDay_shapeInvariant (st : AppState) (title newId now : String)
    (project : Project) (s : Structure)
    (hfp : findProject st.appData st.currentView.projectId = some project)
    (hs : project.struct = some s)
    (hcall : (st.currentView.type = "week" ∧ truthyId st.currentView.weekId = true) ∨
      (st.currentView.type ≠ "week" ∧ s.hasPhases = false ∧ s.hasWeeks = false
        ∧ s.hasDays = true))
    (h : ∀ p ∈ st.appData.projects, shapeInvariant p = true) :
    ∀ p ∈ (addDay st title newId now).state.appData.projects, shapeInvariant p = true := by
  have hproj := h project (List.mem_of_find?_eq_some hfp)
  unfold addDay
  rw [hfp]
  dsimp only
  by_cases ht : jsTrim title = ""
  · rw [if_pos ht]
    exact h
  · rw [if_neg ht]
    rcases hcall with ⟨hv1, hv2⟩ | ⟨hv, hp, hw, hd⟩
    · rw [if_pos (by simp [hv1, hv2])]
      rw [saveData_projects]
      apply shapeInvariant_modifyProject st _ project hfp _ h
      obtain ⟨e1, e2, e3, e4⟩ := modifyWeek_same project (st.currentView.weekId.getD "")
        (fun w => { w with days := some (w.days.getD [] ++
          [{ id := newId, title := jsTrim title, date := some "", tasks := some [],
             materials := some emptyMaterials }]) })
      exact shapeInvariant_of_same project _ e1 e2 e3 e4 hproj
    · rw [if_neg (by simp [hv])]
      rw [saveData_projects]
      apply shapeInvariant_modifyProject st _ project hfp _ h
      unfold shapeInvariant at hproj ⊢
      rw [hs] at hproj
      simp only [hs, hp, hw, hd] at hproj ⊢
      simp at hproj ⊢
      tauto

/-- C7 as stated fails: after a weekly project is created and the phases box
is ticked in the structure view, the project holds both a `phases` and a
`weeks` collection, so not exactly one collection is present. -/
theorem shape_invariant_counterexample :
    (run initialState reshapeTrace).appData.projects = [reshapedProject] ∧
    reshapedProject.phases = some [] ∧ reshapedProject.weeks = some [] ∧
    shapeInvariant reshapedProject = false := by
  decide

/-- C7, amended: in every state reached from the empty state by
`createProjectFromTemplate`, `updateProjectStructure`, `addPhase`, `addWeek`,
`addDay` and changes of view, the collection selected by the flags of each
project is present.  A project just made by `createProjectFromTemplate` has
exactly that collection (none when flat), and `addPhase`, `addWeek`, `addDay`,
called as the sidebar add button calls them, keep exactly that collection.
`updateProjectStructure` removes no collection, so after it the other
collections may still be there. -/
theorem structure_operations_shape (actions : List Action) :
    (∀ project ∈ (run initialState actions).appData.projects,
      selectedPresent project = true) ∧
    (∀ (st : AppState) (template name newId now : String), jsTrim name ≠ "" →
      ∃ project, (createProjectFromTemplate st template name newId now).state.appData.projects
          = st.appData.projects ++ [project] ∧ shapeInvariant project = true) ∧
    (∀ (st : AppState) (project : Project) (s : Structure) (title newId now : String),
      (∀ p ∈ st.appData.projects, shapeInvariant p = true) →
      findProject st.appData st.currentView.projectId = some project →
      project.struct = some s →
      (s.hasPhases = true →
        ∀ p ∈ (addPhase st title newId now).state.appData.projects,
          shapeInvariant p = true) ∧
      ((st.currentView.type = "phase" ∧ truthyId st.currentView.phaseId = true) ∨
        (st.currentView.type ≠ "phase" ∧ s.hasPhases = false ∧ s.hasWeeks = true) →
        ∀ p ∈ (addWeek st title newId now).state.appData.projects,
          shapeInvariant p = true) ∧
      ((st.currentView.type = "week" ∧ truthyId st.currentView.weekId = true) ∨
        (st.currentView.type ≠ "week" ∧ s.hasPhases = false ∧ s.hasWeeks = false
          ∧ s.hasDays = true) →
        ∀ p ∈ (addDay st title newId now).state.appData.projects,
          shapeInvariant p = true)) := by
  refine ⟨?_, ?_, ?_⟩
  · exact run_selectedPresent actions initialState (by simp [initialState])
  · intro st template name newId now hname
    exact createProjectFromTemplate_projects st template name newId now hname
  · intro st project s title newId now hinv hfp hs
    exact ⟨fun hflag => addPhase_shapeInvariant st title newId now project s hfp hs hflag hinv,
      fun hcall => addWeek_shapeInvariant st title newId now project s hfp hs hcall hinv,
      fun hcall => addDay_shapeInvariant st title newId now project s hfp hs hcall hinv⟩

/-- Witness for C7 amended: the reshaped project is reached by `reshapeTrace`
and its selected collection, `phases`, is present. -/
theorem structure_operations_shape_witness :
    reshapedProject ∈ (run initialState reshapeTrace).appData.projects ∧
    selectedPresent reshapedProject = true :=
  ⟨by decide, (structure_operations_shape reshapeTrace).1 reshapedProject (by decide)⟩

theorem defaultMaterials_idem (m : Option Materials) :
    defaultMaterials (defaultMaterials m) = defaultMaterials m := by
  cases m <;> rfl

theorem defaultItems_idem (items : Option (List Item)) :
    defaultItems (defaultItems items) = defaultItems items := by
  cases items <;> rfl

theorem migratePhaseDay_idem (d : Day) :
    migratePhaseDay (migratePhaseDay d) = migratePhaseDay d := by
  simp [migratePhaseDay, defaultMaterials_idem, defaultItems_idem]

theorem migrateStandaloneDay_idem (d : Day) :
    migrateStandaloneDay (migrateStandaloneDay d) = migrateStandaloneDay d := by
  simp [migrateStandaloneDay, defaultMaterials_idem]

theorem map_idem {α : Type} (f : α → α) (hf : ∀ x, f (f x) = f x) (l : List α) :
    (l.map f).map f = l.map f := by
  rw [List.map_map]
  exact List.map_congr_left fun x _ => hf x

theorem migratePhaseWeek_idem (w : Week) :
    migratePhaseWeek (migratePhaseWeek w) = migratePhaseWeek w := by
  cases h : w.days <;>
    simp [migratePhaseWeek, defaultMaterials_idem, defaultItems_idem, h,
      map_idem _ migratePhaseDay_idem]

theorem migrateStandaloneWeek_idem (w : Week) :
    migrateStandaloneWeek (migrateStandaloneWeek w) = migrateStandaloneWeek w := by
  cases h : w.days <;>
    simp [migrateStandaloneWeek, defaultMaterials_idem, h,
      map_idem _ migrateStandaloneDay_idem]

theorem migratePhase_idem (ph : Phase) : migratePhase (migratePhase ph) = migratePhase ph := by
  cases h : ph.weeks <;>
    simp [migratePhase, defaultMaterials_idem, defaultItems_idem, h,
      map_idem _ migratePhaseWeek_idem]

theorem description_default (de : String) :
    (if de = "" then some "" else some de) = some de := by
  split_ifs with h
  · rw [h]
  · rfl

theorem migrateProject_idem (p : Project) :
    migrateProject (migrateProject p) = migrateProject p := by
  rcases hp : p.phases with _ | ps <;> rcases hw : p.weeks with _ | ws <;>
    rcases hd : p.days with _ | ds <;> rcases hs : p.struct with _ | s <;>
    rcases hde : p.description with _ | de <;>
    simp [migrateProject, defaultMaterials_idem, defaultItems_idem, hp, hw, hd, hs, hde,
      description_default, map_idem _ migratePhase_idem, map_idem _ migrateStandaloneWeek_idem,
      map_idem _ migrateStandaloneDay_idem]

/-- C11: after the migration loop every project has a description, the empty
string when it was absent and the old one otherwise, and a tasks list, the
empty list when it was absent and the old one otherwise. -/
theorem migrate_description_tasks (appData : AppData) :
    (migrate appData).projects.map (fun p => (p.description, p.tasks))
      = appData.projects.map
          (fun p => (some (p.description.getD ""), some (p.tasks.getD []))) := by
  simp only [migrate, List.map_map]
  apply List.map_congr_left
  intro p _
  rcases hde : p.description with _ | de <;> rcases ht : p.tasks with _ | t <;>
    simp [migrateProject, defaultItems, hde, ht, description_default]

/-- C12: the migration loop is idempotent: running it on its own result
changes nothing. -/
theorem migrate_idempotent (appData : AppData) :
    migrate (migrate appData) = migrate appData := by
  simp only [migrate, map_idem _ migrateProject_idem]

theorem findWeekInPhases_eq (phases : List Phase) (weekId : String) :
    findWeekInPhases phases weekId
      = (weeksOfPhases phases).find? fun w => w.id == weekId := by
  induction phases with
  | nil => rfl
  | cons ph rest ih =>
    unfold findWeekInPhases
    simp only [weeksOfPhases, List.flatMap_cons, List.find?_append] at ih ⊢
    cases hw : ph.weeks with
    | none => simpa using ih
    | some ws =>
      cases hf : ws.find? fun w => w.id == weekId with
      | none => simpa [hf] using ih
      | some w => simp [hf]

theorem findWeek_eq (project : Project) (weekId : String) :
    findWeek project weekId = (searchedWeeks project).find? fun w => w.id == weekId := by
  unfold findWeek searchedWeeks
  simp only [List.find?_append]
  cases hp : project.phases with
  | none => cases hw : project.weeks <;> simp [weeksOfPhases]
  | some ps =>
    simp only [Option.getD_some, ← findWeekInPhases_eq]
    cases hf : findWeekInPhases ps weekId with
    | none => cases hw : project.weeks <;> simp
    | some w => simp

theorem findDayInWeeks_eq (weeks : List Week) (dayId : String) :
    findDayInWeeks weeks dayId = (daysOfWeeks weeks).find? fun d => d.id == dayId := by
  induction weeks with
  | nil => rfl
  | cons w rest ih =>
    unfold findDayInWeeks
    simp only [daysOfWeeks, List.flatMap_cons, List.find?_append] at ih ⊢
    cases hd : w.days with
    | none => simpa using ih
    | some ds =>
      cases hf : ds.find? fun d => d.id == dayId with
      | none => simpa [hf] using ih
      | some d => simp [hf]

theorem daysOfWeeks_append (l₁ l₂ : List Week) :
    daysOfWeeks (l₁ ++ l₂) = daysOfWeeks l₁ ++ daysOfWeeks l₂ := by
  simp [daysOfWeeks]

theorem findDayInPhases_eq (phases : List Phase) (dayId : String) :
    findDayInPhases phases dayId
      = (daysOfWeeks (weeksOfPhases phases)).find? fun d => d.id == dayId := by
  induction phases with
  | nil => rfl
  | cons ph rest ih =>
    unfold findDayInPhases
    have hcons : weeksOfPhases (ph :: rest) = ph.weeks.getD [] ++ weeksOfPhases rest := by
      simp [weeksOfPhases]
    rw [hcons, daysOfWeeks_append, List.find?_append, ← ih]
    cases hw : ph.weeks with
    | none => simp [daysOfWeeks]
    | some ws =>
      simp only [Option.getD_some, ← findDayInWeeks_eq]
      cases hf : findDayInWeeks ws dayId <;> simp

theorem findDay_eq (project : Project) (dayId : String) :
    findDay project dayId = (searchedDays project).find? fun d => d.id == dayId := by
  unfold findDay searchedDays
  rw [List.find?_append, List.find?_append, ← findDayInPhases_eq, ← findDayInWeeks_eq]
  cases hp : project.phases with
  | none =>
    cases hw : project.weeks with
    | none => cases hd : project.days <;> simp [findDayInPhases, findDayInWeeks]
    | some ws =>
      cases hg : findDayInWeeks ws dayId <;> cases hd : project.days <;>
        simp [findDayInPhases, hg]
  | some ps =>
    cases hf : findDayInPhases ps dayId with
    | some d => simp [hf]
    | none =>
      cases hw : project.weeks with
      | none => cases hd : project.days <;> simp [findDayInWeeks, hf]
      | some ws =>
        cases hg : findDayInWeeks ws dayId <;> cases hd : project.days <;> simp [hf, hg]

theorem find?_first {α : Type} (l : List α) (p : α → Bool) (a : α)
    (h : l.find? p = some a) :
    p a = true ∧ ∃ before after, l = before ++ a :: after ∧ ∀ x ∈ before, p x = false := by
  induction l with
  | nil => simp at h
  | cons x xs ih =>
    by_cases hx : p x = true
    · simp only [List.find?, hx, Option.some.injEq] at h
      subst h
      exact ⟨hx, [], xs, rfl, by simp⟩
    · simp only [Bool.not_eq_true] at hx
      simp only [List.find?, hx] at h
      obtain ⟨ha, before, after, hl, hb⟩ := ih h
      refine ⟨ha, x :: before, after, by simp [hl], ?_⟩
      intro y hy
      rcases List.mem_cons.1 hy with rfl | hy
      · exact hx
      · exact hb y hy

theorem find?_none_iff_ids {α : Type} (l : List α) (key : α → String) (id : String) :
    (l.find? fun x => key x == id) = none ↔ ∀ x ∈ l, key x ≠ id := by
  simp [List.find?_eq_none]

/-- C13 as stated fails: a weekly project with the week `w1` whose phases box
is ticked afterwards holds an empty `phases` collection beside `w1`.  The
project has phases, so the stated search covers the weeks of the phases only
and finds nothing; `findWeek` falls through to the top-level weeks and returns
`w1`.  The same holds once a phase has been added. -/
theorem findWeek_falls_through :
    (run initialState reshapeWithWeekTrace).appData.projects = [reshapedWithWeek] ∧
    findWeek reshapedWithWeek "w1" = some addedWeek ∧
    findWeekAsStated reshapedWithWeek "w1" = none ∧
    findWeek phaseBesideWeek "w1" = some addedWeek ∧
    findWeekAsStated phaseBesideWeek "w1" = none := by
  decide

/-- C13, amended: `findWeek` returns the first week with the id in the search
order "weeks of the phases, in phase order, then the top-level weeks".  A match
among the weeks of the phases wins; when the phases hold no match the top-level
weeks are searched, also when the project has a phases collection; without a
phases collection the result is the first match in `project.weeks`.  The week
it returns carries the id, and it returns nothing exactly when no searched week
carries the id. -/
theorem findWeek_spec (project : Project) (weekId : String) :
    findWeek project weekId = (searchedWeeks project).find? (fun w => w.id == weekId) ∧
    (project.phases = none →
      findWeek project weekId = (project.weeks.getD []).find? (fun w => w.id == weekId)) ∧
    (∀ ps w, project.phases = some ps →
      (weeksOfPhases ps).find? (fun w => w.id == weekId) = some w →
      findWeek project weekId = some w) ∧
    (∀ ps, project.phases = some ps →
      (weeksOfPhases ps).find? (fun w => w.id == weekId) = none →
      findWeek project weekId = (project.weeks.getD []).find? (fun w => w.id == weekId)) ∧
    (∀ w, findWeek project weekId = some w →
      w.id = weekId ∧ ∃ before after, searchedWeeks project = before ++ w :: after ∧
        ∀ x ∈ before, x.id ≠ weekId) ∧
    (findWeek project weekId = none ↔ ∀ w ∈ searchedWeeks project, w.id ≠ weekId) := by
  refine ⟨findWeek_eq project weekId, ?_, ?_, ?_, ?_, ?_⟩
  · intro hp
    rw [findWeek_eq, searchedWeeks, hp]
    simp [weeksOfPhases]
  · intro ps w hp hf
    rw [findWeek_eq, searchedWeeks, hp, List.find?_append]
    simp [hf]
  · intro ps hp hf
    rw [findWeek_eq, searchedWeeks, hp, List.find?_append]
    simp [hf]
  · intro w hw
    rw [findWeek_eq] at hw
    obtain ⟨hid, before, after, hl, hb⟩ := find?_first _ _ w hw
    refine ⟨by simpa using hid, before, after, hl, ?_⟩
    intro x hx
    simpa using hb x hx
  · rw [findWeek_eq]
    exact find?_none_iff_ids _ _ _

/-- Witness for C13 amended: in `phaseBesideWeek` the phases hold no week `w1`,
so `findWeek` returns the first match among the top-level weeks. -/
theorem findWeek_spec_witness :
    phaseBesideWeek.phases
      = some [{ id := "ph1", title := "Phase 1", goals := some [], weeks := some [],
                materials := some emptyMaterials }] ∧
    findWeek phaseBesideWeek "w1"
      = (phaseBesideWeek.weeks.getD []).find? (fun w => w.id == "w1") :=
  ⟨rfl, (findWeek_spec phaseBesideWeek "w1").2.2.2.1 _ rfl (by decide)⟩

/-- C14: `findDay` returns the first day with the id in the priority order
"days of the weeks of the phases (phase order, then week order), then days of
the top-level weeks, then top-level days"; the day it returns carries the id,
and it returns nothing exactly when none of those collections holds a day
with the id. -/
theorem findDay_spec (project : Project) (dayId : String) :
    findDay project dayId = (searchedDays project).find? (fun d => d.id == dayId) ∧
    (∀ d, findDay project dayId = some d →
      d.id = dayId ∧ ∃ before after, searchedDays project = before ++ d :: after ∧
        ∀ x ∈ before, x.id ≠ dayId) ∧
    (findDay project dayId = none ↔ ∀ d ∈ searchedDays project, d.id ≠ dayId) := by
  refine ⟨findDay_eq project dayId, ?_, ?_⟩
  · intro d hd
    rw [findDay_eq] at hd
    obtain ⟨hid, before, after, hl, hb⟩ := find?_first _ _ d hd
    refine ⟨by simpa using hid, before, after, hl, ?_⟩
    intro x hx
    simpa using hb x hx
  · rw [findDay_eq]
    exact find?_none_iff_ids _ _ _

/-- C15: for a project of any shape and an id no week of it carries,
`findWeek` returns nothing; for an id no day of it carries, `findDay` returns
nothing.  Both are total: every collection is read behind a presence test,
so there is no raising path. -/
theorem find_miss (project : Project) (id : String) :
    ((∀ w ∈ searchedWeeks project, w.id ≠ id) → findWeek project id = none) ∧
    ((∀ d ∈ searchedDays project, d.id ≠ id) → findDay project id = none) := by
  constructor
  · intro h
    rw [findWeek_eq]
    exact (find?_none_iff_ids _ _ _).2 h
  · intro h
    rw [findDay_eq]
    exact (find?_none_iff_ids _ _ _).2 h

/-- Witness for C15: the project without any collection and the sample phased
project, asked for an id they do not hold. -/
theorem find_miss_witness :
    findWeek emptyProject "w9" = none ∧ findDay emptyProject "d9" = none ∧
    findWeek samplePhased "w9" = none ∧ findDay samplePhased "d9" = none :=
  ⟨(find_miss emptyProject "w9").1 (by decide), (find_miss emptyProject "d9").2 (by decide),
   (find_miss samplePhased "w9").1 (by decide), (find_miss samplePhased "d9").2 (by decide)⟩

theorem collectDays_eq (days : Option (List Day)) (projectId : String)
    (phaseId weekId : Option String) (acc : List WorkDay) :
    collectDays acc days projectId phaseId weekId
      = acc ++ (days.getD []).filterMap (workDayOf projectId phaseId weekId) := by
  cases days with
  | none => simp [collectDays]
  | some ds =>
    simp only [collectDays, Option.getD_some]
    induction ds generalizing acc with
    | nil => simp
    | cons d ds ih =>
      simp only [List.foldl_cons, List.filterMap_cons]
      rw [ih]
      cases workDayOf projectId phaseId weekId d <;> simp

theorem collectWeeks_eq (projectId : String) (phaseId : Option String) (ws : List Week)
    (acc : List WorkDay) :
    ws.foldl (fun acc week => collectDays acc week.days projectId phaseId (some week.id)) acc
      = acc ++ (dayNodesOfWeeks phaseId ws).filterMap
          (fun n => workDayOf projectId n.1 n.2.1 n.2.2) := by
  induction ws generalizing acc with
  | nil => simp [dayNodesOfWeeks]
  | cons w ws ih =>
    simp only [List.foldl_cons]
    rw [ih, collectDays_eq]
    simp [dayNodesOfWeeks, List.filterMap_append, List.filterMap_map, Function.comp_def]

theorem collectPhases_eq (projectId : String) (ps : List Phase) (acc : List WorkDay) :
    ps.foldl (fun acc phase =>
        match phase.weeks with
        | none => acc
        | some ws =>
          ws.foldl (fun acc2 week =>
            collectDays acc2 week.days projectId (some phase.id) (some week.id)) acc) acc
      = acc ++ (ps.flatMap fun phase =>
          dayNodesOfWeeks (some phase.id) (phase.weeks.getD [])).filterMap
            (fun n => workDayOf projectId n.1 n.2.1 n.2.2) := by
  induction ps generalizing acc with
  | nil => simp
  | cons p ps ih =>
    simp only [List.foldl_cons]
    rw [ih]
    cases hw : p.weeks with
    | none => simp [dayNodesOfWeeks, hw]
    | some ws =>
      simp only [collectWeeks_eq]
      simp [hw, List.filterMap_append]

theorem getAllWorkDays_eq (project : Project) (h : validShape project = true) :
    getAllWorkDays project
      = (dayNodes project).filterMap fun n => workDayOf project.id n.1 n.2.1 n.2.2 := by
  unfold validShape at h
  unfold getAllWorkDays dayNodes
  rcases hp : project.phases with _ | ps <;> rcases hw : project.weeks with _ | ws <;>
    rcases hd : project.days with _ | ds <;> simp_all [dayNodesOfWeeks]
  · rw [collectDays_eq]
    simp [List.filterMap_map, Function.comp_def]
  · have := collectWeeks_eq project.id none ws []
    simpa [dayNodesOfWeeks] using this
  · have := collectPhases_eq project.id ps []
    simpa [dayNodesOfWeeks] using this

theorem filterMap_workDayOf (projectId : String)
    (nodes : List (Option String × Option String × Day)) :
    nodes.filterMap (fun n => workDayOf projectId n.1 n.2.1 n.2.2)
      = (nodes.filter fun n => hasDate n.2.2).map fun n =>
          { date := n.2.2.date.getD "", dayId := n.2.2.id, projectId := projectId,
            phaseId := n.1, weekId := n.2.1 } := by
  induction nodes with
  | nil => rfl
  | cons n ns ih =>
    rw [List.filterMap_cons, List.filter_cons, ih]
    obtain ⟨ph, w, d⟩ := n
    cases hd : d.date with
    | none => simp [workDayOf, hasDate, hd]
    | some date =>
      by_cases he : date = ""
      · simp [workDayOf, hasDate, hd, he]
      · simp [workDayOf, hasDate, hd, he]

/-- C19: for a project in one of the four valid shapes, `getAllWorkDays`
holds exactly one entry for each day node with a non-empty date, in the order
of the nodes, and nothing else; the entry carries the date and id of the day,
the id of the project and the ids of the phase and week that own the day
(no phase for top-level weeks, no phase and no week for top-level days). -/
theorem getAllWorkDays_spec (project : Project) (hshape : validShape project = true) :
    getAllWorkDays project = expectedWorkDays project := by
  rw [getAllWorkDays_eq project hshape, filterMap_workDayOf]
  rfl

/-- Witness for C19 on the weekly calendar project: the dated day gives the
only entry. -/
theorem getAllWorkDays_spec_witness :
    validShape sampleCalendar = true ∧
    getAllWorkDays sampleCalendar = expectedWorkDays sampleCalendar ∧
    expectedWorkDays sampleCalendar
      = [{ date := "2024-03-04", dayId := "d1", projectId := "p1", phaseId := none,
           weekId := some "w1" }] :=
  ⟨by decide, getAllWorkDays_spec sampleCalendar (by decide), by decide⟩

theorem splitChars_of_not_mem (sep : Char) (cs : List Char) (h : sep ∉ cs) :
    splitChars sep cs = [cs] := by
  induction cs with
  | nil => rfl
  | cons c cs ih =>
    have hc : c ≠ sep := fun e => h (e ▸ List.mem_cons_self _ _)
    have hcs : sep ∉ cs := fun m => h (List.mem_cons_of_mem _ m)
    simp [splitChars, hc, ih hcs]

theorem splitChars_append (sep : Char) (a b : List Char) (h : sep ∉ a) :
    splitChars sep (a ++ sep :: b) = a :: splitChars sep b := by
  induction a with
  | nil => simp [splitChars]
  | cons c cs ih =>
    have hc : c ≠ sep := fun e => h (e ▸ List.mem_cons_self _ _)
    have hcs : sep ∉ cs := fun m => h (List.mem_cons_of_mem _ m)
    simp [splitChars, hc, ih hcs]

theorem jsSplit_selector (type id : String) (ht : ':' ∉ type.toList) (hi : ':' ∉ id.toList) :
    jsSplit (type ++ ":" ++ id) ':' = [type, id] := by
  have h1 : (type ++ ":" ++ id).toList = type.toList ++ ':' :: id.toList := by
    simp [String.toList]
  unfold jsSplit
  rw [h1, splitChars_append _ _ _ ht, splitChars_of_not_mem _ _ hi]
  simp [String.toList]

theorem jsSplit_project : jsSplit "project" ':' = ["project"] := by decide

theorem getMaterialsContext_parsed (st : AppState) (project : Project)
    (type id : String) (rest : List String)
    (hfp : findProject st.appData st.currentView.projectId = some project)
    (hsplit : jsSplit st.currentMaterialsContext ':' = type :: id :: rest) :
    getMaterialsContext st =
      if type = "phase" then
        ((project.phases.getD []).find? fun p => p.id == id).bind fun p => p.materials
      else if type = "week" then (findWeek project id).bind fun w => w.materials
      else if type = "day" then (findDay project id).bind fun d => d.materials
      else project.materials := by
  have hne : st.currentMaterialsContext ≠ "project" := by
    intro h
    rw [h, jsSplit_project] at hsplit
    simp at hsplit
  unfold getMaterialsContext
  rw [hfp]
  dsimp only
  rw [if_neg hne, hsplit]
  simp only [List.head?_cons, List.get?_cons_succ, List.get?_cons_zero, Option.some.injEq]
  by_cases h1 : type = "phase"
  · rw [if_pos h1, if_pos h1]
    cases hp : project.phases with
    | none => simp
    | some ps =>
      simp only [Option.getD_some]
      cases hf : ps.find? fun p => p.id == id with
      | none => simp [hf]
      | some ph => simp [hf]
  · rw [if_neg h1, if_neg h1]
    by_cases h2 : type = "week"
    · rw [if_pos h2, if_pos h2]
      cases findWeek project id <;> rfl
    · rw [if_neg h2, if_neg h2]
      by_cases h3 : type = "day"
      · rw [if_pos h3, if_pos h3]
        cases findDay project id <;> rfl
      · rw [if_neg h3, if_neg h3]

theorem jsSplit_literal (type id : String) (lit : String) (ht : ':' ∉ type.toList)
    (hi : ':' ∉ id.toList) (hlit : lit = type ++ ":") :
    jsSplit (lit ++ id) ':' = type :: id :: [] := by
  rw [hlit]
  exact jsSplit_selector type id ht hi

/-- C16: `getMaterialsContext` returns nothing without an active project; for
the selector `project` it returns the materials of the project; for a selector
whose parts under `split(':')` start with `phase`, `week` or `day` and an id,
it returns the materials of the first phase with that id, of
`findWeek(project, id)`, of `findDay(project, id)`, and nothing when that node
does not exist.  For an id without a colon, as every generated id is, these
are the selectors `phase:id`, `week:id` and `day:id`. -/
theorem getMaterialsContext_spec (st : AppState) :
    (findProject st.appData st.currentView.projectId = none →
      getMaterialsContext st = none) ∧
    (∀ project, findProject st.appData st.currentView.projectId = some project →
      (st.currentMaterialsContext = "project" →
        getMaterialsContext st = project.materials) ∧
      (∀ id rest, jsSplit st.currentMaterialsContext ':' = "phase" :: id :: rest →
        getMaterialsContext st
          = ((project.phases.getD []).find? fun p => p.id == id).bind fun p => p.materials) ∧
      (∀ id rest, jsSplit st.currentMaterialsContext ':' = "week" :: id :: rest →
        getMaterialsContext st = (findWeek project id).bind fun w => w.materials) ∧
      (∀ id rest, jsSplit st.currentMaterialsContext ':' = "day" :: id :: rest →
        getMaterialsContext st = (findDay project id).bind fun d => d.materials) ∧
      (∀ id : String, ':' ∉ id.toList →
        (st.currentMaterialsContext = "phase:" ++ id →
          getMaterialsContext st
            = ((project.phases.getD []).find? fun p => p.id == id).bind
                fun p => p.materials) ∧
        (st.currentMaterialsContext = "week:" ++ id →
          getMaterialsContext st = (findWeek project id).bind fun w => w.materials) ∧
        (st.currentMaterialsContext = "day:" ++ id →
          getMaterialsContext st = (findDay project id).bind fun d => d.materials))) := by
  constructor
  · intro h
    simp [getMaterialsContext, h]
  · intro project hfp
    have hphase : ∀ id rest, jsSplit st.currentMaterialsContext ':' = "phase" :: id :: rest →
        getMaterialsContext st
          = ((project.phases.getD []).find? fun p => p.id == id).bind fun p => p.materials := by
      intro id rest h
      rw [getMaterialsContext_parsed st project _ _ _ hfp h]
      simp
    have hweek : ∀ id rest, jsSplit st.currentMaterialsContext ':' = "week" :: id :: rest →
        getMaterialsContext st = (findWeek project id).bind fun w => w.materials := by
      intro id rest h
      rw [getMaterialsContext_parsed st project _ _ _ hfp h]
      simp
    have hday : ∀ id rest, jsSplit st.currentMaterialsContext ':' = "day" :: id :: rest →
        getMaterialsContext st = (findDay project id).bind fun d => d.materials := by
      intro id rest h
      rw [getMaterialsContext_parsed st project _ _ _ hfp h]
      simp
    refine ⟨?_, hphase, hweek, hday, ?_⟩
    · intro h
      simp [getMaterialsContext, hfp, h]
    · intro id hid
      refine ⟨fun h => hphase id [] ?_, fun h => hweek id [] ?_, fun h => hday id [] ?_⟩
      · rw [h]
        exact jsSplit_literal "phase" id "phase:" (by decide) hid (by decide)
      · rw [h]
        exact jsSplit_literal "week" id "week:" (by decide) hid (by decide)
      · rw [h]
        exact jsSplit_literal "day" id "day:" (by decide) hid (by decide)

/-- Witness for C16: with the context `phase:ph1` on the migrated sample
project the bucket of phase `ph1` is returned. -/
theorem getMaterialsContext_spec_witness :
    getMaterialsContext samplePhaseContext
      = (((migrateProject samplePhased).phases.getD []).find? fun p => p.id == "ph1").bind
          (fun p => p.materials) ∧
    getMaterialsContext samplePhaseContext = some emptyMaterials :=
  ⟨(((getMaterialsContext_spec samplePhaseContext).2 (migrateProject samplePhased)
      (by decide)).2.2.2.2 "ph1" (by decide)).1 (by decide), by decide⟩

theorem find?_modifyFirst {α : Type} (l : List α) (p : α → Bool) (f : α → α)
    (hf : ∀ x, p (f x) = p x) : (modifyFirst l p f).find? p = (l.find? p).map f := by
  induction l with
  | nil => rfl
  | cons x xs ih =>
    unfold modifyFirst
    by_cases hx : p x = true
    · rw [if_pos hx]
      simp [List.find?, hx, hf]
    · rw [if_neg hx]
      simp only [Bool.not_eq_true] at hx
      simp [List.find?, hx, ih]

theorem findProject_modifyProject (st : AppState) (f : Project → Project)
    (hf : ∀ p, (f p).id = p.id) :
    findProject (modifyProject st f).appData st.currentView.projectId
      = (findProject st.appData st.currentView.projectId).map f := by
  unfold findProject modifyProject
  exact find?_modifyFirst _ _ f (fun x => by simp [hf])

theorem findProject_saveData (now : String) (st : AppState) (pid : Option String) :
    findProject (saveData now st).state.appData pid = findProject st.appData pid := rfl

theorem getMaterialsContext_saveData (now : String) (st : AppState) :
    getMaterialsContext (saveData now st).state = getMaterialsContext st := rfl

theorem find?_filter_ne {α : Type} (l : List α) (key : α → String) (id : String) :
    (l.filter fun x => key x != id).find? (fun x => key x == id) = none := by
  simp [List.find?_eq_none]

theorem deleteSidebarItem_phase (st : AppState) (p now : String) (project : Project)
    (ps : List Phase) (hfp : findProject st.appData st.currentView.projectId = some project)
    (hps : project.phases = some ps) :
    deleteSidebarItem st p "phase" true now
      = saveData now (modifyProject st fun q =>
          { q with phases := q.phases.map (fun l => l.filter (fun ph => ph.id != p)) }) := by
  unfold deleteSidebarItem
  rw [if_neg (by decide), hfp]
  dsimp only
  rw [if_neg (by decide), if_pos (by simp [hps])]

theorem deleted_phase_parsed (st : AppState) (p now : String) (rest : List String)
    (hsplit : jsSplit st.currentMaterialsContext ':' = "phase" :: p :: rest) :
    getMaterialsContext (deleteSidebarItem st p "phase" true now).state = none := by
  cases hfp : findProject st.appData st.currentView.projectId with
  | none =>
    unfold deleteSidebarItem
    rw [if_neg (by decide), hfp]
    simp [getMaterialsContext, hfp]
  | some project =>
    cases hp : project.phases with
    | none =>
      unfold deleteSidebarItem
      rw [if_neg (by decide), hfp]
      dsimp only
      rw [if_neg (by decide), if_neg (by simp [hp]), if_neg (by decide), if_neg (by decide)]
      rw [getMaterialsContext_parsed st project _ _ _ hfp hsplit]
      simp [hp]
    | some ps =>
      rw [deleteSidebarItem_phase st p now project ps hfp hp, getMaterialsContext_saveData]
      have hfp2 := findProject_modifyProject st
        (fun q => { q with phases := q.phases.map (fun l => l.filter (fun ph => ph.id != p)) })
        (fun _ => rfl)
      rw [hfp] at hfp2
      rw [getMaterialsContext_parsed _ _ _ _ _ hfp2 hsplit]
      simp only [if_true, hp, Option.map_some', Option.getD_some]
      rw [find?_filter_ne ps (fun ph => ph.id) p]
      rfl

/-- C17: let the active project have a `phases` collection and let phase `p`
be deleted with `deleteSidebarItem(p, 'phase')`, the confirmation accepted.
Afterwards the active project is the same project with exactly the phases whose
id is not `p`, the view and the materials context are as before, and the
deletion itself raises exactly when the view refresh of its `saveData()` does.
When the materials context names `p`, `getMaterialsContext`, which has no
raising path, then returns nothing.  The context names `p` when its parts under
`split(':')` start with `phase` and `p`; for an id without a colon that is the
selector `phase:p`. -/
theorem deleted_phase_context (st : AppState) (p now : String) :
    (∀ project ps, findProject st.appData st.currentView.projectId = some project →
      project.phases = some ps →
      findProject (deleteSidebarItem st p "phase" true now).state.appData
          st.currentView.projectId
        = some { project with phases := some (ps.filter fun ph => ph.id != p) } ∧
      (∀ ph ∈ ps.filter (fun ph => ph.id != p), ph.id ≠ p) ∧
      (deleteSidebarItem st p "phase" true now).state.currentView = st.currentView ∧
      (deleteSidebarItem st p "phase" true now).state.currentMaterialsContext
        = st.currentMaterialsContext ∧
      (deleteSidebarItem st p "phase" true now).raised
        = renderView (deleteSidebarItem st p "phase" true now).state) ∧
    (∀ rest, jsSplit st.currentMaterialsContext ':' = "phase" :: p :: rest →
      getMaterialsContext (deleteSidebarItem st p "phase" true now).state = none) ∧
    (':' ∉ p.toList → st.currentMaterialsContext = "phase:" ++ p →
      getMaterialsContext (deleteSidebarItem st p "phase" true now).state = none) := by
  refine ⟨fun project ps hfp hps => ?_, fun rest h => deleted_phase_parsed st p now rest h,
    fun hp h => ?_⟩
  · rw [deleteSidebarItem_phase st p now project ps hfp hps]
    refine ⟨?_, ?_, rfl, rfl, rfl⟩
    · have hfp2 := findProject_modifyProject st
        (fun q => { q with phases := q.phases.map (fun l => l.filter (fun ph => ph.id != p)) })
        (fun _ => rfl)
      rw [findProject_saveData, hfp2, hfp]
      simp [hps]
    · intro ph hph
      have := (List.mem_filter.1 hph).2
      simpa using this
  · apply deleted_phase_parsed st p now []
    rw [h]
    exact jsSplit_literal "phase" p "phase:" (by decide) hp (by decide)

/-- Witness for C17: phase `ph2` of `twoPhaseProject` is the materials context
and is deleted; before the deletion its bucket is returned, afterwards nothing,
and the project is left with the phases other than `ph2`. -/
theorem deleted_phase_context_witness :
    findProject twoPhaseContext.appData twoPhaseContext.currentView.projectId
      = some twoPhaseProject ∧
    twoPhaseProject.phases = some [phaseOne, phaseTwo] ∧
    getMaterialsContext twoPhaseContext = some emptyMaterials ∧
    [phaseOne, phaseTwo].filter (fun ph => ph.id != "ph2") = [phaseOne] ∧
    (findProject (deleteSidebarItem twoPhaseContext "ph2" "phase" true "t1").state.appData
          twoPhaseContext.currentView.projectId
        = some { twoPhaseProject with
            phases := some ([phaseOne, phaseTwo].filter fun ph => ph.id != "ph2") } ∧
      (∀ ph ∈ [phaseOne, phaseTwo].filter (fun ph => ph.id != "ph2"), ph.id ≠ "ph2") ∧
      (deleteSidebarItem twoPhaseContext "ph2" "phase" true "t1").state.currentView
        = twoPhaseContext.currentView ∧
      (deleteSidebarItem twoPhaseContext "ph2" "phase" true "t1").state.currentMaterialsContext
        = twoPhaseContext.currentMaterialsContext ∧
      (deleteSidebarItem twoPhaseContext "ph2" "phase" true "t1").raised
        = renderView (deleteSidebarItem twoPhaseContext "ph2" "phase" true "t1").state) ∧
    getMaterialsContext (deleteSidebarItem twoPhaseContext "ph2" "phase" true "t1").state
      = none :=
  ⟨by decide, rfl, by decide, by decide,
    (deleted_phase_context twoPhaseContext "ph2" "t1").1 twoPhaseProject [phaseOne, phaseTwo]
      (by decide) rfl,
    (deleted_phase_context twoPhaseContext "ph2" "t1").2.2 (by decide) (by decide)⟩

/-- A deletion that raises in the view refresh: on a project view of a project
without `tasks` the phase is removed and the result stored, then
`renderChecklist(project.tasks)` raises. -/
theorem deleteSidebarItem_raises_in_refresh :
    (deleteSidebarItem tasklessProjectView "ph1" "phase" true "t1").raised = true ∧
    ((findProject (deleteSidebarItem tasklessProjectView "ph1" "phase" true "t1").state.appData
        (some "p1")).bind fun q => q.phases) = some [] ∧
    (deleteSidebarItem tasklessProjectView "ph1" "phase" true "t1").state.stored
      = some (deleteSidebarItem tasklessProjectView "ph1" "phase" true "t1").state.appData ∧
    getMaterialsContext (deleteSidebarItem tasklessProjectView "ph1" "phase" true "t1").state
      = none := by
  decide

/-- C18, the failing input evaluated: on a phase view of a project without a
`phases` collection the phase is not found, and `toggleItem`, `editItem`,
`deleteItem` and `addItem` all end by a `TypeError` (the state is unchanged). -/
theorem checklist_ops_raise_without_phases :
    toggleItem phaseViewOfFlat 0 "goal" "t1" = ⟨phaseViewOfFlat, true⟩ ∧
    editItem phaseViewOfFlat 0 "goal" "new" "t1" = ⟨phaseViewOfFlat, true⟩ ∧
    deleteItem phaseViewOfFlat 0 "goal" "t1" = ⟨phaseViewOfFlat, true⟩ ∧
    addItem phaseViewOfFlat "new" "t1" = ⟨phaseViewOfFlat, true⟩ := by
  decide

theorem checklist_ops_noop_on_miss (st : AppState) (index : Nat) (itemType text now : String) :
    (findProject st.appData st.currentView.projectId = none →
      toggleItem st index itemType now = ⟨st, false⟩ ∧
      editItem st index itemType text now = ⟨st, false⟩ ∧
      deleteItem st index itemType now = ⟨st, false⟩ ∧
      addItem st text now = ⟨st, false⟩) ∧
    (∀ project, findProject st.appData st.currentView.projectId = some project →
      ((st.currentView.type = "phase" ∧ ∃ ps, project.phases = some ps ∧
          ps.find? (fun p => some p.id == st.currentView.phaseId) = none) ∨
        (st.currentView.type = "week" ∧
          (st.currentView.weekId.bind fun id => findWeek project id) = none) ∨
        (st.currentView.type = "day" ∧
          (st.currentView.dayId.bind fun id => findDay project id) = none)) →
      toggleItem st index itemType now = ⟨st, false⟩ ∧
      editItem st index itemType text now = ⟨st, false⟩ ∧
      deleteItem st index itemType now = ⟨st, false⟩ ∧
      addItem st text now = ⟨st, false⟩) := by
  constructor
  · intro h
    simp [toggleItem, editItem, deleteItem, addItem, h]
  · intro project hfp hmiss
    rcases hmiss with ⟨hv, ps, hps, hf⟩ | ⟨hv, hf⟩ | ⟨hv, hf⟩
    · simp [toggleItem, editItem, deleteItem, addItem, getItemsArray, hfp, hv, hps, hf]
    · cases hw : st.currentView.weekId with
      | none => simp [toggleItem, editItem, deleteItem, addItem, getItemsArray, hfp, hv, hw]
      | some wid =>
        rw [hw] at hf
        change findWeek project wid = none at hf
        simp [toggleItem, editItem, deleteItem, addItem, getItemsArray, hfp, hv, hw, hf]
    · cases hd : st.currentView.dayId with
      | none => simp [toggleItem, editItem, deleteItem, addItem, getItemsArray, hfp, hv, hd]
      | some did =>
        rw [hd] at hf
        change findDay project did = none at hf
        simp [toggleItem, editItem, deleteItem, addItem, getItemsArray, hfp, hv, hd, hf]

theorem find?_any_false {α : Type} (l : List α) (p : α → Bool) (h : l.any p = false) :
    l.find? p = none := by
  rw [List.find?_eq_none]
  intro x hx hp
  have : l.any p = true := List.any_eq_true.2 ⟨x, hx, hp⟩
  rw [h] at this
  cases this

theorem find?_any_true {α : Type} (l : List α) (p : α → Bool) (h : l.any p = true) :
    (l.find? p).isSome = true := by
  obtain ⟨x, hx, hp⟩ := List.any_eq_true.1 h
  cases hf : l.find? p with
  | none =>
    rw [List.find?_eq_none] at hf
    exact absurd hp (hf x hx)
  | some y => rfl

theorem findWeekInPhases_modify (id : String) (f : Week → Week) (hf : ∀ w, (f w).id = w.id)
    (phases : List Phase) :
    findWeekInPhases ((modifyWeekInPhases phases id f).getD phases) id
        = (findWeekInPhases phases id).map f ∧
    (modifyWeekInPhases phases id f).isSome = (findWeekInPhases phases id).isSome := by
  induction phases with
  | nil => exact ⟨rfl, rfl⟩
  | cons ph rest ih =>
    obtain ⟨ih1, ih2⟩ := ih
    cases hw : ph.weeks with
    | none =>
      have e1 : modifyWeekInPhases (ph :: rest) id f
          = (modifyWeekInPhases rest id f).map fun r => ph :: r := by
        simp [modifyWeekInPhases, hw]
      have e2 : ∀ l, findWeekInPhases (ph :: l) id = findWeekInPhases l id := by
        intro l
        simp [findWeekInPhases, hw]
      rw [e1, e2]
      cases hm : modifyWeekInPhases rest id f with
      | none =>
        rw [hm] at ih1 ih2
        simp only [Option.map_none', Option.getD_none, e2]
        exact ⟨ih1, ih2⟩
      | some r =>
        rw [hm] at ih1 ih2
        simp only [Option.map_some', Option.getD_some, e2]
        exact ⟨ih1, ih2⟩
    | some ws =>
      by_cases ha : (ws.any fun w => w.id == id) = true
      · have e1 : modifyWeekInPhases (ph :: rest) id f
            = some ({ ph with
                weeks := some (modifyFirst ws (fun w => w.id == id) f) } :: rest) := by
          simp [modifyWeekInPhases, hw, ha]
        have hsome := find?_any_true ws _ ha
        obtain ⟨w, hwf⟩ := Option.isSome_iff_exists.1 hsome
        have hmod := find?_modifyFirst ws (fun w => w.id == id) f (fun x => by simp [hf])
        rw [e1]
        simp [findWeekInPhases, hw, hmod, hwf]
      · simp only [Bool.not_eq_true] at ha
        have hnone := find?_any_false ws _ ha
        have e1 : modifyWeekInPhases (ph :: rest) id f
            = (modifyWeekInPhases rest id f).map fun r => ph :: r := by
          simp [modifyWeekInPhases, hw, ha]
        have e2 : ∀ l, findWeekInPhases (ph :: l) id = findWeekInPhases l id := by
          intro l
          simp [findWeekInPhases, hw, hnone]
        rw [e1, e2]
        cases hm : modifyWeekInPhases rest id f with
        | none =>
          rw [hm] at ih1 ih2
          simp only [Option.map_none', Option.getD_none, e2]
          exact ⟨ih1, ih2⟩
        | some r =>
          rw [hm] at ih1 ih2
          simp only [Option.map_some', Option.getD_some, e2]
          exact ⟨ih1, ih2⟩

theorem findWeek_modifyWeek (project : Project) (id : String) (f : Week → Week)
    (hf : ∀ w, (f w).id = w.id) :
    findWeek (modifyWeek project id f) id = (findWeek project id).map f := by
  have htop : ∀ ws : List Week,
      (modifyFirst ws (fun w => w.id == id) f).find? (fun w => w.id == id)
        = (ws.find? fun w => w.id == id).map f :=
    fun ws => find?_modifyFirst ws _ f (fun x => by simp [hf])
  cases hp : project.phases with
  | none =>
    cases hw : project.weeks with
    | none => simp [findWeek, modifyWeek, hp, hw]
    | some ws => simp [findWeek, modifyWeek, hp, hw, htop]
  | some ps =>
    obtain ⟨h1, h2⟩ := findWeekInPhases_modify id f hf ps
    cases hm : modifyWeekInPhases ps id f with
    | some ps2 =>
      rw [hm] at h1 h2
      simp only [Option.getD_some] at h1
      obtain ⟨w, hwf⟩ := Option.isSome_iff_exists.1 h2.symm
      simp [findWeek, modifyWeek, hp, hm, h1, hwf]
    | none =>
      rw [hm] at h1 h2
      have hnone : findWeekInPhases ps id = none := by
        cases hx : findWeekInPhases ps id with
        | none => rfl
        | some w => rw [hx] at h2; cases h2
      cases hw : project.weeks with
      | none => simp [findWeek, modifyWeek, hp, hw, hm, hnone]
      | some ws => simp [findWeek, modifyWeek, hp, hw, hm, hnone, htop]

theorem findDayInWeeks_modify (id : String) (f : Day → Day) (hf : ∀ d, (f d).id = d.id)
    (weeks : List Week) :
    findDayInWeeks ((modifyDayInWeeks weeks id f).getD weeks) id
        = (findDayInWeeks weeks id).map f ∧
    (modifyDayInWeeks weeks id f).isSome = (findDayInWeeks weeks id).isSome := by
  induction weeks with
  | nil => exact ⟨rfl, rfl⟩
  | cons wk rest ih =>
    obtain ⟨ih1, ih2⟩ := ih
    cases hd : wk.days with
    | none =>
      have e1 : modifyDayInWeeks (wk :: rest) id f
          = (modifyDayInWeeks rest id f).map fun r => wk :: r := by
        simp [modifyDayInWeeks, hd]
      have e2 : ∀ l, findDayInWeeks (wk :: l) id = findDayInWeeks l id := by
        intro l
        simp [findDayInWeeks, hd]
      rw [e1, e2]
      cases hm : modifyDayInWeeks rest id f with
      | none =>
        rw [hm] at ih1 ih2
        simp only [Option.map_none', Option.getD_none, e2]
        exact ⟨ih1, ih2⟩
      | some r =>
        rw [hm] at ih1 ih2
        simp only [Option.map_some', Option.getD_some, e2]
        exact ⟨ih1, ih2⟩
    | some ds =>
      by_cases ha : (ds.any fun d => d.id == id) = true
      · have e1 : modifyDayInWeeks (wk :: rest) id f
            = some ({ wk with days := some (modifyFirst ds (fun d => d.id == id) f) } :: rest) := by
          simp [modifyDayInWeeks, hd, ha]
        have hsome := find?_any_true ds _ ha
        obtain ⟨d, hdf⟩ := Option.isSome_iff_exists.1 hsome
        have hmod := find?_modifyFirst ds (fun d => d.id == id) f (fun x => by simp [hf])
        rw [e1]
        simp [findDayInWeeks, hd, hmod, hdf]
      · simp only [Bool.not_eq_true] at ha
        have hnone := find?_any_false ds _ ha
        have e1 : modifyDayInWeeks (wk :: rest) id f
            = (modifyDayInWeeks rest id f).map fun r => wk :: r := by
          simp [modifyDayInWeeks, hd, ha]
        have e2 : ∀ l, findDayInWeeks (wk :: l) id = findDayInWeeks l id := by
          intro l
          simp [findDayInWeeks, hd, hnone]
        rw [e1, e2]
        cases hm : modifyDayInWeeks rest id f with
        | none =>
          rw [hm] at ih1 ih2
          simp only [Option.map_none', Option.getD_none, e2]
          exact ⟨ih1, ih2⟩
        | some r =>
          rw [hm] at ih1 ih2
          simp only [Option.map_some', Option.getD_some, e2]
          exact ⟨ih1, ih2⟩

theorem isSome_eq_none {α β : Type} (a : Option α) (b : Option β)
    (h : a.isSome = b.isSome) (ha : a = none) : b = none := by
  subst ha
  cases b with
  | none => rfl
  | some x => cases h

theorem findDayInPhases_modify (id : String) (f : Day → Day) (hf : ∀ d, (f d).id = d.id)
    (phases : List Phase) :
    findDayInPhases ((modifyDayInPhases phases id f).getD phases) id
        = (findDayInPhases phases id).map f ∧
    (modifyDayInPhases phases id f).isSome = (findDayInPhases phases id).isSome := by
  induction phases with
  | nil => exact ⟨rfl, rfl⟩
  | cons ph rest ih =>
    obtain ⟨ih1, ih2⟩ := ih
    have hrest : ∀ (e1 : modifyDayInPhases (ph :: rest) id f
          = (modifyDayInPhases rest id f).map fun r => ph :: r)
        (e2 : ∀ l, findDayInPhases (ph :: l) id = findDayInPhases l id),
        findDayInPhases ((modifyDayInPhases (ph :: rest) id f).getD (ph :: rest)) id
            = (findDayInPhases (ph :: rest) id).map f ∧
        (modifyDayInPhases (ph :: rest) id f).isSome
            = (findDayInPhases (ph :: rest) id).isSome := by
      intro e1 e2
      rw [e1, e2]
      cases hm : modifyDayInPhases rest id f with
      | none =>
        rw [hm] at ih1 ih2
        simp only [Option.map_none', Option.getD_none, e2]
        exact ⟨ih1, ih2⟩
      | some r =>
        rw [hm] at ih1 ih2
        simp only [Option.map_some', Option.getD_some, e2]
        exact ⟨ih1, ih2⟩
    cases hw : ph.weeks with
    | none =>
      exact hrest (by simp [modifyDayInPhases, hw]) (fun l => by simp [findDayInPhases, hw])
    | some ws =>
      obtain ⟨h1, h2⟩ := findDayInWeeks_modify id f hf ws
      cases hm : modifyDayInWeeks ws id f with
      | some ws2 =>
        rw [hm] at h1 h2
        simp only [Option.getD_some] at h1
        obtain ⟨d, hdf⟩ := Option.isSome_iff_exists.1 h2.symm
        have e1 : modifyDayInPhases (ph :: rest) id f
            = some ({ ph with weeks := some ws2 } :: rest) := by
          simp [modifyDayInPhases, hw, hm]
        rw [e1]
        simp [findDayInPhases, hw, h1, hdf]
      | none =>
        have hnone : findDayInWeeks ws id = none := isSome_eq_none _ _ h2 hm
        exact hrest (by simp [modifyDayInPhases, hw, hm])
          (fun l => by simp [findDayInPhases, hw, hnone])

theorem findDay_modifyDay (project : Project) (id : String) (f : Day → Day)
    (hf : ∀ d, (f d).id = d.id) :
    findDay (modifyDay project id f) id = (findDay project id).map f := by
  have htop : ∀ ds : List Day,
      (modifyFirst ds (fun d => d.id == id) f).find? (fun d => d.id == id)
        = (ds.find? fun d => d.id == id).map f :=
    fun ds => find?_modifyFirst ds _ f (fun x => by simp [hf])
  cases hp : project.phases with
  | none =>
    cases hw : project.weeks with
    | none =>
      cases hd : project.days with
      | none => simp [findDay, modifyDay, hw, hd, hp]
      | some ds => simp [findDay, modifyDay, hw, hd, hp, htop]
    | some ws =>
      obtain ⟨k1, k2⟩ := findDayInWeeks_modify id f hf ws
      cases hmw : modifyDayInWeeks ws id f with
      | some ws2 =>
        rw [hmw] at k1 k2
        simp only [Option.getD_some] at k1
        obtain ⟨d, hdf⟩ := Option.isSome_iff_exists.1 k2.symm
        simp [findDay, modifyDay, hw, hp, hmw, k1, hdf]
      | none =>
        have hnonew : findDayInWeeks ws id = none := isSome_eq_none _ _ k2 hmw
        cases hd : project.days with
        | none => simp [findDay, modifyDay, hw, hd, hp, hmw, hnonew]
        | some ds => simp [findDay, modifyDay, hw, hd, hp, hmw, hnonew, htop]
  | some ps =>
    obtain ⟨h1, h2⟩ := findDayInPhases_modify id f hf ps
    cases hm : modifyDayInPhases ps id f with
    | some ps2 =>
      rw [hm] at h1 h2
      simp only [Option.getD_some] at h1
      obtain ⟨d, hdf⟩ := Option.isSome_iff_exists.1 h2.symm
      simp [findDay, modifyDay, hp, hm, h1, hdf]
    | none =>
      have hnone : findDayInPhases ps id = none := isSome_eq_none _ _ h2 hm
      cases hw : project.weeks with
      | none =>
        cases hd : project.days with
        | none => simp [findDay, modifyDay, hw, hd, hp, hm, hnone]
        | some ds => simp [findDay, modifyDay, hw, hd, hp, hm, hnone, htop]
      | some ws =>
        obtain ⟨k1, k2⟩ := findDayInWeeks_modify id f hf ws
        cases hmw : modifyDayInWeeks ws id f with
        | some ws2 =>
          rw [hmw] at k1 k2
          simp only [Option.getD_some] at k1
          obtain ⟨d, hdf⟩ := Option.isSome_iff_exists.1 k2.symm
          simp [findDay, modifyDay, hw, hp, hm, hnone, hmw, k1, hdf]
        | none =>
          have hnonew : findDayInWeeks ws id = none := isSome_eq_none _ _ k2 hmw
          cases hd : project.days with
          | none => simp [findDay, modifyDay, hw, hd, hp, hm, hnone, hmw, hnonew]
          | some ds => simp [findDay, modifyDay, hw, hd, hp, hm, hnone, hmw, hnonew, htop]

theorem modifyWeek_id (p : Project) (weekId : String) (f : Week → Week) :
    (modifyWeek p weekId f).id = p.id := by
  unfold modifyWeek
  dsimp only
  split
  · rfl
  · split <;> rfl

theorem modifyDay_id (p : Project) (dayId : String) (f : Day → Day) :
    (modifyDay p dayId f).id = p.id := by
  unfold modifyDay
  dsimp only
  split
  · rfl
  · split
    · rfl
    · split <;> rfl

theorem modifyMaterials_id (context : String) (f : Materials → Materials) (p : Project) :
    (modifyMaterials context f p).id = p.id := by
  unfold modifyMaterials
  dsimp only
  split_ifs
  · rfl
  · rfl
  · split
    · rfl
    · exact modifyWeek_id _ _ _
  · split
    · rfl
    · exact modifyDay_id _ _ _
  · rfl

theorem getMaterialsContext_modify (st : AppState) (f : Materials → Materials) :
    getMaterialsContext (modifyProject st (modifyMaterials st.currentMaterialsContext f))
      = (getMaterialsContext st).map f := by
  have hfp := findProject_modifyProject st (modifyMaterials st.currentMaterialsContext f)
    (modifyMaterials_id _ f)
  have hctx :
      (modifyProject st (modifyMaterials st.currentMaterialsContext f)).currentMaterialsContext
        = st.currentMaterialsContext := rfl
  have hview : (modifyProject st (modifyMaterials st.currentMaterialsContext f)).currentView
      = st.currentView := rfl
  unfold getMaterialsContext
  rw [hview, hfp, hctx]
  cases hproj : findProject st.appData st.currentView.projectId with
  | none => rfl
  | some project =>
    simp only [Option.map_some']
    by_cases h0 : st.currentMaterialsContext = "project"
    · simp [modifyMaterials, h0]
    · rw [if_neg h0, if_neg h0]
      by_cases h1 : (jsSplit st.currentMaterialsContext ':').head? = some "phase"
      · rw [if_pos h1, if_pos h1]
        simp only [modifyMaterials, if_neg h0, if_pos h1]
        cases hp : project.phases with
        | none => rfl
        | some ps =>
          have hmod := find?_modifyFirst ps
            (fun p => some p.id == (jsSplit st.currentMaterialsContext ':').get? 1)
            (fun ph => { ph with materials := ph.materials.map f }) (fun _ => rfl)
          simp only [Option.map_some']
          rw [hmod]
          cases ps.find? fun p => some p.id == (jsSplit st.currentMaterialsContext ':').get? 1 <;>
            rfl
      · rw [if_neg h1, if_neg h1]
        by_cases h2 : (jsSplit st.currentMaterialsContext ':').head? = some "week"
        · rw [if_pos h2, if_pos h2]
          simp only [modifyMaterials, if_neg h0, if_neg h1, if_pos h2]
          cases hid : (jsSplit st.currentMaterialsContext ':').get? 1 with
          | none => rfl
          | some wid =>
            dsimp only
            rw [findWeek_modifyWeek project wid
              (fun w => { w with materials := w.materials.map f }) (fun _ => rfl)]
            cases findWeek project wid <;> rfl
        · rw [if_neg h2, if_neg h2]
          by_cases h3 : (jsSplit st.currentMaterialsContext ':').head? = some "day"
          · rw [if_pos h3, if_pos h3]
            simp only [modifyMaterials, if_neg h0, if_neg h1, if_neg h2, if_pos h3]
            cases hid : (jsSplit st.currentMaterialsContext ':').get? 1 with
            | none => rfl
            | some did =>
              dsimp only
              rw [findDay_modifyDay project did
                (fun d => { d with materials := d.materials.map f }) (fun _ => rfl)]
              cases findDay project did <;> rfl
          · rw [if_neg h3, if_neg h3]
            simp [modifyMaterials, h0, h1, h2, h3]

theorem deleteMaterial_context (st : AppState) (present : Materials → Bool)
    (f : Materials → Materials) (now : String) (m : Materials)
    (hm : getMaterialsContext st = some m) (hp : present m = true) :
    getMaterialsContext (deleteMaterial st present f now).state = some (f m) := by
  unfold deleteMaterial
  rw [hm]
  dsimp only
  rw [if_pos hp]
  rw [getMaterialsContext_saveData, getMaterialsContext_modify, hm]
  rfl

theorem modifyItems_id (view : CurrentView) (g : List Item → List Item) (p : Project) :
    (modifyItems view g p).id = p.id := by
  unfold modifyItems
  split_ifs
  · rfl
  · rfl
  · split
    · rfl
    · exact modifyWeek_id _ _ _
  · split
    · rfl
    · exact modifyDay_id _ _ _
  · rfl

theorem getItemsArray_modifyItems (view : CurrentView) (g : List Item → List Item)
    (project : Project) (items : List Item)
    (h : getItemsArray view project = .ok (some items)) :
    getItemsArray view (modifyItems view g project) = .ok (some (g items)) := by
  unfold getItemsArray at h ⊢
  unfold modifyItems
  by_cases h0 : view.type = "project"
  · rw [if_pos h0] at h ⊢
    rw [if_pos h0]
    simp only [Except.ok.injEq] at h
    simp [h]
  · rw [if_neg h0] at h ⊢
    rw [if_neg h0]
    by_cases h1 : view.type = "phase"
    · rw [if_pos h1] at h ⊢
      rw [if_pos h1]
      cases hp : project.phases with
      | none => rw [hp] at h; cases h
      | some ps =>
        rw [hp] at h
        dsimp only at h ⊢
        have hmod := find?_modifyFirst ps (fun p => some p.id == view.phaseId)
          (fun ph => { ph with goals := ph.goals.map g }) (fun _ => rfl)
        simp only [Option.map_some']
        rw [hmod]
        cases hf : ps.find? fun p => some p.id == view.phaseId with
        | none => rw [hf] at h; cases h
        | some ph =>
          rw [hf] at h
          simp only [Except.ok.injEq] at h
          simp [h]
    · rw [if_neg h1] at h ⊢
      rw [if_neg h1]
      by_cases h2 : view.type = "week"
      · rw [if_pos h2] at h ⊢
        rw [if_pos h2]
        cases hw : view.weekId with
        | none => rw [hw] at h; cases h
        | some wid =>
          rw [hw] at h
          dsimp only at h ⊢
          rw [findWeek_modifyWeek project wid
            (fun w => { w with goals := w.goals.map g }) (fun _ => rfl)]
          cases hf : findWeek project wid with
          | none => rw [hf] at h; cases h
          | some w =>
            rw [hf] at h
            simp only [Except.ok.injEq] at h
            simp [h]
      · rw [if_neg h2] at h ⊢
        rw [if_neg h2]
        by_cases h3 : view.type = "day"
        · rw [if_pos h3] at h ⊢
          rw [if_pos h3]
          cases hd : view.dayId with
          | none => rw [hd] at h; cases h
          | some did =>
            rw [hd] at h
            dsimp only at h ⊢
            rw [findDay_modifyDay project did
              (fun d => { d with tasks := d.tasks.map g }) (fun _ => rfl)]
            cases hf : findDay project did with
            | none => rw [hf] at h; cases h
            | some d =>
              rw [hf] at h
              simp only [Except.ok.injEq] at h
              simp [h]
        · rw [if_neg h3] at h
          cases h

theorem deleteItem_items (st : AppState) (index : Nat) (itemType now : String)
    (project : Project) (items : List Item)
    (hfp : findProject st.appData st.currentView.projectId = some project)
    (hitems : getItemsArray st.currentView project = .ok (some items)) :
    ∃ project2,
      findProject (deleteItem st index itemType now).state.appData st.currentView.projectId
        = some project2 ∧
      getItemsArray st.currentView project2 = .ok (some (items.eraseIdx index)) := by
  refine ⟨modifyItems st.currentView (fun l => l.eraseIdx index) project, ?_, ?_⟩
  · unfold deleteItem
    rw [hfp]
    dsimp only
    rw [hitems]
    dsimp only
    rw [findProject_saveData,
      findProject_modifyProject st _ (modifyItems_id st.currentView _), hfp]
    rfl
  · exact getItemsArray_modifyItems _ _ _ _ hitems

/-- C20 as stated fails: `deleteNote` and `deleteItem` ask for no
confirmation; called on a state with one note and one task they remove the
note and the task at once and store the result. -/
theorem deletion_without_confirmation :
    getMaterialsContext oneNoteState
      = some { notes := some ["remember"], videos := some [], files := some [],
               links := some [] } ∧
    getMaterialsContext (deleteNote oneNoteState 0 "t1").state
      = some { notes := some [], videos := some [], files := some [], links := some [] } ∧
    (deleteItem oneTaskState 0 "task" "t1").state.appData.projects.map (fun p => p.tasks)
      = [some []] ∧
    (deleteNote oneNoteState 0 "t1").state ≠ oneNoteState ∧
    (deleteItem oneTaskState 0 "task" "t1").state ≠ oneTaskState ∧
    (deleteNote oneNoteState 0 "t1").state.stored
      = some (deleteNote oneNoteState 0 "t1").state.appData ∧
    (deleteItem oneTaskState 0 "task" "t1").state.stored
      = some (deleteItem oneTaskState 0 "task" "t1").state.appData := by
  decide

theorem deleteMaterial_saved (st : AppState) (present : Materials → Bool)
    (f : Materials → Materials) (now : String) (m : Materials)
    (hm : getMaterialsContext st = some m) (hp : present m = true) :
    SavedAt now (deleteMaterial st present f now).state := by
  unfold deleteMaterial
  rw [hm]
  dsimp only
  rw [if_pos hp]
  exact ⟨rfl, rfl⟩

theorem deleteItem_saved (st : AppState) (index : Nat) (itemType now : String)
    (project : Project) (items : List Item)
    (hfp : findProject st.appData st.currentView.projectId = some project)
    (hitems : getItemsArray st.currentView project = .ok (some items)) :
    SavedAt now (deleteItem st index itemType now).state := by
  unfold deleteItem
  rw [hfp]
  dsimp only
  rw [hitems]
  exact ⟨rfl, rfl⟩

/-- C20, amended: `deleteProject` and `deleteSidebarItem` (project, phase,
week, day) leave the state unchanged unless the user confirmed.  `deleteNote`,
`deleteVideo`, `deleteFile`, `deleteLink` and `deleteItem` ask for no
confirmation: whenever their list resolves they remove the entry at the index
at once and save, so the stored document is the new `appData`, stamped with
the time of the deletion. -/
theorem deletion_confirmation (st : AppState) (now : String) :
    (∀ id, deleteProject st id false now = ⟨st, false⟩) ∧
    (∀ id type, deleteSidebarItem st id type false now = ⟨st, false⟩) ∧
    (∀ index m, getMaterialsContext st = some m →
      (∀ l, m.notes = some l →
        getMaterialsContext (deleteNote st index now).state
          = some { m with notes := some (l.eraseIdx index) } ∧
        SavedAt now (deleteNote st index now).state) ∧
      (∀ l, m.videos = some l →
        getMaterialsContext (deleteVideo st index now).state
          = some { m with videos := some (l.eraseIdx index) } ∧
        SavedAt now (deleteVideo st index now).state) ∧
      (∀ l, m.files = some l →
        getMaterialsContext (deleteFile st index now).state
          = some { m with files := some (l.eraseIdx index) } ∧
        SavedAt now (deleteFile st index now).state) ∧
      (∀ l, m.links = some l →
        getMaterialsContext (deleteLink st index now).state
          = some { m with links := some (l.eraseIdx index) } ∧
        SavedAt now (deleteLink st index now).state)) ∧
    (∀ index itemType project items,
      findProject st.appData st.currentView.projectId = some project →
      getItemsArray st.currentView project = .ok (some items) →
      (∃ project2,
        findProject (deleteItem st index itemType now).state.appData st.currentView.projectId
          = some project2 ∧
        getItemsArray st.currentView project2 = .ok (some (items.eraseIdx index))) ∧
      SavedAt now (deleteItem st index itemType now).state) := by
  refine ⟨fun id => rfl, ?_, ?_, ?_⟩
  · intro id type
    unfold deleteSidebarItem
    by_cases ht : type = "project"
    · rw [if_pos ht]
      rfl
    · rw [if_neg ht]
      cases findProject st.appData st.currentView.projectId <;> rfl
  · intro index m hm
    refine ⟨fun l hl => ⟨?_, ?_⟩, fun l hl => ⟨?_, ?_⟩, fun l hl => ⟨?_, ?_⟩,
      fun l hl => ⟨?_, ?_⟩⟩
    · rw [deleteNote, deleteMaterial_context st _ _ now m hm (by simp [hl])]
      simp [hl]
    · exact deleteMaterial_saved st _ _ now m hm (by simp [hl])
    · rw [deleteVideo, deleteMaterial_context st _ _ now m hm (by simp [hl])]
      simp [hl]
    · exact deleteMaterial_saved st _ _ now m hm (by simp [hl])
    · rw [deleteFile, deleteMaterial_context st _ _ now m hm (by simp [hl])]
      simp [hl]
    · exact deleteMaterial_saved st _ _ now m hm (by simp [hl])
    · rw [deleteLink, deleteMaterial_context st _ _ now m hm (by simp [hl])]
      simp [hl]
    · exact deleteMaterial_saved st _ _ now m hm (by simp [hl])
  · intro index itemType project items hfp hitems
    exact ⟨deleteItem_items st index itemType now project items hfp hitems,
      deleteItem_saved st index itemType now project items hfp hitems⟩

/-- Witness for C20 amended: without confirmation the sample phase stays; the
note of `oneNoteState` is removed by `deleteNote` with no question asked, and
the result is stored. -/
theorem deletion_confirmation_witness :
    deleteSidebarItem twoPhaseContext "ph2" "phase" false "t1" = ⟨twoPhaseContext, false⟩ ∧
    getMaterialsContext oneNoteState
      = some { notes := some ["remember"], videos := some [], files := some [],
               links := some [] } ∧
    (getMaterialsContext (deleteNote oneNoteState 0 "t1").state
      = some { notes := some ([] : List String), videos := some [], files := some [],
               links := some [] } ∧
    SavedAt "t1" (deleteNote oneNoteState 0 "t1").state) :=
  ⟨(deletion_confirmation twoPhaseContext "t1").2.1 "ph2" "phase", by decide,
   ((deletion_confirmation oneNoteState "t1").2.2.1 0
      { notes := some ["remember"], videos := some [], files := some [], links := some [] }
      (by decide)).1 ["remember"] rfl⟩

theorem splitChars_head (sep : Char) (cs : List Char) :
    (splitChars sep cs).head? = some (cs.takeWhile fun c => c != sep) := by
  induction cs with
  | nil => rfl
  | cons c cs ih =>
    by_cases hc : c = sep
    · simp [splitChars, hc]
    · have hne : (c != sep) = true := by simpa using hc
      cases hs : splitChars sep cs with
      | nil => rw [hs] at ih; simp at ih
      | cons h t =>
        rw [hs] at ih
        simp only [List.head?_cons, Option.some.injEq] at ih
        simp [splitChars, hc, hs, List.takeWhile_cons, hne, ih]

theorem jsSplit_head (context : String) :
    (jsSplit context ':').head? = some (typePrefixOf context) := by
  unfold jsSplit typePrefixOf
  rw [List.head?_map, splitChars_head]
  rfl

/-- C30: with an active project, a context selector that is not `project` and
whose type part (the text before the first colon) is none of `phase`, `week`,
`day` makes `getMaterialsContext` return the materials of the project itself. -/
theorem getMaterialsContext_other_type (st : AppState) (project : Project)
    (hfp : findProject st.appData st.currentView.projectId = some project)
    (hnot : st.currentMaterialsContext ≠ "project")
    (hphase : typePrefixOf st.currentMaterialsContext ≠ "phase")
    (hweek : typePrefixOf st.currentMaterialsContext ≠ "week")
    (hday : typePrefixOf st.currentMaterialsContext ≠ "day") :
    getMaterialsContext st = project.materials := by
  unfold getMaterialsContext
  rw [hfp]
  dsimp only
  rw [if_neg hnot, jsSplit_head]
  simp [hphase, hweek, hday]

/-- Witness for C30: the selector `files:ph1` on the migrated sample project
resolves to the bucket of the project. -/
theorem getMaterialsContext_other_type_witness :
    getMaterialsContext unknownTypeContext = (migrateProject samplePhased).materials :=
  getMaterialsContext_other_type unknownTypeContext (migrateProject samplePhased)
    (by decide) (by decide) (by decide) (by decide) (by decide)

/-- C21 as stated fails: importing the export of `savedState` one day later
gives a state whose `lastActivity` is the time of the import, not the exported
one. -/
theorem export_import_counterexample :
    savedState.appData.settings.lastActivity = some "2024-01-01T00:00:00.000Z" ∧
    (importData savedState (some (exportData savedState)) true
        "2024-01-02T00:00:00.000Z").state.appData.settings.lastActivity
      = some "2024-01-02T00:00:00.000Z" ∧
    (importData savedState (some (exportData savedState)) true
        "2024-01-02T00:00:00.000Z").state.appData ≠ savedState.appData := by
  decide

/-- C21, amended: export followed by import of the exported file, the
confirmation accepted, gives an application state with the exported projects
and the exported settings except `lastActivity`, which is the time of the
import; the stored blob is that state. -/
theorem export_import (exported st : AppState) (now : String) :
    (importData st (some (exportData exported)) true now).state.appData
      = { exported.appData with
          settings := { exported.appData.settings with lastActivity := some now } } ∧
    (importData st (some (exportData exported)) true now).state.appData.projects
      = exported.appData.projects ∧
    (importData st (some (exportData exported)) true now).state.appData.settings.theme
      = exported.appData.settings.theme ∧
    (importData st (some (exportData exported)) true now).state.stored
      = some (importData st (some (exportData exported)) true now).state.appData ∧
    (importData st (some (exportData exported)) true now).raised = false := by
  have ha : (importData st (some (exportData exported)) true now).state.appData
      = { exported.appData with
          settings := { exported.appData.settings with lastActivity := some now } } := by
    show ((saveData now { st with appData := exported.appData }).andThen fun saved =>
      navigateTo saved homeView).state.appData = _
    rw [andThen_navigateTo_appData]
    rfl
  have hs : (importData st (some (exportData exported)) true now).state.stored
      = some { exported.appData with
          settings := { exported.appData.settings with lastActivity := some now } } := by
    show ((saveData now { st with appData := exported.appData }).andThen fun saved =>
      navigateTo saved homeView).state.stored = _
    rw [andThen_navigateTo_stored]
    rfl
  refine ⟨ha, ?_, ?_, ?_, rfl⟩
  · rw [ha]
  · rw [ha]
  · rw [hs, ha]

/-- C22: `importData` on file content that fails to parse leaves the whole
state, projects and settings included, as it was and raises nothing, whatever
the answer to the confirmation would be. -/
theorem import_malformed (st : AppState) (text : String) (confirmed : Bool) (now : String) :
    importData st (some (.malformed text)) confirmed now = ⟨st, false⟩ := rfl

/-- C23: from the default state, `loadData` yields the default empty state (no
projects, theme `dark`, no `lastActivity`) when the stored blob is absent and
when it fails to deserialize. -/
theorem loadData_fallback (text : String) :
    loadData defaultAppData none = defaultAppData ∧
    loadData defaultAppData (some (.malformed text)) = defaultAppData ∧
    defaultAppData.projects = [] ∧ defaultAppData.settings.theme = "dark" ∧
    defaultAppData.settings.lastActivity = none ∧
    initialState.appData = defaultAppData :=
  ⟨rfl, rfl, rfl, rfl, rfl, rfl⟩

/-- C24: `saveData` and `saveDataQuietly` leave the same state: both set
`settings.lastActivity` to the time stamp, keep the projects and the theme,
and store the same document, which is the new `appData`.  They differ only in
the view refresh: what `saveData` raises is what `renderView` raises on that
state. -/
theorem saveData_saveDataQuietly (st : AppState) (now : String) :
    saveDataQuietly now st = (saveData now st).state ∧
    (saveData now st).state.appData.settings.lastActivity = some now ∧
    (saveData now st).state.appData.projects = st.appData.projects ∧
    (saveData now st).state.appData.settings.theme = st.appData.settings.theme ∧
    (saveData now st).state.stored = some (saveData now st).state.appData ∧
    (saveDataQuietly now st).stored = (saveData now st).state.stored ∧
    (saveData now st).state.currentView = st.currentView ∧
    (saveData now st).state.currentMaterialsContext = st.currentMaterialsContext ∧
    (saveData now st).raised = renderView (saveDataQuietly now st) :=
  ⟨rfl, rfl, rfl, rfl, rfl, rfl, rfl, rfl, rfl⟩

theorem extractYouTubeId_samples :
    extractYouTubeId "https://www.youtube.com/watch?v=dQw4w9WgXcQ&t=1" = some "dQw4w9WgXcQ" ∧
    extractYouTubeId "https://youtu.be/abc?x" = some "abc" ∧
    extractYouTubeId "dQw4w9WgXcQ" = some "dQw4w9WgXcQ" ∧
    extractYouTubeId "https://example.com/video" = none ∧
    extractYouTubeId "youtube.com/watch?v=" = none ∧
    (getMaterialsContext (addVideo oneNoteState "https://youtu.be/abc" "t1").state).map
        (fun m => m.videos) = some (some [{ id := "abc", url := "https://youtu.be/abc" }]) := by
  decide

/-- C25: when the trimmed input is empty or `extractYouTubeId` finds no video
id in it, `addVideo` leaves the whole state unchanged, so no video is added to
any materials bucket. -/
theorem addVideo_invalid (st : AppState) (input now : String)
    (h : jsTrim input = "" ∨ extractYouTubeId (jsTrim input) = none) :
    addVideo st input now = ⟨st, false⟩ := by
  unfold addVideo
  dsimp only
  rcases h with h | h
  · rw [if_pos h]
  · by_cases h0 : jsTrim input = ""
    · rw [if_pos h0]
    · rw [if_neg h0, h]

/-- Witness for C25: a URL of another site and an empty input. -/
theorem addVideo_invalid_witness :
    addVideo oneNoteState "  https://example.com/video " "t1" = ⟨oneNoteState, false⟩ ∧
    addVideo oneNoteState "   " "t1" = ⟨oneNoteState, false⟩ :=
  ⟨addVideo_invalid oneNoteState "  https://example.com/video " "t1" (Or.inr (by decide)),
   addVideo_invalid oneNoteState "   " "t1" (Or.inl (by decide))⟩

theorem taskCounts_statItems (s : StatCounters) (items : Option (List Item)) :
    taskCounts (statItems s items) = countItems (taskCounts s) items := by
  cases items <;> rfl

theorem taskCounts_statDays (ds : List Day) (s : StatCounters) :
    taskCounts (statDays s ds) = countDays (taskCounts s) ds := by
  induction ds generalizing s with
  | nil => rfl
  | cons d ds ih =>
    have h1 : statDays s (d :: ds) = statDays (statItems s d.tasks) ds := rfl
    have h2 : countDays (taskCounts s) (d :: ds)
        = countDays (countItems (taskCounts s) d.tasks) ds := rfl
    rw [h1, h2, ih, taskCounts_statItems]

theorem taskCounts_statWeek (w : Week) (s : StatCounters) :
    taskCounts (statWeek s w) = countWeek (taskCounts s) w := by
  unfold statWeek countWeek
  cases hd : w.days with
  | none => exact taskCounts_statItems s w.goals
  | some ds =>
    dsimp only
    rw [taskCounts_statDays, ← taskCounts_statItems]
    rfl

theorem taskCounts_statWeeks (ws : List Week) (s : StatCounters) :
    taskCounts (statWeeks s ws) = countWeeks (taskCounts s) ws := by
  induction ws generalizing s with
  | nil => rfl
  | cons w ws ih =>
    have h1 : statWeeks s (w :: ws) = statWeeks (statWeek s w) ws := rfl
    have h2 : countWeeks (taskCounts s) (w :: ws)
        = countWeeks (countWeek (taskCounts s) w) ws := rfl
    rw [h1, h2, ih, taskCounts_statWeek]

theorem taskCounts_statPhase (ph : Phase) (s : StatCounters) :
    taskCounts (statPhase s ph) = countPhase (taskCounts s) ph := by
  unfold statPhase countPhase
  cases hw : ph.weeks with
  | none => exact taskCounts_statItems s ph.goals
  | some ws =>
    dsimp only
    rw [taskCounts_statWeeks, ← taskCounts_statItems]
    rfl

theorem taskCounts_statPhases (ps : List Phase) (s : StatCounters) :
    taskCounts (ps.foldl statPhase s) = countPhases (taskCounts s) ps := by
  induction ps generalizing s with
  | nil => rfl
  | cons p ps ih =>
    have h1 : (p :: ps).foldl statPhase s = ps.foldl statPhase (statPhase s p) := rfl
    have h2 : countPhases (taskCounts s) (p :: ps)
        = countPhases (countPhase (taskCounts s) p) ps := rfl
    rw [h1, h2, ih, taskCounts_statPhase]

theorem taskCounts_projectStatCounters (p : Project) :
    taskCounts (projectStatCounters p) = projectCounts p := by
  have h0 : taskCounts (statItems ⟨0, 0, 0, 0, 0⟩ p.tasks) = countItems (0, 0) p.tasks := by
    rw [taskCounts_statItems]; rfl
  unfold projectStatCounters projectCounts
  rcases hp : p.phases with _ | ps <;> rcases hw : p.weeks with _ | ws <;>
    rcases hd : p.days with _ | ds <;> dsimp only [Option.isNone] <;>
    (try simp only [Bool.and_self, Bool.and_false, Bool.false_and, if_true, if_false,
      Bool.false_eq_true, reduceIte]) <;>
    (try rw [taskCounts_statDays]) <;> (try rw [taskCounts_statWeeks]) <;>
    (try rw [taskCounts_statPhases]) <;>
    first
      | exact h0
      | exact congrArg (fun a => countDays a ds) h0
      | exact congrArg (fun a => countWeeks a ws) h0
      | exact congrArg (fun a => countPhases a ps) h0

theorem calculateProjectStats_samplePhased :
    (calculateProjectStats samplePhased).totalPhases = (samplePhased.phases.getD []).length ∧
    (calculateProjectStats samplePhased).completionRate
      = calculateProjectProgress samplePhased := by
  decide

/-- C26: for every project of any shape, the `completionRate` of
`calculateProjectStats` equals `calculateProjectProgress`, its `totalTasks`
and `completedTasks` are the two counters `calculateProjectProgress`
aggregates, and `completedTasks` is at most `totalTasks`. -/
theorem calculateProjectStats_agrees (project : Project) :
    (calculateProjectStats project).completionRate = calculateProjectProgress project ∧
    (calculateProjectStats project).totalTasks = (projectCounts project).1 ∧
    (calculateProjectStats project).completedTasks = (projectCounts project).2 ∧
    (calculateProjectStats project).completedTasks
      ≤ (calculateProjectStats project).totalTasks := by
  have h := taskCounts_projectStatCounters project
  have h1 : (projectStatCounters project).totalTasks = (projectCounts project).1 :=
    congrArg Prod.fst h
  have h2 : (projectStatCounters project).completedTasks = (projectCounts project).2 :=
    congrArg Prod.snd h
  refine ⟨?_, h1, h2, ?_⟩
  · show percent _ _ = percent _ _
    rw [h1, h2]
  · show (projectStatCounters project).completedTasks ≤ (projectStatCounters project).totalTasks
    rw [h1, h2, projectCounts_eq]
    exact completedCount_le _

theorem completedCount_eq_length (l : List Item) :
    completedCount l = l.length ↔ ∀ t ∈ l, t.completed = true := by
  unfold completedCount
  induction l with
  | nil => simp
  | cons a l ih =>
    cases ha : a.completed with
    | true =>
      simp only [List.filter_cons, ha, if_true, List.length_cons, Nat.add_right_cancel_iff,
        List.mem_cons, forall_eq_or_imp, true_and]
      exact ih
    | false =>
      simp only [List.filter_cons, ha, List.length_cons, List.mem_cons, forall_eq_or_imp]
      constructor
      · intro h
        have := List.length_filter_le (fun item : Item => item.completed) l
        simp at h
        omega
      · rintro ⟨h, _⟩
        exact absurd h (by decide)

theorem percent_full (t : Nat) (ht : 0 < t) (hb : t < 2 ^ 44) : percent t t = 100 := by
  have h := (percent_near t t ht (Nat.le_refl t) hb).2
  have hle := percent_le t t (Nat.le_refl t)
  by_contra hne
  have h99 : percent t t ≤ 99 := by omega
  have : 2 * t * percent t t ≤ 2 * t * 99 := Nat.mul_le_mul_left _ h99
  omega

theorem percent_not_full (c t : Nat) (hct : c < t) (hb : t < 200) : percent c t ≠ 100 := by
  intro h
  have ht : 0 < t := by omega
  have hb44 : t < 2 ^ 44 := lt_of_lt_of_le hb (by norm_num)
  have hn := (percent_near c t ht (Nat.le_of_lt hct) hb44).1
  rw [h] at hn
  omega

theorem sampleDay_length (done total : Nat) :
    (dayItems (sampleDay done total)).length = done + (total - done) := by
  simp [dayItems, sampleDay]

theorem sampleDay_completedCount (done total : Nat) :
    completedCount (dayItems (sampleDay done total)) = done := by
  simp [dayItems, sampleDay, completedCount, List.filter_append, List.filter_replicate]

theorem calculateDayProgress_199_of_200 : calculateDayProgress (sampleDay 199 200) = 100 := by
  rw [calculateDayProgress_eq]
  rw [sampleDay_length, sampleDay_completedCount]
  decide

/-- C27: for every day with fewer than 200 tasks, `calculateDayProgress` is 100
exactly when the day has at least one task and every task is completed. -/
theorem calculateDayProgress_full (day : Day) (h : (day.tasks.getD []).length < 200) :
    calculateDayProgress day = 100 ↔
      0 < (day.tasks.getD []).length ∧ ∀ t ∈ day.tasks.getD [], t.completed = true := by
  rw [calculateDayProgress_eq]
  show percent (completedCount (day.tasks.getD [])) (day.tasks.getD []).length = 100 ↔ _
  generalize day.tasks.getD [] = l at h ⊢
  constructor
  · intro hp
    have hpos : 0 < l.length := by
      rcases Nat.eq_zero_or_pos l.length with h0 | h0
      · rw [h0, percent_zero_total] at hp
        exact absurd hp (by decide)
      · exact h0
    refine ⟨hpos, (completedCount_eq_length l).1 ?_⟩
    by_contra hne
    have hlt : completedCount l < l.length := lt_of_le_of_ne (completedCount_le l) hne
    exact percent_not_full _ _ hlt h hp
  · rintro ⟨hpos, hall⟩
    rw [(completedCount_eq_length l).2 hall]
    exact percent_full _ hpos (lt_of_lt_of_le h (by norm_num))

theorem calculateDayProgress_full_witness :
    ((sampleDay 2 3).tasks.getD []).length < 200 ∧
    (calculateDayProgress (sampleDay 2 3) = 100 ↔
      0 < ((sampleDay 2 3).tasks.getD []).length ∧
        ∀ t ∈ (sampleDay 2 3).tasks.getD [], t.completed = true) :=
  ⟨by decide, calculateDayProgress_full (sampleDay 2 3) (by decide)⟩

theorem forall₂_map_self {α : Type} (R : α → α → Prop) (f : α → α) (h : ∀ a, R a (f a))
    (l : List α) : List.Forall₂ R l (l.map f) := by
  induction l with
  | nil => exact List.Forall₂.nil
  | cons a l ih => exact List.Forall₂.cons (h a) ih

theorem forall₂_self {α : Type} (R : α → α → Prop) (h : ∀ a, R a a) (l : List α) :
    List.Forall₂ R l l := by
  induction l with
  | nil => exact List.Forall₂.nil
  | cons a l ih => exact List.Forall₂.cons (h a) ih

theorem childrenKept_map {α : Type} (R : α → α → Prop) (f : α → α) (h : ∀ a, R a (f a))
    (c : Option (List α)) : ChildrenKept R c (c.map fun l => l.map f) := by
  cases c with
  | none => exact ⟨rfl, List.Forall₂.nil⟩
  | some l => exact ⟨rfl, forall₂_map_self R f h l⟩

theorem childrenKept_self {α : Type} (R : α → α → Prop) (h : ∀ a, R a a)
    (c : Option (List α)) : ChildrenKept R c c :=
  ⟨rfl, forall₂_self R h _⟩

theorem materialsKept_default (m : Option Materials) : MaterialsKept m (defaultMaterials m) := by
  intro b hb
  rw [hb]
  rfl

theorem itemsKept_default (items : Option (List Item)) : ItemsKept items (defaultItems items) := by
  cases items <;> rfl

theorem dayKept_self (d : Day) : DayKept d d :=
  ⟨rfl, rfl, rfl, rfl, fun _ h => h⟩

theorem weekKept_self (w : Week) : WeekKept w w :=
  ⟨rfl, rfl, rfl, fun _ h => h, childrenKept_self DayKept dayKept_self _⟩

theorem dayKept_migratePhaseDay (d : Day) : DayKept d (migratePhaseDay d) :=
  ⟨rfl, rfl, rfl, itemsKept_default _, materialsKept_default _⟩

theorem dayKept_migrateStandaloneDay (d : Day) : DayKept d (migrateStandaloneDay d) :=
  ⟨rfl, rfl, rfl, rfl, materialsKept_default _⟩

theorem weekKept_migratePhaseWeek (w : Week) : WeekKept w (migratePhaseWeek w) :=
  ⟨rfl, rfl, itemsKept_default _, materialsKept_default _,
    childrenKept_map DayKept migratePhaseDay dayKept_migratePhaseDay _⟩

theorem weekKept_migrateStandaloneWeek (w : Week) : WeekKept w (migrateStandaloneWeek w) :=
  ⟨rfl, rfl, rfl, materialsKept_default _,
    childrenKept_map DayKept migrateStandaloneDay dayKept_migrateStandaloneDay _⟩

theorem phaseKept_migratePhase (ph : Phase) : PhaseKept ph (migratePhase ph) :=
  ⟨rfl, rfl, itemsKept_default _, materialsKept_default _,
    childrenKept_map WeekKept migratePhaseWeek weekKept_migratePhaseWeek _⟩

theorem projectKept_migrateProject (p : Project) : ProjectKept p (migrateProject p) := by
  refine ⟨rfl, rfl, ?_, ?_, itemsKept_default _, materialsKept_default _,
    childrenKept_map PhaseKept migratePhase phaseKept_migratePhase _, ?_, ?_⟩
  · intro d hd
    show (match p.description with
      | none => some ""
      | some d => if d = "" then some "" else some d) = some d
    rw [hd]
    by_cases h : d = ""
    · simp [h]
    · simp [h]
  · intro s hs
    show (match p.struct with
      | none => some ⟨false, false, false, false⟩
      | some s => some s) = some s
    rw [hs]
  · show ChildrenKept WeekKept p.weeks (match p.weeks with
      | none => none
      | some ws => if p.phases.isNone then some (ws.map migrateStandaloneWeek) else some ws)
    cases p.weeks with
    | none => exact ⟨rfl, List.Forall₂.nil⟩
    | some ws =>
      by_cases h : p.phases.isNone
      · dsimp only
        rw [if_pos h]
        exact ⟨rfl, forall₂_map_self WeekKept _ weekKept_migrateStandaloneWeek ws⟩
      · dsimp only
        rw [if_neg h]
        exact childrenKept_self WeekKept weekKept_self _
  · show ChildrenKept DayKept p.days (match p.days with
      | none => none
      | some ds =>
        if p.weeks.isNone && p.phases.isNone
        then some (ds.map migrateStandaloneDay) else some ds)
    cases p.days with
    | none => exact ⟨rfl, List.Forall₂.nil⟩
    | some ds =>
      by_cases h : (p.weeks.isNone && p.phases.isNone) = true
      · dsimp only
        rw [if_pos h]
        exact ⟨rfl, forall₂_map_self DayKept _ dayKept_migrateStandaloneDay ds⟩
      · dsimp only
        rw [if_neg h]
        exact childrenKept_self DayKept dayKept_self _

theorem flatMap_map_of_eq {α β : Type} (f : α → α) (g : α → List β) (h : ∀ a, g (f a) = g a)
    (l : List α) : (l.map f).flatMap g = l.flatMap g := by
  induction l with
  | nil => rfl
  | cons a l ih => simp [List.flatMap_cons, h, ih]

theorem getD_map_map {α : Type} (f : α → α) (c : Option (List α)) :
    (c.map fun l => l.map f).getD [] = (c.getD []).map f := by
  cases c <;> rfl

theorem getD_defaultItems (items : Option (List Item)) :
    (defaultItems items).getD [] = items.getD [] := by
  cases items <;> rfl

theorem dayItems_migratePhaseDay (d : Day) : dayItems (migratePhaseDay d) = dayItems d :=
  getD_defaultItems d.tasks

theorem dayItems_migrateStandaloneDay (d : Day) :
    dayItems (migrateStandaloneDay d) = dayItems d := rfl

theorem weekItems_migratePhaseWeek (w : Week) : weekItems (migratePhaseWeek w) = weekItems w := by
  show (defaultItems w.goals).getD []
      ++ ((w.days.map fun ds => ds.map migratePhaseDay).getD []).flatMap dayItems = _
  rw [getD_defaultItems, getD_map_map, flatMap_map_of_eq _ _ dayItems_migratePhaseDay]
  rfl

theorem weekItems_migrateStandaloneWeek (w : Week) :
    weekItems (migrateStandaloneWeek w) = weekItems w := by
  show w.goals.getD []
      ++ ((w.days.map fun ds => ds.map migrateStandaloneDay).getD []).flatMap dayItems = _
  rw [getD_map_map, flatMap_map_of_eq _ _ dayItems_migrateStandaloneDay]
  rfl

theorem phaseItems_migratePhase (ph : Phase) : phaseItems (migratePhase ph) = phaseItems ph := by
  show (defaultItems ph.goals).getD []
      ++ ((ph.weeks.map fun ws => ws.map migratePhaseWeek).getD []).flatMap weekItems = _
  rw [getD_defaultItems, getD_map_map, flatMap_map_of_eq _ _ weekItems_migratePhaseWeek]
  rfl

theorem countedItems_migrateProject (p : Project) :
    countedItems (migrateProject p) = countedItems p := by
  unfold countedItems migrateProject
  rcases hp : p.phases with _ | ps <;> rcases hw : p.weeks with _ | ws <;>
    rcases hd : p.days with _ | ds <;>
    simp [getD_defaultItems, flatMap_map_of_eq _ _ weekItems_migrateStandaloneWeek,
      flatMap_map_of_eq _ _ dayItems_migrateStandaloneDay,
      flatMap_map_of_eq _ _ phaseItems_migratePhase]

theorem projectItems_migrateProject (p : Project) :
    projectItems (migrateProject p) = projectItems p := by
  unfold projectItems migrateProject
  rcases hp : p.phases with _ | ps <;> rcases hw : p.weeks with _ | ws <;>
    rcases hd : p.days with _ | ds <;>
    simp [getD_defaultItems, flatMap_map_of_eq _ _ weekItems_migrateStandaloneWeek,
      flatMap_map_of_eq _ _ dayItems_migrateStandaloneDay,
      flatMap_map_of_eq _ _ phaseItems_migratePhase]

theorem calculateProjectProgress_migrateProject (p : Project) :
    calculateProjectProgress (migrateProject p) = calculateProjectProgress p := by
  rw [calculateProjectProgress_eq, calculateProjectProgress_eq, countedItems_migrateProject]

/-- C29: for every raw state the load-time normalisation keeps what is present:
the projects after it are, one by one and in the same order, the projects
before it with the same phases, weeks and days, the same items (text and
completion flag) in every checklist and every present materials bucket
unaltered; the items reachable from each project are the same list, the
settings are untouched, and `calculateProjectProgress` of each project is
unchanged. -/
theorem migrate_keeps (appData : AppData) :
    List.Forall₂ ProjectKept appData.projects (migrate appData).projects ∧
    (migrate appData).settings = appData.settings ∧
    (migrate appData).projects.map projectItems = appData.projects.map projectItems ∧
    (migrate appData).projects.map calculateProjectProgress
      = appData.projects.map calculateProjectProgress := by
  refine ⟨forall₂_map_self ProjectKept migrateProject projectKept_migrateProject _, rfl, ?_, ?_⟩
  · show (appData.projects.map migrateProject).map projectItems = _
    rw [List.map_map]
    exact List.map_congr_left fun p _ => projectItems_migrateProject p
  · show (appData.projects.map migrateProject).map calculateProjectProgress = _
    rw [List.map_map]
    exact List.map_congr_left fun p _ => calculateProjectProgress_migrateProject p

theorem roundHalfEven_tie (n d : Nat) (hd : 0 < d)
    (h : 2 * n + d = 2 * roundHalfEven n d * d ∨ 2 * n = 2 * roundHalfEven n d * d + d) :
    roundHalfEven n d % 2 = 0 := by
  have hdm := Nat.div_add_mod n d
  have hm := Nat.mod_lt n hd
  unfold roundHalfEven at h ⊢
  simp only at h ⊢
  generalize n / d = q at *
  generalize n % d = r at *
  have e1 : 2 * q * d = 2 * (d * q) := by ring
  have e2 : 2 * (q + 1) * d = 2 * (d * q) + 2 * d := by ring
  split_ifs at h ⊢ <;> omega

theorem roundHalfEven_ge (n d K : Nat) (hd : 0 < d) (h : K * d ≤ n) :
    K ≤ roundHalfEven n d := by
  have hb := (roundHalfEven_bounds n d hd).2
  by_contra hc
  push_neg at hc
  have : (roundHalfEven n d + 1) * d ≤ K * d := Nat.mul_le_mul_right d hc
  nlinarith

theorem roundHalfEven_mono (n d n' d' : Nat) (hd : 0 < d) (hd' : 0 < d')
    (h : n * d' ≤ n' * d) : roundHalfEven n d ≤ roundHalfEven n' d' := by
  obtain ⟨a1, a2⟩ := roundHalfEven_bounds n d hd
  obtain ⟨b1, b2⟩ := roundHalfEven_bounds n' d' hd'
  have ta := roundHalfEven_tie n d hd
  have tb := roundHalfEven_tie n' d' hd'
  generalize roundHalfEven n d = q at *
  generalize roundHalfEven n' d' = q' at *
  by_contra hc
  push_neg at hc
  have hq : q' + 1 ≤ q := hc
  have k1 : 2 * (q' + 1) * d ≤ 2 * q * d :=
    Nat.mul_le_mul_right d (Nat.mul_le_mul_left 2 hq)
  have k2 : 2 * (q' + 1) * d * d' ≤ (2 * n + d) * d' :=
    Nat.mul_le_mul_right d' (k1.trans a1)
  have k3 : 2 * (n' * d) ≤ (2 * q' * d' + d') * d := by
    calc 2 * (n' * d) = 2 * n' * d := by ring
      _ ≤ (2 * q' * d' + d') * d := Nat.mul_le_mul_right d b2
  have k4 : 2 * (n * d') ≤ 2 * (n' * d) := Nat.mul_le_mul_left 2 h
  have e1 : 2 * (q' + 1) * d * d' = 2 * q' * d' * d + 2 * (d * d') := by ring
  have e2 : (2 * n + d) * d' = 2 * (n * d') + d * d' := by ring
  have e3 : (2 * q' * d' + d') * d = 2 * q' * d' * d + d * d' := by ring
  rw [e1, e2] at k2
  rw [e3] at k3
  have hdd : 0 < d * d' := Nat.mul_pos hd hd'
  have eqn : 2 * (n * d') = 2 * (n' * d) := by omega
  have eq1 : 2 * (n' * d) = 2 * q' * d' * d + d * d' := by omega
  have eq2 : 2 * q' * d' * d + 2 * (d * d') = 2 * (n * d') + d * d' := by omega
  have hqq : q = q' + 1 := by
    by_contra hne
    have h2 : q' + 2 ≤ q := by omega
    have k5 : 2 * (q' + 2) * d ≤ 2 * q * d :=
      Nat.mul_le_mul_right d (Nat.mul_le_mul_left 2 h2)
    have k6 : 2 * (q' + 2) * d * d' ≤ (2 * n + d) * d' :=
      Nat.mul_le_mul_right d' (k5.trans a1)
    have e4 : 2 * (q' + 2) * d * d' = 2 * q' * d' * d + 4 * (d * d') := by ring
    rw [e4, e2] at k6
    omega
  have tieb : 2 * n' = 2 * q' * d' + d' := by
    have : (2 * n') * d = (2 * q' * d' + d') * d := by
      rw [e3]
      calc 2 * n' * d = 2 * (n' * d) := by ring
        _ = _ := eq1
    exact Nat.eq_of_mul_eq_mul_right hd this
  have tiea : 2 * n + d = 2 * q * d := by
    have : (2 * n + d) * d' = (2 * q * d) * d' := by
      rw [e2, hqq, e1]
      omega
    exact Nat.eq_of_mul_eq_mul_right hd' this
  have pa := ta (Or.inl tiea)
  have pb := tb (Or.inr tieb)
  omega

theorem binade_spec (n d : Nat) (hn : n ≠ 0) (hd : 0 < d) :
    (2 : ℚ) ^ binade n d ≤ (n : ℚ) / d ∧ (n : ℚ) / d < (2 : ℚ) ^ (binade n d + 1) := by
  have hdq : (0 : ℚ) < d := by exact_mod_cast hd
  have hd0 : d ≠ 0 := by omega
  have n1 : (2 : ℚ) ^ (ilog2 n : Int) ≤ n := by
    rw [zpow_natCast, ilog2_eq]
    exact_mod_cast Nat.pow_log_le_self 2 hn
  have n2 : (n : ℚ) < (2 : ℚ) ^ ((ilog2 n : Int) + 1) := by
    have : n < 2 ^ (Nat.log 2 n + 1) := Nat.lt_pow_succ_log_self (by norm_num) n
    have h : ((ilog2 n : Int) + 1) = ((Nat.log 2 n + 1 : Nat) : Int) := by
      rw [ilog2_eq]; push_cast; ring
    rw [h, zpow_natCast]
    exact_mod_cast this
  have d1 : (2 : ℚ) ^ (ilog2 d : Int) ≤ d := by
    rw [zpow_natCast, ilog2_eq]
    exact_mod_cast Nat.pow_log_le_self 2 hd0
  have d2 : (d : ℚ) < (2 : ℚ) ^ ((ilog2 d : Int) + 1) := by
    have : d < 2 ^ (Nat.log 2 d + 1) := Nat.lt_pow_succ_log_self (by norm_num) d
    have h : ((ilog2 d : Int) + 1) = ((Nat.log 2 d + 1 : Nat) : Int) := by
      rw [ilog2_eq]; push_cast; ring
    rw [h, zpow_natCast]
    exact_mod_cast this
  unfold binade
  simp only
  generalize (ilog2 n : Int) = a at *
  generalize (ilog2 d : Int) = b at *
  have two0 : (2 : ℚ) ≠ 0 := by norm_num
  have pa : (0 : ℚ) < 2 ^ a := by positivity
  have pb : (0 : ℚ) < 2 ^ b := by positivity
  have hcond : (d * 2 ^ (a - b).toNat ≤ n * 2 ^ (-(a - b)).toNat) ↔
      (2 : ℚ) ^ (a - b) ≤ (n : ℚ) / d := by
    rw [two_zpow_split (a - b), le_div_iff₀ hdq, div_mul_eq_mul_div,
      div_le_iff₀ (by positivity)]
    constructor
    · intro h
      have : ((d * 2 ^ (a - b).toNat : Nat) : ℚ) ≤ ((n * 2 ^ (-(a - b)).toNat : Nat) : ℚ) := by
        exact_mod_cast h
      push_cast at this
      linarith
    · intro h
      have : ((d * 2 ^ (a - b).toNat : Nat) : ℚ) ≤ ((n * 2 ^ (-(a - b)).toNat : Nat) : ℚ) := by
        push_cast
        linarith
      exact_mod_cast this
  have up : (n : ℚ) / d < (2 : ℚ) ^ (a - b + 1) := by
    have e : (2 : ℚ) ^ (a - b + 1) = 2 ^ (a + 1) / 2 ^ b := by
      rw [← zpow_sub₀ two0]
      congr 1
      ring
    rw [e, div_lt_div_iff₀ hdq pb]
    calc (n : ℚ) * 2 ^ b < 2 ^ (a + 1) * 2 ^ b := by
          exact mul_lt_mul_of_pos_right n2 pb
      _ ≤ 2 ^ (a + 1) * d := by
          exact mul_le_mul_of_nonneg_left d1 (by positivity)
  have low : (2 : ℚ) ^ (a - b - 1) ≤ (n : ℚ) / d := by
    have e : (2 : ℚ) ^ (a - b - 1) = 2 ^ a / 2 ^ (b + 1) := by
      rw [← zpow_sub₀ two0]
      congr 1
      ring
    have pb1 : (0 : ℚ) < 2 ^ (b + 1) := by positivity
    rw [e, div_le_div_iff₀ pb1 hdq]
    calc (2 : ℚ) ^ a * d ≤ n * d := by
          exact mul_le_mul_of_nonneg_right n1 (le_of_lt hdq)
      _ ≤ n * 2 ^ (b + 1) := by
          exact mul_le_mul_of_nonneg_left (le_of_lt d2) (by positivity)
  by_cases hc : d * 2 ^ (a - b).toNat ≤ n * 2 ^ (-(a - b)).toNat
  · rw [if_pos hc]
    exact ⟨hcond.1 hc, up⟩
  · rw [if_neg hc]
    refine ⟨low, ?_⟩
    have : ¬ (2 : ℚ) ^ (a - b) ≤ (n : ℚ) / d := fun h => hc (hcond.2 h)
    have e : a - b - 1 + 1 = a - b := by ring
    rw [e]
    exact lt_of_not_le this

theorem toRat_nonneg (x : Dbl) : 0 ≤ x.toRat := by
  unfold Dbl.toRat
  positivity

theorem fl_le_pow (n d : Nat) (hn : n ≠ 0) (hd : 0 < d) :
    (fl n d).toRat ≤ (2 : ℚ) ^ (max (binade n d) (-1022) + 1) := by
  have hs := (binade_spec n d hn hd).2
  have hdq : (0 : ℚ) < d := by exact_mod_cast hd
  have hk : (2 : ℚ) ^ (binade n d + 1) ≤ (2 : ℚ) ^ (max (binade n d) (-1022) + 1) :=
    zpow_le_zpow_right₀ (by norm_num) (by omega)
  have hx : (n : ℚ) / d ≤ (2 : ℚ) ^ (max (binade n d) (-1022) + 1) := le_of_lt (hs.trans_le hk)
  unfold fl
  rw [if_neg hn]
  simp only [Dbl.toRat]
  have ek : max (binade n d) (-1022) + 1 = 53 + (max (binade n d) (-1022) - 52) := by ring
  rw [ek] at hx ⊢
  generalize max (binade n d) (-1022) - 52 = e at *
  have e53 : (2 : ℚ) ^ (53 + e) = 2 ^ 53 * 2 ^ e := by
    rw [zpow_add₀ (by norm_num)]
    norm_cast
  rw [e53] at hx ⊢
  have hD : 0 < d * 2 ^ e.toNat := by positivity
  have hnat : n * 2 ^ (-e).toNat ≤ 2 ^ 53 * (d * 2 ^ e.toNat) := by
    rw [two_zpow_split e, div_le_iff₀ hdq] at hx
    have hA : (0 : ℚ) < 2 ^ (-e).toNat := by positivity
    have h2 : (n : ℚ) * 2 ^ (-e).toNat ≤ 2 ^ 53 * (d * 2 ^ e.toNat) := by
      have := mul_le_mul_of_nonneg_right hx (le_of_lt hA)
      have e1 : (2 : ℚ) ^ 53 * (2 ^ e.toNat / 2 ^ (-e).toNat) * d * 2 ^ (-e).toNat
          = 2 ^ 53 * (d * 2 ^ e.toNat) := by
        field_simp
        ring
      rw [e1] at this
      exact this
    exact_mod_cast h2
  have hm := roundHalfEven_le _ _ (2 ^ 53) hD hnat
  have hmq : ((roundHalfEven (n * 2 ^ (-e).toNat) (d * 2 ^ e.toNat) : Nat) : ℚ) ≤ 2 ^ 53 := by
    exact_mod_cast hm
  exact mul_le_mul_of_nonneg_right hmq (by positivity)

theorem fl_ge_pow (n d : Nat) (hn : n ≠ 0) (hd : 0 < d) (hb : -1022 ≤ binade n d) :
    (2 : ℚ) ^ binade n d ≤ (fl n d).toRat := by
  have hx := (binade_spec n d hn hd).1
  have hdq : (0 : ℚ) < d := by exact_mod_cast hd
  unfold fl
  rw [if_neg hn]
  simp only [Dbl.toRat]
  rw [max_eq_left hb]
  have ek : binade n d = 52 + (binade n d - 52) := by ring
  rw [ek] at hx
  nth_rewrite 1 [ek]
  generalize binade n d - 52 = e at *
  have e52 : (2 : ℚ) ^ (52 + e) = 2 ^ 52 * 2 ^ e := by
    rw [zpow_add₀ (by norm_num)]
    norm_cast
  rw [e52] at hx ⊢
  have hD : 0 < d * 2 ^ e.toNat := by positivity
  have hnat : 2 ^ 52 * (d * 2 ^ e.toNat) ≤ n * 2 ^ (-e).toNat := by
    rw [two_zpow_split e, le_div_iff₀ hdq] at hx
    have hA : (0 : ℚ) < 2 ^ (-e).toNat := by positivity
    have h2 : (2 : ℚ) ^ 52 * (d * 2 ^ e.toNat) ≤ (n : ℚ) * 2 ^ (-e).toNat := by
      have := mul_le_mul_of_nonneg_right hx (le_of_lt hA)
      have e1 : (2 : ℚ) ^ 52 * (2 ^ e.toNat / 2 ^ (-e).toNat) * d * 2 ^ (-e).toNat
          = 2 ^ 52 * (d * 2 ^ e.toNat) := by
        field_simp
        ring
      rw [e1] at this
      exact this
    exact_mod_cast h2
  have hm := roundHalfEven_ge _ _ (2 ^ 52) hD hnat
  have hmq : (2 : ℚ) ^ 52 ≤ ((roundHalfEven (n * 2 ^ (-e).toNat) (d * 2 ^ e.toNat) : Nat) : ℚ) := by
    exact_mod_cast hm
  exact mul_le_mul_of_nonneg_right hmq (by positivity)

theorem binade_mono (n d n' d' : Nat) (hn : n ≠ 0) (hn' : n' ≠ 0) (hd : 0 < d) (hd' : 0 < d')
    (h : (n : ℚ) / d ≤ (n' : ℚ) / d') : binade n d ≤ binade n' d' := by
  have h1 := (binade_spec n d hn hd).1
  have h2 := (binade_spec n' d' hn' hd').2
  by_contra hc
  push_neg at hc
  have : (2 : ℚ) ^ (binade n' d' + 1) ≤ (2 : ℚ) ^ binade n d :=
    zpow_le_zpow_right₀ (by norm_num) (by omega)
  linarith

/-- Rounding to the nearest double is monotone. -/
theorem fl_mono (n d n' d' : Nat) (hd : 0 < d) (hd' : 0 < d')
    (h : (n : ℚ) / d ≤ (n' : ℚ) / d') : (fl n d).toRat ≤ (fl n' d').toRat := by
  have hdq : (0 : ℚ) < d := by exact_mod_cast hd
  have hdq' : (0 : ℚ) < d' := by exact_mod_cast hd'
  by_cases hn : n = 0
  · subst hn
    have : (fl 0 d).toRat = 0 := by simp [fl, Dbl.toRat]
    rw [this]
    exact toRat_nonneg _
  have hnq : (0 : ℚ) < n := by exact_mod_cast Nat.pos_of_ne_zero hn
  have hn' : n' ≠ 0 := by
    intro h0
    subst h0
    have : (0 : ℚ) < (n : ℚ) / d := div_pos hnq hdq
    simp at h
    linarith
  have hb := binade_mono n d n' d' hn hn' hd hd' h
  have hnat : n * d' ≤ n' * d := by
    rw [div_le_div_iff₀ hdq hdq'] at h
    exact_mod_cast h
  rcases eq_or_lt_of_le (max_le_max_right (-1022) hb) with hk | hk
  · unfold fl
    rw [if_neg hn, if_neg hn']
    simp only [Dbl.toRat]
    rw [← hk]
    generalize max (binade n d) (-1022) - 52 = e
    have hD : 0 < d * 2 ^ e.toNat := by positivity
    have hD' : 0 < d' * 2 ^ e.toNat := by positivity
    have hcross : n * 2 ^ (-e).toNat * (d' * 2 ^ e.toNat)
        ≤ n' * 2 ^ (-e).toNat * (d * 2 ^ e.toNat) := by
      calc n * 2 ^ (-e).toNat * (d' * 2 ^ e.toNat)
          = n * d' * (2 ^ (-e).toNat * 2 ^ e.toNat) := by ring
        _ ≤ n' * d * (2 ^ (-e).toNat * 2 ^ e.toNat) := Nat.mul_le_mul_right _ hnat
        _ = n' * 2 ^ (-e).toNat * (d * 2 ^ e.toNat) := by ring
    have hm := roundHalfEven_mono _ _ _ _ hD hD' hcross
    have hmq : ((roundHalfEven (n * 2 ^ (-e).toNat) (d * 2 ^ e.toNat) : Nat) : ℚ)
        ≤ ((roundHalfEven (n' * 2 ^ (-e).toNat) (d' * 2 ^ e.toNat) : Nat) : ℚ) := by
      exact_mod_cast hm
    exact mul_le_mul_of_nonneg_right hmq (by positivity)
  · have hb' : -1022 ≤ binade n' d' := by
      by_contra hc
      push_neg at hc
      rw [max_eq_right (le_of_lt hc)] at hk
      have := le_max_right (binade n d) (-1022)
      omega
    have hk' : max (binade n d) (-1022) + 1 ≤ binade n' d' := by
      rw [max_eq_left hb'] at hk
      omega
    calc (fl n d).toRat ≤ (2 : ℚ) ^ (max (binade n d) (-1022) + 1) := fl_le_pow n d hn hd
      _ ≤ (2 : ℚ) ^ binade n' d' := zpow_le_zpow_right₀ (by norm_num) hk'
      _ ≤ (fl n' d').toRat := fl_ge_pow n' d' hn' hd' hb'

theorem jsMul_mono (x y : Dbl) (k : Nat) (h : x.toRat ≤ y.toRat) :
    (jsMul x k).toRat ≤ (jsMul y k).toRat := by
  have hval : ∀ z : Dbl, ((z.mant * k * 2 ^ z.exp.toNat : Nat) : ℚ)
      / ((2 ^ (-z.exp).toNat : Nat) : ℚ) = z.toRat * k := by
    intro z
    simp only [Dbl.toRat]
    rw [two_zpow_split z.exp]
    push_cast
    ring
  unfold jsMul
  apply fl_mono _ _ _ _ (by positivity) (by positivity)
  rw [hval x, hval y]
  exact mul_le_mul_of_nonneg_right h (by positivity)

theorem mathRound_mono (x y : Dbl) (h : x.toRat ≤ y.toRat) : mathRound x ≤ mathRound y := by
  have hx := (mathRound_bounds x).1
  have hy := (mathRound_bounds y).2
  have : (mathRound x : ℚ) < (mathRound y : ℚ) + 1 := by linarith
  have h2 : mathRound x < mathRound y + 1 := by exact_mod_cast this
  omega

/-- The percentage is monotone in the number of completed items, whatever the
total. -/
theorem percent_mono (c c' t : Nat) (h : c ≤ c') : percent c t ≤ percent c' t := by
  unfold percent
  by_cases ht : t > 0
  · rw [if_pos ht, if_pos ht]
    apply mathRound_mono
    apply jsMul_mono
    unfold jsDiv
    apply fl_mono _ _ _ _ ht ht
    have htq : (0 : ℚ) < t := by exact_mod_cast ht
    have hq : (c : ℚ) ≤ c' := by exact_mod_cast h
    exact div_le_div_of_nonneg_right hq (le_of_lt htq)
  · rw [if_neg ht, if_neg ht]

theorem itemsUp_refl (l : List Item) : ItemsUp l l := ⟨rfl, le_refl _⟩

theorem dayUp_refl (d : Day) : DayUp d d := itemsUp_refl _

theorem weekUp_refl (w : Week) : WeekUp w w :=
  ⟨itemsUp_refl _, forall₂_self DayUp dayUp_refl _⟩

theorem phaseUp_refl (ph : Phase) : PhaseUp ph ph :=
  ⟨itemsUp_refl _, forall₂_self WeekUp weekUp_refl _⟩

theorem projectUp_refl (p : Project) : ProjectUp p p :=
  ⟨rfl, rfl, itemsUp_refl _, forall₂_self PhaseUp phaseUp_refl _,
    forall₂_self WeekUp weekUp_refl _, forall₂_self DayUp dayUp_refl _⟩

theorem itemsUp_append (a a' b b' : List Item) (h1 : ItemsUp a a') (h2 : ItemsUp b b') :
    ItemsUp (a ++ b) (a' ++ b') := by
  obtain ⟨l1, c1⟩ := h1
  obtain ⟨l2, c2⟩ := h2
  refine ⟨?_, ?_⟩
  · rw [List.length_append, List.length_append, l1, l2]
  · rw [completedCount_append, completedCount_append]
    exact Nat.add_le_add c1 c2

theorem itemsUp_flatMap {α : Type} (R : α → α → Prop) (f : α → List Item)
    (h : ∀ a b, R a b → ItemsUp (f a) (f b)) (l l' : List α) (hl : List.Forall₂ R l l') :
    ItemsUp (l.flatMap f) (l'.flatMap f) := by
  induction hl with
  | nil => exact itemsUp_refl []
  | cons hab _ ih =>
    rw [List.flatMap_cons, List.flatMap_cons]
    exact itemsUp_append _ _ _ _ (h _ _ hab) ih

theorem modifyNth_eq_set (items : List Item) (index : Nat) (item : Item)
    (hx : items[index]? = some item) (hc : item.completed = false) :
    modifyNth items index (fun it => { it with completed := !it.completed })
      = items.set index { item with completed := true } := by
  induction items generalizing index with
  | nil => simp at hx
  | cons x xs ih =>
    cases index with
    | zero =>
      simp only [List.getElem?_cons_zero, Option.some.injEq] at hx
      subst hx
      simp [modifyNth, hc]
    | succ n =>
      simp only [List.getElem?_cons_succ] at hx
      simp [modifyNth, ih n hx]

theorem itemsUp_toggle (items : List Item) (index : Nat) (item : Item)
    (hx : items[index]? = some item) (hc : item.completed = false) :
    ItemsUp items (modifyNth items index fun it => { it with completed := !it.completed }) := by
  induction items generalizing index with
  | nil => simp at hx
  | cons x xs ih =>
    cases index with
    | zero =>
      simp only [List.getElem?_cons_zero, Option.some.injEq] at hx
      subst hx
      refine ⟨rfl, ?_⟩
      simp [modifyNth, completedCount, List.filter_cons, hc]
    | succ n =>
      simp only [List.getElem?_cons_succ] at hx
      obtain ⟨h1, h2⟩ := ih n hx
      refine ⟨?_, ?_⟩
      · simp only [modifyNth, List.length_cons, h1]
      · have e1 : completedCount (x :: xs) = completedCount [x] + completedCount xs :=
          completedCount_append [x] xs
        have e2 : completedCount (modifyNth (x :: xs) (n + 1)
              fun it => { it with completed := !it.completed })
            = completedCount [x] + completedCount (modifyNth xs n
              fun it => { it with completed := !it.completed }) :=
          completedCount_append [x] _
        rw [e1, e2]
        exact Nat.add_le_add_left h2 _

theorem weekUp_items (w w' : Week) (h : WeekUp w w') : ItemsUp (weekItems w) (weekItems w') :=
  itemsUp_append _ _ _ _ h.1 (itemsUp_flatMap DayUp dayItems (fun _ _ h => h) _ _ h.2)

theorem phaseUp_items (ph ph' : Phase) (h : PhaseUp ph ph') :
    ItemsUp (phaseItems ph) (phaseItems ph') :=
  itemsUp_append _ _ _ _ h.1 (itemsUp_flatMap WeekUp weekItems weekUp_items _ _ h.2)

theorem projectUp_items (p p' : Project) (h : ProjectUp p p') :
    ItemsUp (countedItems p) (countedItems p') := by
  obtain ⟨hph, hwk, ht, hps, hws, hds⟩ := h
  unfold countedItems
  rw [hph, hwk]
  refine itemsUp_append _ _ _ _ (itemsUp_append _ _ _ _ (itemsUp_append _ _ _ _ ht
    (itemsUp_flatMap PhaseUp phaseItems phaseUp_items _ _ hps)) ?_) ?_
  · by_cases hc : p.phases.isNone = true
    · rw [if_pos hc, if_pos hc]
      exact itemsUp_flatMap WeekUp weekItems weekUp_items _ _ hws
    · rw [if_neg hc, if_neg hc]
      exact itemsUp_refl []
  · by_cases hc : (p.weeks.isNone && p.phases.isNone) = true
    · rw [if_pos hc, if_pos hc]
      exact itemsUp_flatMap DayUp dayItems (fun _ _ h => h) _ _ hds
    · rw [if_neg hc, if_neg hc]
      exact itemsUp_refl []

theorem percent_of_itemsUp (l l' : List Item) (h : ItemsUp l l') :
    percent (completedCount l) l.length ≤ percent (completedCount l') l'.length := by
  rw [h.1]
  exact percent_mono _ _ _ h.2

theorem dayUp_progress (d d' : Day) (h : DayUp d d') : DayProgressUp d d' := by
  unfold DayProgressUp
  rw [calculateDayProgress_eq, calculateDayProgress_eq]
  exact percent_of_itemsUp _ _ h

theorem weekUp_progress (w w' : Week) (h : WeekUp w w') : WeekProgressUp w w' := by
  refine ⟨?_, h.2.imp dayUp_progress⟩
  rw [calculateWeekProgress_eq, calculateWeekProgress_eq]
  exact percent_of_itemsUp _ _ (weekUp_items w w' h)

theorem phaseUp_progress (ph ph' : Phase) (h : PhaseUp ph ph') : PhaseProgressUp ph ph' := by
  refine ⟨?_, h.2.imp weekUp_progress⟩
  rw [calculatePhaseProgress_eq, calculatePhaseProgress_eq]
  exact percent_of_itemsUp _ _ (phaseUp_items ph ph' h)

theorem projectUp_progress (p p' : Project) (h : ProjectUp p p') : ProjectProgressUp p p' := by
  refine ⟨?_, h.2.2.2.1.imp phaseUp_progress, h.2.2.2.2.1.imp weekUp_progress,
    h.2.2.2.2.2.imp dayUp_progress⟩
  rw [calculateProjectProgress_eq, calculateProjectProgress_eq]
  exact percent_of_itemsUp _ _ (projectUp_items p p' h)

theorem forall₂_modifyFirst {α : Type} (R : α → α → Prop) (hrefl : ∀ a, R a a)
    (l : List α) (p : α → Bool) (f : α → α) (h : ∀ x, l.find? p = some x → R x (f x)) :
    List.Forall₂ R l (modifyFirst l p f) := by
  induction l with
  | nil => exact List.Forall₂.nil
  | cons x xs ih =>
    unfold modifyFirst
    by_cases hx : p x = true
    · rw [if_pos hx]
      exact List.Forall₂.cons (h x (by simp [List.find?, hx])) (forall₂_self R hrefl xs)
    · rw [if_neg hx]
      simp only [Bool.not_eq_true] at hx
      refine List.Forall₂.cons (hrefl x) (ih fun y hy => h y ?_)
      simp [List.find?, hx, hy]

theorem phasesUp_modifyWeekInPhases (id : String) (f : Week → Week) (phases : List Phase)
    (h : ∀ w, findWeekInPhases phases id = some w → WeekUp w (f w)) :
    ∀ phases2, modifyWeekInPhases phases id f = some phases2 →
      List.Forall₂ PhaseUp phases phases2 := by
  induction phases with
  | nil =>
    intro phases2 hm
    cases hm
  | cons ph rest ih =>
    intro phases2 hm
    have skip : (∀ l, findWeekInPhases (ph :: l) id = findWeekInPhases l id) →
        modifyWeekInPhases (ph :: rest) id f
          = (modifyWeekInPhases rest id f).map (fun r => ph :: r) →
        List.Forall₂ PhaseUp (ph :: rest) phases2 := by
      intro e2 e1
      rw [e1] at hm
      cases hr : modifyWeekInPhases rest id f with
      | none => rw [hr] at hm; cases hm
      | some r =>
        rw [hr] at hm
        simp only [Option.map_some', Option.some.injEq] at hm
        subst hm
        exact List.Forall₂.cons (phaseUp_refl ph)
          (ih (fun w hw => h w (by rw [e2]; exact hw)) r hr)
    cases hw : ph.weeks with
    | none =>
      exact skip (fun l => by simp [findWeekInPhases, hw]) (by simp [modifyWeekInPhases, hw])
    | some ws =>
      by_cases ha : (ws.any fun w => w.id == id) = true
      · have e1 : modifyWeekInPhases (ph :: rest) id f
            = some ({ ph with
                weeks := some (modifyFirst ws (fun w => w.id == id) f) } :: rest) := by
          simp [modifyWeekInPhases, hw, ha]
        rw [e1] at hm
        simp only [Option.some.injEq] at hm
        subst hm
        refine List.Forall₂.cons ⟨itemsUp_refl _, ?_⟩ (forall₂_self PhaseUp phaseUp_refl rest)
        rw [hw]
        refine forall₂_modifyFirst WeekUp weekUp_refl ws _ f fun x hx => h x ?_
        simp [findWeekInPhases, hw, hx]
      · simp only [Bool.not_eq_true] at ha
        have hnone := find?_any_false ws _ ha
        exact skip (fun l => by simp [findWeekInPhases, hw, hnone])
          (by simp [modifyWeekInPhases, hw, ha])

theorem weeksUp_modifyDayInWeeks (id : String) (f : Day → Day) (weeks : List Week)
    (h : ∀ d, findDayInWeeks weeks id = some d → DayUp d (f d)) :
    ∀ weeks2, modifyDayInWeeks weeks id f = some weeks2 →
      List.Forall₂ WeekUp weeks weeks2 := by
  induction weeks with
  | nil =>
    intro weeks2 hm
    cases hm
  | cons wk rest ih =>
    intro weeks2 hm
    have skip : (∀ l, findDayInWeeks (wk :: l) id = findDayInWeeks l id) →
        modifyDayInWeeks (wk :: rest) id f
          = (modifyDayInWeeks rest id f).map (fun r => wk :: r) →
        List.Forall₂ WeekUp (wk :: rest) weeks2 := by
      intro e2 e1
      rw [e1] at hm
      cases hr : modifyDayInWeeks rest id f with
      | none => rw [hr] at hm; cases hm
      | some r =>
        rw [hr] at hm
        simp only [Option.map_some', Option.some.injEq] at hm
        subst hm
        exact List.Forall₂.cons (weekUp_refl wk)
          (ih (fun d hd => h d (by rw [e2]; exact hd)) r hr)
    cases hd : wk.days with
    | none =>
      exact skip (fun l => by simp [findDayInWeeks, hd]) (by simp [modifyDayInWeeks, hd])
    | some ds =>
      by_cases ha : (ds.any fun d => d.id == id) = true
      · have e1 : modifyDayInWeeks (wk :: rest) id f
            = some ({ wk with
                days := some (modifyFirst ds (fun d => d.id == id) f) } :: rest) := by
          simp [modifyDayInWeeks, hd, ha]
        rw [e1] at hm
        simp only [Option.some.injEq] at hm
        subst hm
        refine List.Forall₂.cons ⟨itemsUp_refl _, ?_⟩ (forall₂_self WeekUp weekUp_refl rest)
        rw [hd]
        refine forall₂_modifyFirst DayUp dayUp_refl ds _ f fun x hx => h x ?_
        simp [findDayInWeeks, hd, hx]
      · simp only [Bool.not_eq_true] at ha
        have hnone := find?_any_false ds _ ha
        exact skip (fun l => by simp [findDayInWeeks, hd, hnone])
          (by simp [modifyDayInWeeks, hd, ha])

theorem phasesUp_modifyDayInPhases (id : String) (f : Day → Day) (hf : ∀ d, (f d).id = d.id)
    (phases : List Phase)
    (h : ∀ d, findDayInPhases phases id = some d → DayUp d (f d)) :
    ∀ phases2, modifyDayInPhases phases id f = some phases2 →
      List.Forall₂ PhaseUp phases phases2 := by
  induction phases with
  | nil =>
    intro phases2 hm
    cases hm
  | cons ph rest ih =>
    intro phases2 hm
    have skip : (∀ l, findDayInPhases (ph :: l) id = findDayInPhases l id) →
        modifyDayInPhases (ph :: rest) id f
          = (modifyDayInPhases rest id f).map (fun r => ph :: r) →
        List.Forall₂ PhaseUp (ph :: rest) phases2 := by
      intro e2 e1
      rw [e1] at hm
      cases hr : modifyDayInPhases rest id f with
      | none => rw [hr] at hm; cases hm
      | some r =>
        rw [hr] at hm
        simp only [Option.map_some', Option.some.injEq] at hm
        subst hm
        exact List.Forall₂.cons (phaseUp_refl ph)
          (ih (fun d hd => h d (by rw [e2]; exact hd)) r hr)
    cases hw : ph.weeks with
    | none =>
      exact skip (fun l => by simp [findDayInPhases, hw]) (by simp [modifyDayInPhases, hw])
    | some ws =>
      have hsame := (findDayInWeeks_modify id f hf ws).2
      cases hmw : modifyDayInWeeks ws id f with
      | some ws2 =>
        have e1 : modifyDayInPhases (ph :: rest) id f
            = some ({ ph with weeks := some ws2 } :: rest) := by
          simp [modifyDayInPhases, hw, hmw]
        rw [e1] at hm
        simp only [Option.some.injEq] at hm
        subst hm
        refine List.Forall₂.cons ⟨itemsUp_refl _, ?_⟩ (forall₂_self PhaseUp phaseUp_refl rest)
        rw [hw]
        refine weeksUp_modifyDayInWeeks id f ws (fun d hd => h d ?_) ws2 hmw
        simp [findDayInPhases, hw, hd]
      | none =>
        rw [hmw] at hsame
        have hnone : findDayInWeeks ws id = none := by
          cases hx : findDayInWeeks ws id with
          | none => rfl
          | some d => rw [hx] at hsame; cases hsame
        exact skip (fun l => by simp [findDayInPhases, hw, hnone])
          (by simp [modifyDayInPhases, hw, hmw])

theorem projectUp_modifyWeek (p : Project) (id : String) (f : Week → Week)
    (hf : ∀ w, (f w).id = w.id) (h : ∀ w, findWeek p id = some w → WeekUp w (f w)) :
    ProjectUp p (modifyWeek p id f) := by
  have top : ∀ ws, p.weeks = some ws →
      (∀ w, (ws.find? fun w => w.id == id) = some w → WeekUp w (f w)) →
      ProjectUp p { p with weeks := some (modifyFirst ws (fun w => w.id == id) f) } := by
    intro ws hw hfound
    refine ⟨rfl, ?_, itemsUp_refl _, forall₂_self PhaseUp phaseUp_refl _, ?_,
      forall₂_self DayUp dayUp_refl _⟩
    · rw [hw]; rfl
    · rw [hw]
      exact forall₂_modifyFirst WeekUp weekUp_refl ws _ f hfound
  cases hp : p.phases with
  | none =>
    cases hw : p.weeks with
    | none =>
      have e : modifyWeek p id f = p := by simp [modifyWeek, hp, hw]
      rw [e]
      exact projectUp_refl p
    | some ws =>
      have e : modifyWeek p id f
          = { p with weeks := some (modifyFirst ws (fun w => w.id == id) f) } := by
        simp [modifyWeek, hp, hw]
      rw [e]
      exact top ws hw fun w hx => h w (by simp [findWeek, hp, hw, hx])
  | some ps =>
    have hsame := (findWeekInPhases_modify id f hf ps).2
    cases hm : modifyWeekInPhases ps id f with
    | some ps2 =>
      have e : modifyWeek p id f = { p with phases := some ps2 } := by
        simp [modifyWeek, hp, hm]
      rw [e]
      refine ⟨?_, rfl, itemsUp_refl _, ?_, forall₂_self WeekUp weekUp_refl _,
        forall₂_self DayUp dayUp_refl _⟩
      · rw [hp]; rfl
      · rw [hp]
        refine phasesUp_modifyWeekInPhases id f ps (fun w hx => h w ?_) ps2 hm
        simp [findWeek, hp, hx]
    | none =>
      rw [hm] at hsame
      have hnone : findWeekInPhases ps id = none := by
        cases hx : findWeekInPhases ps id with
        | none => rfl
        | some w => rw [hx] at hsame; cases hsame
      cases hw : p.weeks with
      | none =>
        have e : modifyWeek p id f = p := by simp [modifyWeek, hp, hw, hm]
        rw [e]
        exact projectUp_refl p
      | some ws =>
        have e : modifyWeek p id f
            = { p with weeks := some (modifyFirst ws (fun w => w.id == id) f) } := by
          simp [modifyWeek, hp, hw, hm]
        rw [e]
        exact top ws hw fun w hx => h w (by simp [findWeek, hp, hw, hnone, hx])

theorem modifyDay_of_phases (p : Project) (id : String) (f : Day → Day)
    (ps ps2 : List Phase) (hp : p.phases = some ps)
    (hm : modifyDayInPhases ps id f = some ps2) :
    modifyDay p id f = { p with phases := some ps2 } := by
  simp [modifyDay, hp, hm]

theorem findDay_of_phases (p : Project) (id : String) (ps : List Phase) (d : Day)
    (hp : p.phases = some ps) (hx : findDayInPhases ps id = some d) :
    findDay p id = some d := by
  simp [findDay, hp, hx]

theorem modifyDay_of_weeks (p : Project) (id : String) (f : Day → Day)
    (hpm : ∀ ps, p.phases = some ps → modifyDayInPhases ps id f = none)
    (ws ws2 : List Week) (hw : p.weeks = some ws)
    (hm : modifyDayInWeeks ws id f = some ws2) :
    modifyDay p id f = { p with weeks := some ws2 } := by
  cases hp : p.phases with
  | none => simp [modifyDay, hp, hw, hm]
  | some ps => simp [modifyDay, hp, hpm ps hp, hw, hm]

theorem findDay_of_weeks (p : Project) (id : String)
    (hpf : ∀ ps, p.phases = some ps → findDayInPhases ps id = none)
    (ws : List Week) (d : Day) (hw : p.weeks = some ws)
    (hx : findDayInWeeks ws id = some d) : findDay p id = some d := by
  cases hp : p.phases with
  | none => simp [findDay, hp, hw, hx]
  | some ps => simp [findDay, hp, hpf ps hp, hw, hx]

theorem modifyDay_of_days (p : Project) (id : String) (f : Day → Day)
    (hpm : ∀ ps, p.phases = some ps → modifyDayInPhases ps id f = none)
    (hwm : ∀ ws, p.weeks = some ws → modifyDayInWeeks ws id f = none)
    (ds : List Day) (hd : p.days = some ds) :
    modifyDay p id f = { p with days := some (modifyFirst ds (fun d => d.id == id) f) } := by
  cases hp : p.phases with
  | none =>
    cases hw : p.weeks with
    | none => simp [modifyDay, hp, hw, hd]
    | some ws => simp [modifyDay, hp, hw, hwm ws hw, hd]
  | some ps =>
    cases hw : p.weeks with
    | none => simp [modifyDay, hp, hpm ps hp, hw, hd]
    | some ws => simp [modifyDay, hp, hpm ps hp, hw, hwm ws hw, hd]

theorem findDay_of_days (p : Project) (id : String)
    (hpf : ∀ ps, p.phases = some ps → findDayInPhases ps id = none)
    (hwf : ∀ ws, p.weeks = some ws → findDayInWeeks ws id = none)
    (ds : List Day) (d : Day) (hd : p.days = some ds)
    (hx : (ds.find? fun d => d.id == id) = some d) : findDay p id = some d := by
  cases hp : p.phases with
  | none =>
    cases hw : p.weeks with
    | none => simp [findDay, hp, hw, hd, hx]
    | some ws => simp [findDay, hp, hw, hwf ws hw, hd, hx]
  | some ps =>
    cases hw : p.weeks with
    | none => simp [findDay, hp, hpf ps hp, hw, hd, hx]
    | some ws => simp [findDay, hp, hpf ps hp, hw, hwf ws hw, hd, hx]

theorem modifyDay_of_none (p : Project) (id : String) (f : Day → Day)
    (hpm : ∀ ps, p.phases = some ps → modifyDayInPhases ps id f = none)
    (hwm : ∀ ws, p.weeks = some ws → modifyDayInWeeks ws id f = none)
    (hd : p.days = none) : modifyDay p id f = p := by
  cases hp : p.phases with
  | none =>
    cases hw : p.weeks with
    | none => simp [modifyDay, hp, hw, hd]
    | some ws => simp [modifyDay, hp, hw, hwm ws hw, hd]
  | some ps =>
    cases hw : p.weeks with
    | none => simp [modifyDay, hp, hpm ps hp, hw, hd]
    | some ws => simp [modifyDay, hp, hpm ps hp, hw, hwm ws hw, hd]

theorem projectUp_modifyDay (p : Project) (id : String) (f : Day → Day)
    (hf : ∀ d, (f d).id = d.id) (h : ∀ d, findDay p id = some d → DayUp d (f d)) :
    ProjectUp p (modifyDay p id f) := by
  have inPhasesNone : ∀ ps, modifyDayInPhases ps id f = none → findDayInPhases ps id = none := by
    intro ps hm
    have hsame := (findDayInPhases_modify id f hf ps).2
    rw [hm] at hsame
    cases hx : findDayInPhases ps id with
    | none => rfl
    | some d => rw [hx] at hsame; cases hsame
  have inWeeksNone : ∀ ws, modifyDayInWeeks ws id f = none → findDayInWeeks ws id = none := by
    intro ws hm
    have hsame := (findDayInWeeks_modify id f hf ws).2
    rw [hm] at hsame
    cases hx : findDayInWeeks ws id with
    | none => rfl
    | some d => rw [hx] at hsame; cases hsame
  have hph : (∃ ps ps2, p.phases = some ps ∧ modifyDayInPhases ps id f = some ps2) ∨
      (∀ ps, p.phases = some ps → modifyDayInPhases ps id f = none) := by
    cases hp : p.phases with
    | none => exact Or.inr fun ps e => by cases e
    | some ps =>
      cases hm : modifyDayInPhases ps id f with
      | none =>
        refine Or.inr fun ps1 e => ?_
        simp only [Option.some.injEq] at e
        rw [← e]; exact hm
      | some ps2 => exact Or.inl ⟨ps, ps2, rfl, hm⟩
  rcases hph with ⟨ps, ps2, hp, hm⟩ | hpm
  · rw [modifyDay_of_phases p id f ps ps2 hp hm]
    refine ⟨?_, rfl, itemsUp_refl _, ?_, forall₂_self WeekUp weekUp_refl _,
      forall₂_self DayUp dayUp_refl _⟩
    · rw [hp]; rfl
    · rw [hp]
      exact phasesUp_modifyDayInPhases id f hf ps
        (fun d hx => h d (findDay_of_phases p id ps d hp hx)) ps2 hm
  have hpf : ∀ ps, p.phases = some ps → findDayInPhases ps id = none :=
    fun ps e => inPhasesNone ps (hpm ps e)
  have hwk : (∃ ws ws2, p.weeks = some ws ∧ modifyDayInWeeks ws id f = some ws2) ∨
      (∀ ws, p.weeks = some ws → modifyDayInWeeks ws id f = none) := by
    cases hw : p.weeks with
    | none => exact Or.inr fun ws e => by cases e
    | some ws =>
      cases hm : modifyDayInWeeks ws id f with
      | none =>
        refine Or.inr fun ws1 e => ?_
        simp only [Option.some.injEq] at e
        rw [← e]; exact hm
      | some ws2 => exact Or.inl ⟨ws, ws2, rfl, hm⟩
  rcases hwk with ⟨ws, ws2, hw, hm⟩ | hwm
  · rw [modifyDay_of_weeks p id f hpm ws ws2 hw hm]
    refine ⟨rfl, ?_, itemsUp_refl _, forall₂_self PhaseUp phaseUp_refl _, ?_,
      forall₂_self DayUp dayUp_refl _⟩
    · rw [hw]; rfl
    · rw [hw]
      exact weeksUp_modifyDayInWeeks id f ws
        (fun d hx => h d (findDay_of_weeks p id hpf ws d hw hx)) ws2 hm
  have hwf : ∀ ws, p.weeks = some ws → findDayInWeeks ws id = none :=
    fun ws e => inWeeksNone ws (hwm ws e)
  cases hd : p.days with
  | none =>
    rw [modifyDay_of_none p id f hpm hwm hd]
    exact projectUp_refl p
  | some ds =>
    rw [modifyDay_of_days p id f hpm hwm ds hd]
    refine ⟨rfl, rfl, itemsUp_refl _, forall₂_self PhaseUp phaseUp_refl _,
      forall₂_self WeekUp weekUp_refl _, ?_⟩
    rw [hd]
    exact forall₂_modifyFirst DayUp dayUp_refl ds _ f
      (fun d hx => h d (findDay_of_days p id hpf hwf ds d hd hx))

theorem projectUp_toggle (view : CurrentView) (p : Project) (items : List Item) (index : Nat)
    (item : Item) (hi : getItemsArray view p = .ok (some items))
    (hx : items[index]? = some item) (hc : item.completed = false) :
    ProjectUp p (modifyItems view
      (fun l => modifyNth l index fun it => { it with completed := !it.completed }) p) := by
  have hup := itemsUp_toggle items index item hx hc
  have hopt : ∀ o : Option (List Item), o = some items →
      ItemsUp (o.getD []) ((o.map fun l =>
        modifyNth l index fun it => { it with completed := !it.completed }).getD []) := by
    intro o ho
    rw [ho]
    exact hup
  unfold getItemsArray at hi
  unfold modifyItems
  by_cases h0 : view.type = "project"
  · rw [if_pos h0] at hi ⊢
    simp only [Except.ok.injEq] at hi
    exact ⟨rfl, rfl, hopt _ hi, forall₂_self PhaseUp phaseUp_refl _,
      forall₂_self WeekUp weekUp_refl _, forall₂_self DayUp dayUp_refl _⟩
  rw [if_neg h0] at hi ⊢
  by_cases h1 : view.type = "phase"
  · rw [if_pos h1] at hi ⊢
    have key : List.Forall₂ PhaseUp (p.phases.getD [])
        ((p.phases.map (fun ps => modifyFirst ps (fun q => some q.id == view.phaseId)
          (fun ph => { ph with goals := ph.goals.map (fun l =>
            modifyNth l index (fun it => { it with completed := !it.completed })) }))).getD
          []) := by
      cases hp : p.phases with
      | none => exact List.Forall₂.nil
      | some ps =>
        rw [hp] at hi
        dsimp only at hi
        refine forall₂_modifyFirst PhaseUp phaseUp_refl ps _ _ fun ph hph => ?_
        rw [hph] at hi
        simp only [Except.ok.injEq] at hi
        exact ⟨hopt _ hi, forall₂_self WeekUp weekUp_refl _⟩
    refine ⟨?_, rfl, itemsUp_refl _, key, forall₂_self WeekUp weekUp_refl _,
      forall₂_self DayUp dayUp_refl _⟩
    cases p.phases <;> rfl
  rw [if_neg h1] at hi ⊢
  by_cases h2 : view.type = "week"
  · rw [if_pos h2] at hi ⊢
    cases hv : view.weekId with
    | none =>
      rw [hv] at hi
      simp at hi
    | some wid =>
      rw [hv] at hi
      dsimp only at hi ⊢
      refine projectUp_modifyWeek p wid _ (fun _ => rfl) fun w hw => ?_
      rw [hw] at hi
      simp only [Except.ok.injEq] at hi
      exact ⟨hopt _ hi, forall₂_self DayUp dayUp_refl _⟩
  rw [if_neg h2] at hi ⊢
  by_cases h3 : view.type = "day"
  · rw [if_pos h3] at hi ⊢
    cases hv : view.dayId with
    | none =>
      rw [hv] at hi
      simp at hi
    | some did =>
      rw [hv] at hi
      dsimp only at hi ⊢
      refine projectUp_modifyDay p did _ (fun _ => rfl) fun d hd => ?_
      rw [hd] at hi
      simp only [Except.ok.injEq] at hi
      exact hopt _ hi
  rw [if_neg h3] at hi
  simp at hi

/-- C28: when the current view resolves to a checklist whose item at `index` is
not completed, `toggleItem` marks that item completed, and afterwards
`calculateProjectProgress` of the project is not smaller than before, nor is
`calculatePhaseProgress`, `calculateWeekProgress` or `calculateDayProgress` of
any phase, week or day of the project (the nodes that contain the item among
them). -/
theorem toggleItem_monotone (st : AppState) (index : Nat) (itemType now : String)
    (project : Project) (items : List Item) (item : Item)
    (hp : findProject st.appData st.currentView.projectId = some project)
    (hi : getItemsArray st.currentView project = .ok (some items))
    (hx : items[index]? = some item) (hc : item.completed = false) :
    ∃ after,
      findProject (toggleItem st index itemType now).state.appData st.currentView.projectId
        = some after ∧
      getItemsArray st.currentView after
        = .ok (some (items.set index { item with completed := true })) ∧
      ProjectProgressUp project after := by
  have hlt : index < items.length := by
    by_contra hge
    rw [List.getElem?_eq_none (Nat.le_of_not_lt hge)] at hx
    cases hx
  refine ⟨modifyItems st.currentView
    (fun l => modifyNth l index fun it => { it with completed := !it.completed }) project,
    ?_, ?_, ?_⟩
  · have e : toggleItem st index itemType now
        = saveData now (modifyProject st (modifyItems st.currentView fun l =>
            modifyNth l index fun it => { it with completed := !it.completed })) := by
      simp only [toggleItem, hp, hi, hlt, if_true]
    rw [e]
    show findProject (modifyProject st _).appData st.currentView.projectId = _
    rw [findProject_modifyProject st _ (modifyItems_id st.currentView _), hp]
    rfl
  · rw [getItemsArray_modifyItems st.currentView _ project items hi,
      modifyNth_eq_set items index item hx hc]
  · exact projectUp_progress _ _ (projectUp_toggle st.currentView project items index item hi hx hc)

theorem toggleItem_monotone_witness :
    findProject dayViewState.appData dayViewState.currentView.projectId = some samplePhased ∧
    getItemsArray dayViewState.currentView samplePhased
      = .ok (some [⟨"x", true⟩, ⟨"y", false⟩]) ∧
    [(⟨"x", true⟩ : Item), ⟨"y", false⟩][1]? = some ⟨"y", false⟩ ∧
    (⟨"y", false⟩ : Item).completed = false ∧
    ∃ after,
      findProject (toggleItem dayViewState 1 "task" "2024-01-01T00:00:00.000Z").state.appData
          dayViewState.currentView.projectId = some after ∧
      getItemsArray dayViewState.currentView after
        = .ok (some ([(⟨"x", true⟩ : Item), ⟨"y", false⟩].set 1
            { (⟨"y", false⟩ : Item) with completed := true })) ∧
      ProjectProgressUp samplePhased after :=
  ⟨by decide, rfl, rfl, rfl,
    toggleItem_monotone dayViewState 1 "task" "2024-01-01T00:00:00.000Z" samplePhased
      [⟨"x", true⟩, ⟨"y", false⟩] ⟨"y", false⟩ (by decide) rfl rfl rfl⟩

end SmartPM
